import Mathlib

/-!
# ary.c: a type-generic growable array

A shallow embedding of `ary.h` / `ary.c`.

* `size_t` values are natural numbers; where the C code can wrap, the arithmetic is
  reduced modulo `2 ^ 64` explicitly.
* The growth computation of `ary_grow` is carried out in `double`; every value that
  occurs there is a non-negative integer, so a `double` is represented by the natural
  number it denotes and the conversion `size_t -> double` is IEEE-754 binary64
  rounding (round to nearest, ties to even).
* An element of the C array (`sz` bytes) is a value of the type parameter `α`; the
  memory block an array owns is the list `cells` of its `alloc` element slots, so a
  pointer is a block number together with an element offset.
* The pluggable allocator `ary_xrealloc` is an arbitrary answer function stored in the
  `World`, which also records every allocator, deallocator and callback invocation.
* `mutarr.h` / `mutarr.c`, the second implementation, is embedded the same way.
* The library routines the sources only call are parameters: `bsearch` is a function
  from the key and the searched run to the index it finds, `strdup("")` the pointer it
  returns. A C string is the list of its characters before the terminator.
-/

namespace AryC

/-! ## Machine arithmetic -/

/-- Number of values of a `size_t` (64-bit). -/
def SIZE_MOD : Nat := 2 ^ 64

/-- Value of a `size_t` expression whose mathematical value is `n`. -/
def size_t (n : Nat) : Nat := n % SIZE_MOD

/-- Result of `x--` / `--x` on a `size_t` holding `n`. -/
def size_dec (n : Nat) : Nat := (n + (SIZE_MOD - 1)) % SIZE_MOD

/-- How many low-order bits of `n` do not fit into a 53-bit significand. -/
def dropBits : Nat → Nat → Nat
  | 0, _ => 0
  | fuel + 1, n => if n < 2 ^ 53 then 0 else dropBits fuel (n / 2) + 1

/-- Conversion `(double)n` of a `size_t`: exact below `2 ^ 53`, otherwise rounded to
the nearest multiple of the unit in the last place, ties going to the even
significand. The result is the integer the `double` denotes. -/
def toDouble (n : Nat) : Nat :=
  let e := dropBits 64 n
  let q := n / 2 ^ e
  let r := n % 2 ^ e
  if 2 * r < 2 ^ e then q * 2 ^ e
  else if 2 ^ e < 2 * r then (q + 1) * 2 ^ e
  else if q % 2 = 0 then q * 2 ^ e else (q + 1) * 2 ^ e

/-- Conversion `(size_t)d` of a non-negative integral `double`. C leaves the result
undefined when `d` is `2 ^ 64` or more; the embedding reduces it modulo `2 ^ 64`. -/
def doubleToSize (d : Nat) : Nat := d % SIZE_MOD

/-! ## Pointers, callbacks, the world -/

/-- C pointer into a heap block: `base` is the number of the block (`0` is the null
block), `off` the element offset inside it. -/
structure Ptr where
  base : Nat
  off : Nat
  deriving DecidableEq, Repr

/-- The null pointer. -/
def NULL : Ptr := ⟨0, 0⟩

/-- Pointer arithmetic `(char *)p + k * sz`. -/
def Ptr.add (p : Ptr) (k : Nat) : Ptr := ⟨p.base, p.off + k⟩

/-- Observable calls made by the library. -/
inductive Event (α : Type) where
  | xrealloc (ptr : Ptr) (nmemb size : Nat)
  | xfree (ptr : Ptr)
  | ctor (slot : Nat) (userp : Ptr)
  | dtor (slot : Nat) (val : Option α) (userp : Ptr)

/-- Element callback `ary_elemcb_t`: given the bytes of the slot and the user pointer,
the bytes it leaves in the slot. -/
abbrev ElemCb (α : Type) := α → Ptr → α

/-- Everything outside the array: the routine installed in `ary_xrealloc` and the log
of calls. The answer of the `calls`-th invocation `ary_xrealloc(ptr, nmemb, size)` is
a block number (`0` meaning the routine returned `NULL`) and the bytes found in the
slots the new block has in excess of the old one. -/
structure World (α : Type) where
  xrealloc : Nat → Ptr → Nat → Nat → Nat × (Nat → α)
  calls : Nat
  trace : List (Event α)

/-- `struct aryb`, together with the contents `cells` of the block `buf` points to. -/
structure Aryb (α : Type) where
  len : Nat
  alloc : Nat
  sz : Nat
  buf : Ptr
  ctor : Option (ElemCb α)
  dtor : Option (ElemCb α)
  userp : Ptr
  cells : List α

/-- `struct ary(type)`: the untyped part `s` and the typed mirror fields. -/
structure Ary (α : Type) where
  s : Aryb α
  len : Nat
  buf : Ptr
  ptr : Ptr
  val : α

/-- Outcome of a function working on `struct aryb`. -/
structure FnRes (α ρ : Type) where
  w : World α
  s : Aryb α
  ret : ρ

/-- Outcome of a macro working on the typed array. -/
structure Res (α ρ : Type) where
  w : World α
  a : Ary α
  ret : ρ

/-- Outcome of a macro that may also store an element through its `ret` argument:
`out` is the value stored, `none` when nothing was stored. -/
structure ResOut (α : Type) where
  w : World α
  a : Ary α
  ret : Int
  out : Option α

/-! ## Memory primitives on a block -/

/-- Store the run `xs` into the block starting at slot `i`; bytes falling outside the
block are not part of the block. -/
def blockWrite (cells : List α) (i : Nat) (xs : List α) : List α :=
  (cells.take i ++ xs ++ cells.drop (i + xs.length)).take cells.length

/-- Read `n` slots of the block starting at slot `i`. -/
def blockRead (cells : List α) (i n : Nat) : List α :=
  (cells.drop i).take n

/-- The call `memmove(block + dst, block + src, n)` in units of elements. -/
def memmove (cells : List α) (dst src n : Nat) : List α :=
  blockWrite cells dst (blockRead cells src n)

/-- Contents of a block after a successful `realloc` to `n` slots: the old slots that
still fit, then whatever the new memory holds. -/
def resize (cells : List α) (n : Nat) (junk : Nat → α) : List α :=
  cells.take n ++ (List.range (n - cells.length)).map junk

/-- Slot of the array's block that `p[i]` designates, when `p` points into it. -/
def Aryb.slot (s : Aryb α) (p : Ptr) (i : Nat) : Option Nat :=
  if p.base = s.buf.base ∧ s.buf.off ≤ p.off + i then some (p.off + i - s.buf.off)
  else none

/-- The read `p[i]`. -/
def Aryb.load (s : Aryb α) (p : Ptr) (i : Nat) : Option α :=
  match s.slot p i with
  | some j => s.cells[j]?
  | none => none

/-- The stores `p[i] = x_0, p[i+1] = x_1, ...`; a store that does not go into the
array's block leaves the block as it is. -/
def Aryb.store (s : Aryb α) (p : Ptr) (i : Nat) (xs : List α) : Aryb α :=
  match s.slot p i with
  | some j => { s with cells := blockWrite s.cells j xs }
  | none => s

/-- The call `memmove(&p[dst], &p[src], n * sz)`. -/
def Aryb.move (s : Aryb α) (p : Ptr) (dst src n : Nat) : Aryb α :=
  match s.slot p src with
  | some j => s.store p dst (blockRead s.cells j n)
  | none => s

/-- The call `ary_xrealloc(ptr, nmemb, size)`: the world after it, the pointer
returned and the contents of fresh slots. -/
def ary_xrealloc (w : World α) (ptr : Ptr) (nmemb size : Nat) :
    World α × Ptr × (Nat → α) :=
  let r := w.xrealloc w.calls ptr nmemb size
  ({ w with calls := w.calls + 1, trace := w.trace ++ [Event.xrealloc ptr nmemb size] },
   ⟨r.1, 0⟩, r.2)

/-- The call `ary_xfree(ptr)`. -/
def ary_xfree (w : World α) (ptr : Ptr) : World α :=
  { w with trace := w.trace ++ [Event.xfree ptr] }

/-- One destructor call `dtor(&block[slot], userp)`. -/
def callDtor (dtor : ElemCb α) (userp : Ptr) (w : World α) (cells : List α) (slot : Nat) :
    World α × List α :=
  ({ w with trace := w.trace ++ [Event.dtor slot cells[slot]? userp] },
   match cells[slot]? with
   | some v => cells.set slot (dtor v userp)
   | none => cells)

/-- The loop `for (i = n; i--; elem += sz) dtor(elem, userp);` with `elem` starting at
slot `slot`. -/
def dtorLoop (dtor : ElemCb α) (userp : Ptr) :
    Nat → Nat → World α → List α → World α × List α
  | 0, _, w, cells => (w, cells)
  | i + 1, slot, w, cells =>
    let r := callDtor dtor userp w cells slot
    dtorLoop dtor userp i (slot + 1) r.1 r.2

/-! ## ary.h: growing, initialising -/

/-- The local variable `alloc` of `ary_grow` at the call of `ary_xrealloc`: the
capacity requested, `factor` being `ARY_GROWTH_FACTOR = 2.0` (ary.h, 596-599). -/
def Fn.growAlloc (s : Aryb α) (extra : Nat) : Nat :=
  if toDouble s.alloc * 2 < toDouble (size_t (s.len + extra)) then size_t (s.len + extra)
  else doubleToSize (toDouble s.alloc * 2)

/-- The function `(ary_grow)(struct aryb *ary, size_t extra)` (ary.h, 588-606). -/
def Fn.ary_grow (w : World α) (s : Aryb α) (extra : Nat) : FnRes α Int :=
  if size_t (s.len + extra) ≤ s.alloc then ⟨w, s, 1⟩
  else
    let alloc := Fn.growAlloc s extra
    let r := ary_xrealloc w s.buf alloc s.sz
    if r.2.1 = NULL then ⟨r.1, s, 0⟩
    else ⟨r.1, { s with alloc := alloc, buf := r.2.1, cells := resize s.cells alloc r.2.2 }, 1⟩

/-- The macro `ary_grow(ary, extra)` (ary.h, 206-207). -/
def ary_grow (w : World α) (a : Ary α) (extra : Nat) : Res α Int :=
  let r := Fn.ary_grow w a.s extra
  if r.ret ≠ 0 then ⟨r.w, { a with s := r.s, buf := r.s.buf }, 1⟩
  else ⟨r.w, { a with s := r.s }, 0⟩

/-- The macro `ary_init(ary, hint)` (ary.h, 118-123); `sizeof` is
`sizeof(*(ary)->buf)` and `a` the storage of the array before the call. -/
def ary_init (sizeof : Nat) (w : World α) (a : Ary α) (hint : Nat) : Res α Int :=
  ary_grow w
    { a with
      s := { len := 0, alloc := 0, sz := sizeof, buf := NULL, ctor := none, dtor := none,
             userp := NULL, cells := [] }
      len := 0
      buf := NULL }
    hint

/-- The macro `ary_avail(ary)` (ary.h, 225-226). -/
def ary_avail (a : Ary α) : Nat := size_t (a.s.alloc + SIZE_MOD - a.s.len)

/-- The live elements of the array: slots `0 .. s.len - 1` of its block. -/
def Ary.elems (a : Ary α) : List α := a.s.cells.take a.s.len

/-! ## ary.h: push, pop, shift -/

/-- The comma expression `(ary)->buf[(ary)->s.len++] = v, (ary)->len++, 1`. -/
def pushStore (w : World α) (a : Ary α) (v : α) : Res α Int :=
  let s1 := a.s.store a.buf a.s.len [v]
  ⟨w, { a with s := { s1 with len := size_t (a.s.len + 1) }, len := size_t (a.len + 1) }, 1⟩

/-- The macro `ary_push(ary, v)` (ary.h, 279-283). -/
def ary_push (w : World α) (a : Ary α) (v : α) : Res α Int :=
  if a.s.len = a.s.alloc then
    let g := ary_grow w a 1
    if g.ret ≠ 0 then pushStore g.w g.a v else ⟨g.w, g.a, 0⟩
  else pushStore w a v

/-- The macro `ary_pop(ary, ret)` (ary.h, 306-315); `ret` tells whether the `ret`
argument is non-NULL. -/
def ary_pop (w : World α) (a : Ary α) (ret : Bool) : ResOut α :=
  if a.s.len ≠ 0 then
    let n := size_dec a.s.len
    if ret then
      ⟨w, { a with s := { a.s with len := n }, len := size_dec a.len }, 1, a.s.load a.buf n⟩
    else
      match a.s.dtor with
      | some dtor =>
        let w1 : World α :=
          { w with trace := w.trace ++ [Event.dtor n (a.s.load a.buf n) a.s.userp] }
        let s1 :=
          match a.s.load a.buf n with
          | some v => a.s.store a.buf n [dtor v a.s.userp]
          | none => a.s
        ⟨w1, { a with s := { s1 with len := n }, len := size_dec a.len }, 1, none⟩
      | none => ⟨w, { a with s := { a.s with len := n }, len := size_dec a.len }, 1, none⟩
  else ⟨w, a, 0, none⟩

/-- The macro `ary_shift(ary, ret)` (ary.h, 326-339); `ret` tells whether the `ret`
argument is non-NULL. -/
def ary_shift (w : World α) (a : Ary α) (ret : Bool) : ResOut α :=
  if a.s.len ≠ 0 then
    let n := size_dec a.s.len
    if ret then
      let s1 := a.s.move a.buf 0 1 n
      ⟨w, { a with s := { s1 with len := n }, len := size_dec a.len }, 1, a.s.load a.buf 0⟩
    else
      match a.s.dtor with
      | some dtor =>
        let w1 : World α :=
          { w with trace := w.trace ++ [Event.dtor 0 (a.s.load a.buf 0) a.s.userp] }
        let s1 :=
          match a.s.load a.buf 0 with
          | some v => a.s.store a.buf 0 [dtor v a.s.userp]
          | none => a.s
        let s2 := s1.move a.buf 0 1 n
        ⟨w1, { a with s := { s2 with len := n }, len := size_dec a.len }, 1, none⟩
      | none =>
        let s1 := a.s.move a.buf 0 1 n
        ⟨w, { a with s := { s1 with len := n }, len := size_dec a.len }, 1, none⟩
  else ⟨w, a, 0, none⟩

/-! ## ary.c / ary.h: splice -/

/-- The function `(ary_splicep)(struct aryb *ary, size_t pos, size_t rlen,
size_t alen)` (ary.c, 188-213). The two clamps make `len - pos` and `len - rlen`
free of borrow, so they are plain subtractions. -/
def Fn.ary_splicep (w : World α) (s : Aryb α) (pos rlen alen : Nat) : FnRes α Ptr :=
  let pos := if pos > s.len then s.len else pos
  let rlen := if rlen > s.len - pos then s.len - pos else rlen
  let g : FnRes α Int := if alen > rlen then Fn.ary_grow w s (alen - rlen) else ⟨w, s, 1⟩
  if alen > rlen ∧ g.ret = 0 then ⟨g.w, g.s, NULL⟩
  else
    let buf := g.s.buf.add pos
    let d : World α × List α :=
      match g.s.dtor with
      | some dtor =>
        if rlen ≠ 0 then dtorLoop dtor g.s.userp rlen pos g.w g.s.cells else (g.w, g.s.cells)
      | none => (g.w, g.s.cells)
    let cells :=
      if rlen ≠ alen ∧ pos < g.s.len then
        memmove d.2 (pos + alen) (pos + rlen) (g.s.len - pos - rlen)
      else d.2
    ⟨d.1, { g.s with cells := cells, len := size_t (g.s.len - rlen + alen) }, buf⟩

/-- The macro `ary_splicep(ary, pos, rlen, alen)` (ary.h, 390-393). -/
def ary_splicep (w : World α) (a : Ary α) (pos rlen alen : Nat) : Res α Ptr :=
  let r := Fn.ary_splicep w a.s pos rlen alen
  if r.ret ≠ NULL then
    ⟨r.w, { a with s := r.s, ptr := r.ret, buf := r.s.buf, len := r.s.len }, r.ret⟩
  else ⟨r.w, { a with s := r.s, ptr := r.ret }, NULL⟩

/-- The macro `ary_splice(ary, pos, rlen, data, dlen)` (ary.h, 374-376); the pair
`(data, dlen)` is the list of the `dlen` elements found at `data`, a region outside
the array's own block. -/
def ary_splice (w : World α) (a : Ary α) (pos rlen : Nat) (data : List α) : Res α Int :=
  let r := ary_splicep w a pos rlen data.length
  if r.ret ≠ NULL then ⟨r.w, { r.a with s := r.a.s.store r.a.ptr 0 data }, 1⟩
  else ⟨r.w, r.a, 0⟩

/-! ## ary.c: the built-in allocator -/

/-- The constant `SIZE_MAX`. -/
def SIZE_MAX : Nat := SIZE_MOD - 1

/-- The constant `MUL_NO_OVERFLOW`, `(size_t)1 << (sizeof(size_t) * 4)` (ary.c, 4). -/
def MUL_NO_OVERFLOW : Nat := 2 ^ 32

/-- The function `ary_xrealloc_builtin(ptr, nmemb, size)` (ary.c, 6-12), `realloc`
being the C library routine: the pointer it returns and the calls of `realloc` it
made, each with its pointer and its byte count. -/
def ary_xrealloc_builtin (realloc : Ptr → Nat → Ptr) (ptr : Ptr) (nmemb size : Nat) :
    Ptr × List (Ptr × Nat) :=
  if (nmemb ≥ MUL_NO_OVERFLOW ∨ size ≥ MUL_NO_OVERFLOW) ∧ nmemb > 0 ∧
      SIZE_MAX / nmemb < size then (NULL, [])
  else (realloc ptr (size_t (nmemb * size)), [(ptr, size_t (nmemb * size))])

/-! ## ary.c / ary.h: shrinking, releasing, detaching -/

/-- The function `(ary_shrinktofit)(struct aryb *ary)` (ary.c, 169-186). After
`ary_xfree` the array has no block any more. -/
def Fn.ary_shrinktofit (w : World α) (s : Aryb α) : FnRes α Int :=
  if s.alloc = s.len then ⟨w, s, 1⟩
  else if s.len ≠ 0 then
    let r := ary_xrealloc w s.buf s.len s.sz
    if r.2.1 = NULL then ⟨r.1, s, 0⟩
    else ⟨r.1, { s with alloc := s.len, buf := r.2.1, cells := resize s.cells s.len r.2.2 }, 1⟩
  else ⟨ary_xfree w s.buf, { s with alloc := s.len, buf := NULL, cells := [] }, 1⟩

/-- The macro `ary_shrinktofit(ary)` (ary.h, 216-217). -/
def ary_shrinktofit (w : World α) (a : Ary α) : Res α Int :=
  let r := Fn.ary_shrinktofit w a.s
  if r.ret ≠ 0 then ⟨r.w, { a with s := r.s, buf := r.s.buf }, 1⟩
  else ⟨r.w, { a with s := r.s }, 0⟩

/-- The function `ary_freebuf(struct aryb *ary)` (ary.c, 142-154): it leaves the struct
alone, so its outcome is the world after the destructor calls and the `ary_xfree`. -/
def ary_freebuf (w : World α) (s : Aryb α) : World α :=
  ary_xfree
    (match s.dtor with
     | some dtor => if s.len ≠ 0 then (dtorLoop dtor s.userp s.len 0 w s.cells).1 else w
     | none => w)
    s.buf

/-- The macro `ary_release(ary)` (ary.h, 132-136); `sizeof` is `sizeof(*(ary)->buf)`. -/
def ary_release (sizeof : Nat) (w : World α) (a : Ary α) : Res α Unit :=
  ⟨(ary_init sizeof (ary_freebuf w a.s) a 0).w, (ary_init sizeof (ary_freebuf w a.s) a 0).a, ()⟩

/-- Outcome of a detach: `ret` is the pointer handed to the caller, `block` the
contents of the memory it points to and `size` the value stored through the size
argument, `none` when that argument is NULL. -/
structure FnDetached (α : Type) where
  w : World α
  s : Aryb α
  ret : Ptr
  block : List α
  size : Option Nat

/-- Outcome of the macro `ary_detach`, see `FnDetached`. -/
structure Detached (α : Type) where
  w : World α
  a : Ary α
  ret : Ptr
  block : List α
  size : Option Nat

/-- The function `(ary_detach)(struct aryb *ary, size_t *ret)` (ary.c, 156-167); `ret`
tells whether the `ret` argument is non-NULL. -/
def Fn.ary_detach (w : World α) (s : Aryb α) (ret : Bool) : FnDetached α :=
  let r := Fn.ary_shrinktofit w s
  ⟨r.w, { r.s with alloc := 0, len := 0, buf := NULL, cells := [] }, r.s.buf, r.s.cells,
   if ret then some r.s.len else none⟩

/-- The macro `ary_detach(ary, size)` (ary.h, 193-195). -/
def ary_detach (w : World α) (a : Ary α) (size : Bool) : Detached α :=
  let r := Fn.ary_detach w a.s size
  ⟨r.w, { a with s := r.s, ptr := r.ret, buf := NULL, len := 0 }, r.ret, r.block, r.size⟩

/-! ## ary.h: setting the length, slots, single elements -/

/-- One callback call `cb(&p[i], userp)` made through the typed pointer `p`: its effect
on the block. -/
def Aryb.callCb (s : Aryb α) (p : Ptr) (i : Nat) (cb : ElemCb α) : Aryb α :=
  match s.load p i with
  | some v => s.store p i [cb v s.userp]
  | none => s

/-- The loop `for (i = ...; i < len; i++) (ary)->s.ctor(&(ary)->buf[i], (ary)->s.userp);`
of `ary_setlen`, with `n` iterations left and `i` the current index. -/
def setlenCtor (ctor : ElemCb α) (p : Ptr) : Nat → Nat → World α → Aryb α → World α × Aryb α
  | 0, _, w, s => (w, s)
  | n + 1, i, w, s =>
    setlenCtor ctor p n (i + 1) { w with trace := w.trace ++ [Event.ctor i s.userp] }
      (s.callCb p i ctor)

/-- The loop `for (i = ...; i < len; i++) (ary)->buf[i] = (ary)->val;` of `ary_setlen`. -/
def setlenFill (val : α) (p : Ptr) : Nat → Nat → Aryb α → Aryb α
  | 0, _, s => s
  | n + 1, i, s => setlenFill val p n (i + 1) (s.store p i [val])

/-- The loop `for (i = len; i < (ary)->s.len; i++) (ary)->s.dtor(&(ary)->buf[i],
(ary)->s.userp);` of `ary_setlen`. -/
def setlenDtor (dtor : ElemCb α) (p : Ptr) : Nat → Nat → World α → Aryb α → World α × Aryb α
  | 0, _, w, s => (w, s)
  | n + 1, i, w, s =>
    setlenDtor dtor p n (i + 1)
      { w with trace := w.trace ++ [Event.dtor i (s.load p i) s.userp] } (s.callCb p i dtor)

/-- The macro `ary_setlen(ary, nlen)` (ary.h, 240-259). -/
def ary_setlen (w : World α) (a : Ary α) (nlen : Nat) : Res α Unit :=
  if a.s.len < nlen then
    let len := if a.s.alloc < nlen then a.s.alloc else nlen
    match a.s.ctor with
    | some ctor =>
      let r := setlenCtor ctor a.buf (len - a.s.len) a.s.len w a.s
      ⟨r.1, { a with s := { r.2 with len := len }, len := len }, ()⟩
    | none =>
      let s1 := setlenFill a.val a.buf (len - a.s.len) a.s.len a.s
      ⟨w, { a with s := { s1 with len := len }, len := len }, ()⟩
  else
    match a.s.dtor with
    | some dtor =>
      if a.s.len > nlen then
        let r := setlenDtor dtor a.buf (a.s.len - nlen) nlen w a.s
        ⟨r.1, { a with s := { r.2 with len := nlen }, len := nlen }, ()⟩
      else ⟨w, { a with s := { a.s with len := nlen }, len := nlen }, ()⟩
    | none => ⟨w, { a with s := { a.s with len := nlen }, len := nlen }, ()⟩

/-- The macro `ary_pushp(ary)` (ary.h, 292-295): the slot returned is
`&(ary)->buf[(ary)->len]` with the typed `len` before its increment. -/
def ary_pushp (w : World α) (a : Ary α) : Res α Ptr :=
  if a.s.len = a.s.alloc then
    let g := ary_grow w a 1
    if g.ret ≠ 0 then
      ⟨g.w, { g.a with s := { g.a.s with len := size_t (g.a.s.len + 1) },
                       len := size_t (g.a.len + 1) }, g.a.buf.add g.a.len⟩
    else ⟨g.w, g.a, NULL⟩
  else
    ⟨w, { a with s := { a.s with len := size_t (a.s.len + 1) }, len := size_t (a.len + 1) },
     a.buf.add a.len⟩

/-- The macros `ary_insertp(ary, pos)` (ary.h, 510-511). -/
def ary_insertp (w : World α) (a : Ary α) (pos : Nat) : Res α Ptr :=
  ary_splicep w a pos 0 1

/-- The macro `ary_unshiftp(ary)` (ary.h, 360-361). -/
def ary_unshiftp (w : World α) (a : Ary α) : Res α Ptr :=
  ary_splicep w a 0 0 1

/-- The macro `ary_insert(ary, pos, v)` (ary.h, 498-500). -/
def ary_insert (w : World α) (a : Ary α) (pos : Nat) (v : α) : Res α Int :=
  let r := ary_splicep w a pos 0 1
  if r.ret ≠ NULL then ⟨r.w, { r.a with s := r.a.s.store r.a.ptr 0 [v] }, 1⟩
  else ⟨r.w, r.a, 0⟩

/-- The macro `ary_unshift(ary, v)` (ary.h, 350-351). -/
def ary_unshift (w : World α) (a : Ary α) (v : α) : Res α Int :=
  let r := ary_unshiftp w a
  if r.ret ≠ NULL then ⟨r.w, { r.a with s := r.a.s.store r.a.ptr 0 [v] }, 1⟩
  else ⟨r.w, r.a, 0⟩

/-- The macro `ary_remove(ary, pos)` (ary.h, 520-521). -/
def ary_remove (w : World α) (a : Ary α) (pos : Nat) : Res α Ptr :=
  ary_splicep w a pos 1 0

/-- The call `memmove(block + dst, block + src, nbytes)` for a byte count that need
not be a multiple of the element size `sz`: `nbytes / sz` whole elements are moved, and
of the next element only the first `nbytes % sz` bytes, `mix k x y` being the element
made of the first `k` bytes of `x` followed by the remaining bytes of `y`. -/
def moveBytes (mix : Nat → α → α → α) (sz : Nat) (cells : List α) (dst src nbytes : Nat) :
    List α :=
  if nbytes % sz = 0 then blockWrite cells dst (blockRead cells src (nbytes / sz))
  else
    match cells[src + nbytes / sz]?, cells[dst + nbytes / sz]? with
    | some x, some y =>
      (blockWrite cells dst (blockRead cells src (nbytes / sz))).set (dst + nbytes / sz)
        (mix (nbytes % sz) x y)
    | _, _ => blockWrite cells dst (blockRead cells src (nbytes / sz))

/-- The macro `ary_snatch(ary, pos, ret)` (ary.h, 547-560); `ret` tells whether the
`ret` argument is non-NULL. The third argument of its `memmove` is the pointer
difference `&(ary)->buf[--(ary)->s.len] - (ary)->ptr`, a number of elements that
`memmove` takes for a number of bytes, hence `moveBytes`. -/
def ary_snatch (mix : Nat → α → α → α) (w : World α) (a : Ary α) (pos : Nat) (ret : Bool) :
    ResOut α :=
  if a.s.len ≠ 0 then
    let idx := if pos < a.s.len then pos else size_dec a.s.len
    let n := size_dec a.s.len
    let s1 : Aryb α :=
      match a.s.slot a.buf idx with
      | some j => { a.s with cells := moveBytes mix a.s.sz a.s.cells j (j + 1) (n - idx) }
      | none => a.s
    ⟨w, { a with s := { s1 with len := n }, ptr := a.buf.add idx, len := size_dec a.len }, 1,
     if ret then a.s.load a.buf idx else none⟩
  else ⟨w, a, 0, none⟩

/-! ## ary.c / ary.h: linear search -/

/-- Comparison callback `ary_cmpcb_t` / `ma_cmpcb`. -/
abbrev CmpCb (α : Type) := α → α → Int

/-- The test `comp ? !comp(elem, data) : !memcmp(elem, data, ary->sz)`. -/
def elemMatches [DecidableEq α] (comp : Option (CmpCb α)) (elem data : α) : Bool :=
  match comp with
  | some c => decide (c elem data = 0)
  | none => decide (elem = data)

/-- Outcome of a search function: the result and the position stored through `ret`,
`none` when nothing is stored. -/
structure Found where
  ret : Int
  out : Option Nat
  deriving DecidableEq, Repr

/-- The loop of `(ary_index)` with `fuel` iterations left and `i` the current index:
the index at which it returns 1, if it does. -/
def indexLoop [DecidableEq α] (comp : Option (CmpCb α)) (data : α) (cells : List α)
    (len : Nat) : Nat → Nat → Option Nat
  | 0, _ => none
  | fuel + 1, i =>
    if i < len then
      match cells[i]? with
      | some e =>
        if elemMatches comp e data then some i else indexLoop comp data cells len fuel (i + 1)
      | none => indexLoop comp data cells len fuel (i + 1)
    else none

/-- The loop `for (i = start; i--; elem -= ary->sz)` of `(ary_rindex)` with `fuel`
iterations left, `i` the counter before the test `i--` and `elem` the index of the
element `elem` points to: the value of `i` at which it returns 1, if it does. -/
def rindexLoop [DecidableEq α] (comp : Option (CmpCb α)) (data : α) (cells : List α) :
    Nat → Nat → Nat → Option Nat
  | 0, _, _ => none
  | fuel + 1, i, elem =>
    if i ≠ 0 then
      match cells[elem]? with
      | some e =>
        if elemMatches comp e data then some (i - 1)
        else rindexLoop comp data cells fuel (i - 1) (elem - 1)
      | none => rindexLoop comp data cells fuel (i - 1) (elem - 1)
    else none

/-- The function `(ary_rindex)(ary, ret, start, data, comp)` (ary.c, 231-248); `ret`
tells whether the `ret` argument is non-NULL. The loop makes at most `start`
iterations. -/
def Fn.ary_rindex [DecidableEq α] (s : Aryb α) (ret : Bool) (start : Nat) (data : α)
    (comp : Option (CmpCb α)) : Found :=
  match rindexLoop comp data s.cells (if start ≥ s.len then size_dec s.len else start)
      (if start ≥ s.len then size_dec s.len else start)
      (if start ≥ s.len then size_dec s.len else start) with
  | some i => ⟨1, if ret then some i else none⟩
  | none => ⟨0, none⟩

/-- Outcome of a search macro: the array (its `ptr` member is assigned) and what the
function found. -/
structure FoundIn (α : Type) where
  a : Ary α
  ret : Int
  out : Option Nat

/-- The macro `ary_rindex(ary, ret, start, data, comp)` (ary.h, 421-423). -/
def ary_rindex [DecidableEq α] (a : Ary α) (ret : Bool) (start : Nat) (dataPtr : Ptr) (data : α)
    (comp : Option (CmpCb α)) : FoundIn α :=
  ⟨{ a with ptr := dataPtr }, (Fn.ary_rindex a.s ret start data comp).ret,
   (Fn.ary_rindex a.s ret start data comp).out⟩

/-! ## mutarr.h / mutarr.c: the second implementation -/

/-- Stringify callback `ma_tostrcb` / `ary_joincb_t`: the `int` it returns, the pointer
it stores through its first argument and the bytes found at that pointer. -/
abbrev StrCb (α : Type) := α → Int × Ptr × List Nat

/-- `struct mutarrb`, together with the contents `cells` of the block `buf` points
to. -/
structure Mutarrb (α : Type) where
  alloc : Nat
  len : Nat
  sz : Nat
  buf : Ptr
  ctor : Option (ElemCb α)
  dtor : Option (ElemCb α)
  userp : Ptr
  cmp : Option (CmpCb α)
  tostr : Option (StrCb α)
  cells : List α

/-- `struct mutarr(type)`: the untyped part `s` and the typed mirror fields. -/
structure Mutarr (α : Type) where
  s : Mutarrb α
  len : Nat
  buf : Ptr
  ptr : Ptr
  val : α

/-- Outcome of a function working on `struct mutarrb`. -/
structure MaFnRes (α ρ : Type) where
  w : World α
  s : Mutarrb α
  ret : ρ

/-- Outcome of a macro working on the typed mutarr. -/
structure MaRes (α ρ : Type) where
  w : World α
  a : Mutarr α
  ret : ρ

/-- The constant `INT_MIN` of a 32-bit `int`. -/
def INT_MIN : Int := -(2 ^ 31)

/-- The call `abs(x)`. C leaves `abs(INT_MIN)` undefined; the embedding takes the
two's-complement result `INT_MIN`. -/
def c_abs (x : Int) : Int := if x = INT_MIN then INT_MIN else (Int.natAbs x : Int)

/-- The conversion `(size_t)x` of an `int`. -/
def intToSize (x : Int) : Nat := (x % (SIZE_MOD : Int)).toNat

/-- The conversion `(int)n` of a `size_t`, keeping the low 32 bits. -/
def sizeToInt (n : Nat) : Int :=
  if n % 2 ^ 32 < 2 ^ 31 then ((n % 2 ^ 32 : Nat) : Int) else ((n % 2 ^ 32 : Nat) : Int) - 2 ^ 32

/-- The function `ma_i2pos(int offset, size_t max)` (mutarr.h, 643-648). -/
def ma_i2pos (offset : Int) (max : Nat) : Nat :=
  if intToSize (c_abs offset) > max then (if offset > 0 then max else 0)
  else if offset ≥ 0 then intToSize offset
  else size_t (max + intToSize offset)

/-- The call `ma_xrealloc(ptr, nmemb, size)`, the world holding the routine installed
in `ma_xrealloc`. -/
def ma_xrealloc (w : World α) (ptr : Ptr) (nmemb size : Nat) : World α × Ptr × (Nat → α) :=
  let r := w.xrealloc w.calls ptr nmemb size
  ({ w with calls := w.calls + 1, trace := w.trace ++ [Event.xrealloc ptr nmemb size] },
   ⟨r.1, 0⟩, r.2)

/-- The local variable `alloc` of `ma_grow` at the call of `ma_xrealloc` (mutarr.h,
689-692). The product `ma->alloc * factor` with `factor = 1.5` is a `double` that may
end in one half: it is kept in units of one half, `toDouble (3 * toDouble alloc)`, and
its conversion to `size_t` drops the half. -/
def Fn.maGrowAlloc (s : Mutarrb α) (extra : Nat) : Nat :=
  if toDouble (3 * toDouble s.alloc) < 2 * toDouble (size_t (s.len + extra)) then
    size_t (s.len + extra)
  else doubleToSize (toDouble (3 * toDouble s.alloc) / 2)

/-- The function `(ma_grow)(struct mutarrb *ma, size_t extra)` (mutarr.h, 681-699). -/
def Fn.ma_grow (w : World α) (s : Mutarrb α) (extra : Nat) : MaFnRes α Int :=
  if size_t (s.len + extra) ≤ s.alloc then ⟨w, s, 1⟩
  else
    let alloc := Fn.maGrowAlloc s extra
    let r := ma_xrealloc w s.buf alloc s.sz
    if r.2.1 = NULL then ⟨r.1, s, 0⟩
    else ⟨r.1, { s with alloc := alloc, buf := r.2.1, cells := resize s.cells alloc r.2.2 }, 1⟩

/-- The function `(ma_splice)(ma, offset, len, data, dlen)` (mutarr.c, 55-82); the pair
`(data, dlen)` is the list of the `dlen` elements found at `data`, a region outside the
array's own block. `ma_i2pos` never exceeds its second argument, so `ma->len - pos` is
a plain subtraction. -/
def Fn.ma_splice (w : World α) (s : Mutarrb α) (offset : Int) (len : Nat) (data : List α) :
    MaFnRes α Ptr :=
  let pos := ma_i2pos offset s.len
  let len := if len > s.len - pos then s.len - pos else len
  let d : World α × List α :=
    match s.dtor with
    | some dtor => if len ≠ 0 then dtorLoop dtor s.userp len pos w s.cells else (w, s.cells)
    | none => (w, s.cells)
  if len ≠ data.length then
    let g : MaFnRes α Int :=
      if len < data.length then Fn.ma_grow d.1 { s with cells := d.2 } (data.length - len)
      else ⟨d.1, { s with cells := d.2 }, 1⟩
    if len < data.length ∧ g.ret = 0 then ⟨g.w, g.s, NULL⟩
    else
      ⟨g.w,
       { g.s with
         cells :=
           blockWrite
             (memmove g.s.cells (pos + data.length) (pos + len) (g.s.len - pos - len)) pos data
         len := size_t (g.s.len - len + data.length) },
       g.s.buf.add pos⟩
  else
    ⟨d.1,
     { s with
       cells := blockWrite d.2 pos data
       len := size_t (s.len - len + data.length) },
     s.buf.add pos⟩

/-- The macro `ma_splice(ma, offset, rlen, data, dlen)` (mutarr.h, 359-362). -/
def ma_splice (w : World α) (a : Mutarr α) (offset : Int) (rlen : Nat) (data : List α) :
    MaRes α Ptr :=
  let r := Fn.ma_splice w a.s offset rlen data
  if r.ret ≠ NULL then
    ⟨r.w, { a with s := r.s, ptr := r.ret, buf := r.s.buf, len := r.s.len }, r.ret⟩
  else ⟨r.w, { a with s := r.s, ptr := r.ret }, NULL⟩

/-- The function `(ma_index)(ma, start, data)` (mutarr.c, 132-151); its two loops differ
only in the test, `!cmp(elem, data)` or `!memcmp(elem, data, ma->sz)`. -/
def Fn.ma_index [DecidableEq α] (s : Mutarrb α) (start : Int) (data : α) : Int :=
  match indexLoop s.cmp data s.cells s.len (s.len - ma_i2pos start s.len)
      (ma_i2pos start s.len) with
  | some i => sizeToInt i
  | none => -1

/-- The loops of `(ma_rindex)` with `fuel` iterations left, `i` the current index and
`save` the current value of `save`: the value of `save` at the end. -/
def maRindexLoop [DecidableEq α] (cmp : Option (CmpCb α)) (data : α) (cells : List α)
    (len : Nat) : Nat → Nat → Int → Int
  | 0, _, save => save
  | fuel + 1, i, save =>
    if i < len then
      match cells[i]? with
      | some e =>
        maRindexLoop cmp data cells len fuel (i + 1)
          (if elemMatches cmp e data then sizeToInt i else save)
      | none => maRindexLoop cmp data cells len fuel (i + 1) save
    else save

/-- The function `(ma_rindex)(ma, start, data)` (mutarr.c, 153-174). -/
def Fn.ma_rindex [DecidableEq α] (s : Mutarrb α) (start : Int) (data : α) : Int :=
  maRindexLoop s.cmp data s.cells s.len (s.len - ma_i2pos start s.len)
    (ma_i2pos start s.len) (-1)

/-- The macro `ma_index(ma, start, data)` (mutarr.h, 569). -/
def ma_index [DecidableEq α] (a : Mutarr α) (start : Int) (data : α) : Int :=
  Fn.ma_index a.s start data

/-- The macro `ma_rindex(ma, start, data)` (mutarr.h, 579), which expands to a call of
`(ma_index)`. -/
def ma_rindex [DecidableEq α] (a : Mutarr α) (start : Int) (data : α) : Int :=
  Fn.ma_index a.s start data

/-! ## ary.c: sorted search, reversing, swapping two elements -/

/-- The library routine `bsearch(key, base, nmemb, size, compar)`, a collaborator the
sources only call: given the key, the `nmemb` elements at `base` and the comparison,
the index in `base` of the element it returns, `none` when it returns `NULL`. -/
abbrev Bsearch (α : Type) := α → List α → CmpCb α → Option Nat

/-- The function `(ary_search)(ary, ret, start, data, comp)` (ary.c, 346-358); `ret`
tells whether the `ret` argument is non-NULL. The value stored through `ret` is the
difference of the two pointers converted to integers, a number of bytes. -/
def Fn.ary_search (bsearch : Bsearch α) (s : Aryb α) (ret : Bool) (start : Nat) (data : α)
    (comp : CmpCb α) : Found :=
  let count := if start < s.len then s.len - start else 0
  match bsearch data (blockRead s.cells start count) comp with
  | none => ⟨0, none⟩
  | some k => ⟨1, if ret then some (size_t ((start + k) * s.sz)) else none⟩

/-- The macro `ary_search(ary, ret, start, data, comp)` (ary.h, 584-586). -/
def ary_search (bsearch : Bsearch α) (a : Ary α) (ret : Bool) (start : Nat) (dataPtr : Ptr)
    (data : α) (comp : CmpCb α) : FoundIn α :=
  ⟨{ a with ptr := dataPtr }, (Fn.ary_search bsearch a.s ret start data comp).ret,
   (Fn.ary_search bsearch a.s ret start data comp).out⟩

/-- The three calls `memcpy(tmp, p, sz); memcpy(p, q, sz); memcpy(q, tmp, sz);` with `p`
and `q` pointing at the slots `i` and `j` of the block and `tmp` at a scratch element. -/
def swapSlots (cells : List α) (i j : Nat) : List α :=
  match cells[i]?, cells[j]? with
  | some x, some y => (cells.set i y).set j x
  | _, _ => cells

/-- The loop of `(ary_reverse)` with `n` iterations left, `p` and `q` the slots the
pointers `p` and `q` designate. -/
def reverseLoop : Nat → Nat → Nat → List α → List α
  | 0, _, _, cells => cells
  | n + 1, p, q, cells => reverseLoop n (p + 1) (q - 1) (swapSlots cells p q)

/-- The function `(ary_reverse)(struct aryb *ary)` (ary.c, 250-270). -/
def Fn.ary_reverse (w : World α) (s : Aryb α) : FnRes α Int :=
  let r := ary_xrealloc w NULL 1 s.sz
  if r.2.1 = NULL then ⟨r.1, s, 0⟩
  else
    ⟨ary_xfree r.1 r.2.1,
     { s with cells := reverseLoop (s.len / 2) 0 (size_dec s.len) s.cells }, 1⟩

/-- The macro `ary_reverse(ary)` (ary.h, 432-433). -/
def ary_reverse (w : World α) (a : Ary α) : Res α Int :=
  ⟨(Fn.ary_reverse w a.s).w, { a with s := (Fn.ary_reverse w a.s).s },
   (Fn.ary_reverse w a.s).ret⟩

/-- The function `(ary_swap)(struct aryb *ary, size_t a, size_t b)` (ary.c, 324-344). -/
def Fn.ary_swap (w : World α) (s : Aryb α) (a b : Nat) : FnRes α Int :=
  let a := if a ≥ s.len then size_dec s.len else a
  let b := if b ≥ s.len then size_dec s.len else b
  if a = b then ⟨w, s, 1⟩
  else
    let r := ary_xrealloc w NULL 1 s.sz
    if r.2.1 = NULL then ⟨r.1, s, 0⟩
    else ⟨ary_xfree r.1 r.2.1, { s with cells := swapSlots s.cells a b }, 1⟩

/-- The macro `ary_swap(ary, a, b)` (ary.h, 570-571). -/
def ary_swap (w : World α) (a : Ary α) (i j : Nat) : Res α Int :=
  ⟨(Fn.ary_swap w a.s i j).w, { a with s := (Fn.ary_swap w a.s i j).s },
   (Fn.ary_swap w a.s i j).ret⟩

/-! ## mutarr.c / mutarr.h: swapping two arrays, sorted insertion -/

/-- Outcome of a function working on two `struct mutarrb`. -/
structure MaFnRes2 (α : Type) where
  a : Mutarrb α
  b : Mutarrb α
  ret : Int

/-- Outcome of a macro working on two typed mutarrs. -/
structure MaRes2 (α : Type) where
  a : Mutarr α
  b : Mutarr α
  ret : Int

/-- The function `(ma_swap)(struct mutarrb *a, struct mutarrb *b)` (mutarr.c, 21-38),
for two distinct arrays; the contents of a block go with the pointer to it. -/
def Fn.ma_swap (a b : Mutarrb α) : MaFnRes2 α :=
  if a.sz ≠ b.sz then ⟨a, b, 0⟩
  else
    ⟨{ a with alloc := b.alloc, len := b.len, buf := b.buf, cells := b.cells },
     { b with alloc := a.alloc, len := a.len, buf := a.buf, cells := a.cells }, 1⟩

/-- The macro `ma_swap(a, b)` (mutarr.h, 206-209). -/
def ma_swap (a b : Mutarr α) : MaRes2 α :=
  let r := Fn.ma_swap a.s b.s
  if r.ret ≠ 0 then
    ⟨{ a with s := r.a, buf := r.a.buf, len := r.a.len },
     { b with s := r.b, buf := r.b.buf, len := r.b.len }, 1⟩
  else ⟨{ a with s := r.a }, { b with s := r.b }, 0⟩

/-- The loop `for (l = 0, h = ma->len; l < h;)` of `(ma_insertsorted)` with `fuel`
iterations left: the value of `l` at its end. Every iteration brings `l` and `h` closer,
so `ma->len` iterations are enough. -/
def insertSortedLoop (cmp : CmpCb α) (data : α) (cells : List α) : Nat → Nat → Nat → Nat
  | 0, l, _ => l
  | fuel + 1, l, h =>
    if l < h then
      match cells[size_t (l + h) / 2]? with
      | some e =>
        if cmp e data > 0 then insertSortedLoop cmp data cells fuel l (size_t (l + h) / 2)
        else insertSortedLoop cmp data cells fuel (size_t (l + h) / 2 + 1) h
      | none => l
    else l

/-- The function `(ma_insertsorted)(struct mutarrb *ma, const void *data)` (mutarr.c,
84-106). -/
def Fn.ma_insertsorted (w : World α) (s : Mutarrb α) (data : α) : MaFnRes α Int :=
  match s.cmp with
  | none => ⟨w, s, 0⟩
  | some cmp =>
    let g : MaFnRes α Int := if s.len = s.alloc then Fn.ma_grow w s 1 else ⟨w, s, 1⟩
    if s.len = s.alloc ∧ g.ret = 0 then ⟨g.w, g.s, 0⟩
    else
      let l := insertSortedLoop cmp data g.s.cells g.s.len 0 g.s.len
      ⟨g.w,
       { g.s with
         cells := blockWrite (memmove g.s.cells (l + 1) l (g.s.len - l)) l [data]
         len := size_t (g.s.len + 1) },
       1⟩

/-- The macro `ma_insertsorted(ma, data)` (mutarr.h, 383-385). -/
def ma_insertsorted (w : World α) (a : Mutarr α) (data : α) : MaRes α Int :=
  let r := Fn.ma_insertsorted w a.s data
  if r.ret ≠ 0 then ⟨r.w, { a with s := r.s, buf := r.s.buf, len := size_t (a.len + 1) }, 1⟩
  else ⟨r.w, { a with s := r.s }, 0⟩

/-! ## ary.c: joining the elements into a string -/

/-- The call `strlen(p)` for `p` pointing at the bytes `block`. -/
def strlen (block : List Nat) : Nat := (block.takeWhile (fun c => decide (c ≠ 0))).length

/-- Outcome of a join: the `int` returned, the pointer stored in `*ret` and the bytes
of the block it points to. -/
structure Joined where
  w : World Nat
  ret : Int
  out : Ptr
  block : List Nat

/-- State of `(ary_join)` at the end of its loop: `ok` is false when the loop was left
through `goto error`. -/
structure JoinLoop where
  ok : Bool
  w : World Nat
  strbuf : Ary Nat

/-- The statement `if (seplen) { if (!ary_splice(&strbuf, strbuf.len, 0, sep, seplen))
goto error; }` that ends the loop body of `(ary_join)`. -/
def joinSep (sep : List Nat) (w : World Nat) (strbuf : Ary Nat) : JoinLoop :=
  if sep.length ≠ 0 then
    let r := ary_splice w strbuf strbuf.len 0 sep
    if r.ret = 0 then ⟨false, r.w, r.a⟩ else ⟨true, r.w, r.a⟩
  else ⟨true, w, strbuf⟩

/-- The loop `for (i = 0; i < ary->len; i++, elem += ary->sz)` of `(ary_join)` over the
elements still to visit (ary.c, 282-304). `deref e` is the string the `char *` element
`e` points to, `none` when the element is `NULL`; a stringify call yields its `int`,
the pointer `tmp` and the bytes at `tmp`, of which the first `tmplen` are spliced in. -/
def joinLoop (deref : α → Option (List Nat)) (stringify : Option (StrCb α)) (sep : List Nat) :
    List α → World Nat → Ary Nat → JoinLoop
  | [], w, strbuf => ⟨true, w, strbuf⟩
  | e :: es, w, strbuf =>
    match stringify with
    | some f =>
      if (f e).1 > 0 then
        let r := ary_splice w strbuf strbuf.len 0 ((f e).2.2.take (f e).1.toNat)
        if r.ret = 0 then ⟨false, ary_xfree r.w (f e).2.1, r.a⟩
        else
          let t := joinSep sep (ary_xfree r.w (f e).2.1) r.a
          if t.ok then joinLoop deref stringify sep es t.w t.strbuf else t
      else
        let t := joinSep sep (if (f e).1 = 0 then ary_xfree w (f e).2.1 else w) strbuf
        if t.ok then joinLoop deref stringify sep es t.w t.strbuf else t
    | none =>
      match deref e with
      | none => joinLoop deref stringify sep es w strbuf
      | some str =>
        let r := ary_splice w strbuf strbuf.len 0 str
        if r.ret = 0 then ⟨false, r.w, r.a⟩
        else
          let t := joinSep sep r.w r.a
          if t.ok then joinLoop deref stringify sep es t.w t.strbuf else t

/-- The statements after the label `error` of `(ary_join)`. -/
def joinError (w : World Nat) (strbuf : Ary Nat) : Joined :=
  ⟨(ary_release 1 w strbuf).w, -1, NULL, []⟩

/-- The statements of `(ary_join)` that follow the call `ary_init(&strbuf, 1024)` (ary.c,
280-321), as a function of the outcome `i` of that call and of the separator bytes. The
subtraction `strbuf.len - seplen + 1` is carried out in `size_t`. -/
def joinFrom (strdup : Ptr) (deref : α → Option (List Nat)) (s : Aryb α) (sepb : List Nat)
    (stringify : Option (StrCb α)) (i : Res Nat Int) : Joined :=
  let l : JoinLoop :=
    if i.ret = 0 then ⟨false, i.w, i.a⟩
    else joinLoop deref stringify sepb (s.cells.take s.len) i.w i.a
  if l.ok then
    if l.strbuf.len = 0 then
      if strdup = NULL then joinError l.w l.strbuf else ⟨l.w, 0, strdup, [0]⟩
    else
      let a1 := ary_setlen l.w l.strbuf (size_t (l.strbuf.len + SIZE_MOD - sepb.length + 1))
      let a2 : Ary Nat := { a1.a with s := a1.a.s.store a1.a.buf (size_dec a1.a.len) [0] }
      let a3 := ary_shrinktofit a1.w a2
      let d := ary_detach a3.w a3.a true
      ⟨d.w, sizeToInt (d.size.getD 0), d.ret, d.block⟩
  else joinError l.w l.strbuf

/-- The function `(ary_join)(ary, ret, sep, stringify)` (ary.c, 272-322). `strbuf` is the
storage of the local variable of that name on entry, `strdup` the pointer the call
`strdup("")` returns, `sep` the separator string, `none` for `NULL`. -/
def Fn.ary_join (strdup : Ptr) (deref : α → Option (List Nat)) (strbuf : Ary Nat)
    (w : World Nat) (s : Aryb α) (sep : Option (List Nat)) (stringify : Option (StrCb α)) :
    Joined :=
  joinFrom strdup deref s (sep.getD []) stringify (ary_init 1 w strbuf 1024)

/-- The macro `ary_join(ary, ret, sep, stringify)` (ary.h, 454-455). -/
def ary_join (strdup : Ptr) (deref : α → Option (List Nat)) (strbuf : Ary Nat) (w : World Nat)
    (a : Ary α) (sep : Option (List Nat)) (stringify : Option (StrCb α)) : Joined :=
  Fn.ary_join strdup deref strbuf w a.s sep stringify

/-! ## mutarr.h / mutarr.c: the operations `ma_join` is made of, `ma_join` -/

/-- The call `ma_xfree(ptr)`. -/
def ma_xfree (w : World α) (ptr : Ptr) : World α :=
  { w with trace := w.trace ++ [Event.xfree ptr] }

/-- Slot of the mutarr's block that `p[i]` designates, when `p` points into it. -/
def Mutarrb.slot (s : Mutarrb α) (p : Ptr) (i : Nat) : Option Nat :=
  if p.base = s.buf.base ∧ s.buf.off ≤ p.off + i then some (p.off + i - s.buf.off)
  else none

/-- The read `p[i]`. -/
def Mutarrb.load (s : Mutarrb α) (p : Ptr) (i : Nat) : Option α :=
  match s.slot p i with
  | some j => s.cells[j]?
  | none => none

/-- The stores `p[i] = x_0, p[i+1] = x_1, ...`; a store that does not go into the
mutarr's block leaves the block as it is. -/
def Mutarrb.store (s : Mutarrb α) (p : Ptr) (i : Nat) (xs : List α) : Mutarrb α :=
  match s.slot p i with
  | some j => { s with cells := blockWrite s.cells j xs }
  | none => s

/-- One callback call `cb(&p[i], userp)` made through the typed pointer `p`. -/
def Mutarrb.callCb (s : Mutarrb α) (p : Ptr) (i : Nat) (cb : ElemCb α) : Mutarrb α :=
  match s.load p i with
  | some v => s.store p i [cb v s.userp]
  | none => s

/-- The macro `ma_grow(ma, extra)` (mutarr.h, 243-244). -/
def ma_grow (w : World α) (a : Mutarr α) (extra : Nat) : MaRes α Int :=
  let r := Fn.ma_grow w a.s extra
  if r.ret ≠ 0 then ⟨r.w, { a with s := r.s, buf := r.s.buf }, 1⟩
  else ⟨r.w, { a with s := r.s }, 0⟩

/-- The macro `ma_init(ma, hint)` (mutarr.h, 88-95); `sizeof` is `sizeof(*(ma)->buf)` and
`a` the storage of the mutarr before the call. -/
def ma_init (sizeof : Nat) (w : World α) (a : Mutarr α) (hint : Nat) : MaRes α Int :=
  if hint ≠ 0 then
    ma_grow w
      { a with
        s := { alloc := 0, len := 0, sz := sizeof, buf := NULL, ctor := none, dtor := none,
               userp := NULL, cmp := none, tostr := none, cells := [] }
        len := 0
        buf := NULL }
      hint
  else
    ⟨w,
     { a with
       s := { alloc := 0, len := 0, sz := sizeof, buf := NULL, ctor := none, dtor := none,
              userp := NULL, cmp := none, tostr := none, cells := [] }
       len := 0
       buf := NULL },
     1⟩

/-- The function `ma_freebuf(struct mutarrb *ma)` (mutarr.h, 651-663). -/
def ma_freebuf (w : World α) (s : Mutarrb α) : World α :=
  ma_xfree
    (match s.dtor with
     | some dtor => if s.len ≠ 0 then (dtorLoop dtor s.userp s.len 0 w s.cells).1 else w
     | none => w)
    s.buf

/-- The macro `ma_release(ma)` (mutarr.h, 104-108). -/
def ma_release (sizeof : Nat) (w : World α) (a : Mutarr α) : MaRes α Unit :=
  ⟨(ma_init sizeof (ma_freebuf w a.s) a 0).w, (ma_init sizeof (ma_freebuf w a.s) a 0).a, ()⟩

/-- The function `(ma_shrinktofit)(struct mutarrb *ma)` (mutarr.h, 702-719). -/
def Fn.ma_shrinktofit (w : World α) (s : Mutarrb α) : MaFnRes α Int :=
  if s.alloc = s.len then ⟨w, s, 1⟩
  else if s.len ≠ 0 then
    let r := ma_xrealloc w s.buf s.len s.sz
    if r.2.1 = NULL then ⟨r.1, s, 0⟩
    else ⟨r.1, { s with alloc := s.len, buf := r.2.1, cells := resize s.cells s.len r.2.2 }, 1⟩
  else ⟨ma_xfree w s.buf, { s with alloc := s.len, buf := NULL, cells := [] }, 1⟩

/-- The macro `ma_shrinktofit(ma)` (mutarr.h, 252-253). -/
def ma_shrinktofit (w : World α) (a : Mutarr α) : MaRes α Int :=
  let r := Fn.ma_shrinktofit w a.s
  if r.ret ≠ 0 then ⟨r.w, { a with s := r.s, buf := r.s.buf }, 1⟩
  else ⟨r.w, { a with s := r.s }, 0⟩

/-- Outcome of `(ma_detach)`: `ret` is the pointer handed to the caller, `block` the
contents of the memory it points to and `size` the value stored through the size
argument, `none` when that argument is NULL. -/
structure MaFnDetached (α : Type) where
  w : World α
  s : Mutarrb α
  ret : Ptr
  block : List α
  size : Option Nat

/-- Outcome of the macro `ma_detach`, see `MaFnDetached`. -/
structure MaDetached (α : Type) where
  w : World α
  a : Mutarr α
  ret : Ptr
  block : List α
  size : Option Nat

/-- The function `(ma_detach)(struct mutarrb *ma, size_t *ret)` (mutarr.h, 666-678);
`ret` tells whether the `ret` argument is non-NULL. -/
def Fn.ma_detach (w : World α) (s : Mutarrb α) (ret : Bool) : MaFnDetached α :=
  let r := Fn.ma_shrinktofit w s
  ⟨r.w, { r.s with alloc := 0, len := 0, buf := NULL, cells := [] }, r.s.buf, r.s.cells,
   if ret then some r.s.len else none⟩

/-- The macro `ma_detach(ma, ret)` (mutarr.h, 133-135). -/
def ma_detach (w : World α) (a : Mutarr α) (size : Bool) : MaDetached α :=
  let r := Fn.ma_detach w a.s size
  ⟨r.w, { a with s := r.s, ptr := r.ret, buf := NULL, len := 0 }, r.ret, r.block, r.size⟩

/-- The constructor loop of `ma_setlen`, with `n` iterations left and `i` the current
index. -/
def maSetlenCtor (ctor : ElemCb α) (p : Ptr) :
    Nat → Nat → World α → Mutarrb α → World α × Mutarrb α
  | 0, _, w, s => (w, s)
  | n + 1, i, w, s =>
    maSetlenCtor ctor p n (i + 1) { w with trace := w.trace ++ [Event.ctor i s.userp] }
      (s.callCb p i ctor)

/-- The loop `for (i = (ma)->s.len; i < len; i++) (ma)->buf[i] = (ma)->val;` of
`ma_setlen`. -/
def maSetlenFill (val : α) (p : Ptr) : Nat → Nat → Mutarrb α → Mutarrb α
  | 0, _, s => s
  | n + 1, i, s => maSetlenFill val p n (i + 1) (s.store p i [val])

/-- The destructor loop of `ma_setlen`. -/
def maSetlenDtor (dtor : ElemCb α) (p : Ptr) :
    Nat → Nat → World α → Mutarrb α → World α × Mutarrb α
  | 0, _, w, s => (w, s)
  | n + 1, i, w, s =>
    maSetlenDtor dtor p n (i + 1)
      { w with trace := w.trace ++ [Event.dtor i (s.load p i) s.userp] } (s.callCb p i dtor)

/-- The macro `ma_setlen(ma, nlen)` (mutarr.h, 306-326). -/
def ma_setlen (w : World α) (a : Mutarr α) (nlen : Nat) : MaRes α Unit :=
  if a.s.len < nlen then
    let len := if a.s.alloc < nlen then a.s.alloc else nlen
    match a.s.ctor with
    | some ctor =>
      let r := maSetlenCtor ctor a.buf (len - a.s.len) a.s.len w a.s
      ⟨r.1, { a with s := { r.2 with len := len }, len := len }, ()⟩
    | none =>
      let s1 := maSetlenFill a.val a.buf (len - a.s.len) a.s.len a.s
      ⟨w, { a with s := { s1 with len := len }, len := len }, ()⟩
  else
    match a.s.dtor with
    | some dtor =>
      if a.s.len > nlen then
        let r := maSetlenDtor dtor a.buf (a.s.len - nlen) nlen w a.s
        ⟨r.1, { a with s := { r.2 with len := nlen }, len := nlen }, ()⟩
      else ⟨w, { a with s := { a.s with len := nlen }, len := nlen }, ()⟩
    | none => ⟨w, { a with s := { a.s with len := nlen }, len := nlen }, ()⟩

/-- The comma expression `(ma)->buf[(ma)->s.len++] = v, (ma)->len++, 1`. -/
def maPushStore (w : World α) (a : Mutarr α) (v : α) : MaRes α Int :=
  let s1 := a.s.store a.buf a.s.len [v]
  ⟨w, { a with s := { s1 with len := size_t (a.s.len + 1) }, len := size_t (a.len + 1) }, 1⟩

/-- The macro `ma_push(ma, v)` (mutarr.h, 430-434). -/
def ma_push (w : World α) (a : Mutarr α) (v : α) : MaRes α Int :=
  if a.s.len = a.s.alloc then
    let g := ma_grow w a 1
    if g.ret ≠ 0 then maPushStore g.w g.a v else ⟨g.w, g.a, 0⟩
  else maPushStore w a v

/-- The macro `ma_pushmany(ma, data, dlen)` (mutarr.h, 445-446); its second argument
`(ma)->s.len` is converted to the `int` parameter `offset`. -/
def ma_pushmany (w : World α) (a : Mutarr α) (data : List α) : MaRes α Ptr :=
  ma_splice w a (sizeToInt a.s.len) 0 data

/-- State of `(ma_join)` at the end of its loop: `ok` is false when the loop was left
through `goto error`. -/
structure MaJoinLoop where
  ok : Bool
  w : World Nat
  strbuf : Mutarr Nat

/-- The statement `if (seplen) if (!ma_pushmany(&strbuf, sep, seplen)) goto error;` of
the loop body of `(ma_join)`. -/
def maJoinSep (sep : List Nat) (w : World Nat) (strbuf : Mutarr Nat) : MaJoinLoop :=
  if sep.length ≠ 0 then
    let r := ma_pushmany w strbuf sep
    if r.ret = NULL then ⟨false, r.w, r.a⟩ else ⟨true, r.w, r.a⟩
  else ⟨true, w, strbuf⟩

/-- The loop `for (i = 0; i < ma->len; i++)` of `(ma_join)` over the elements still to
visit (mutarr.c, 243-261). `deref e` is the string the `char *` element `e` points to;
the code passes the element to `strlen` without a test for `NULL`. -/
def maJoinLoop (deref : α → List Nat) (tostr : Option (StrCb α)) (sep : List Nat) :
    List α → World Nat → Mutarr Nat → MaJoinLoop
  | [], w, strbuf => ⟨true, w, strbuf⟩
  | e :: es, w, strbuf =>
    match tostr with
    | some f =>
      if (f e).1 > 0 then
        let r := ma_pushmany w strbuf ((f e).2.2.take (f e).1.toNat)
        if r.ret = NULL then ⟨false, ma_xfree r.w (f e).2.1, r.a⟩
        else
          let t := maJoinSep sep (ma_xfree r.w (f e).2.1) r.a
          if t.ok then maJoinLoop deref tostr sep es t.w t.strbuf else t
      else
        let t := maJoinSep sep (if (f e).1 = 0 then ma_xfree w (f e).2.1 else w) strbuf
        if t.ok then maJoinLoop deref tostr sep es t.w t.strbuf else t
    | none =>
      let r := ma_pushmany w strbuf (deref e)
      if r.ret = NULL then ⟨false, r.w, r.a⟩
      else
        let t := maJoinSep sep r.w r.a
        if t.ok then maJoinLoop deref tostr sep es t.w t.strbuf else t

/-- The statements after the label `error` of `(ma_join)`. -/
def maJoinError (w : World Nat) (strbuf : Mutarr Nat) : Joined :=
  ⟨(ma_release 1 w strbuf).w, -1, NULL, []⟩

/-- The function `(ma_join)(ma, ret, sep)` (mutarr.c, 232-278). `strbuf` is the storage of
the local variable of that name on entry, `strdup` the pointer the call `strdup("")`
returns, `sep` the separator string, `none` for `NULL`. -/
def Fn.ma_join (strdup : Ptr) (deref : α → List Nat) (strbuf : Mutarr Nat) (w : World Nat)
    (s : Mutarrb α) (sep : Option (List Nat)) : Joined :=
  let sepb := sep.getD []
  let i := ma_init 1 w strbuf 0
  let l := maJoinLoop deref s.tostr sepb (s.cells.take s.len) i.w i.a
  if l.ok then
    if l.strbuf.len = 0 then
      if strdup = NULL then maJoinError l.w l.strbuf else ⟨l.w, 0, strdup, [0]⟩
    else
      let a1 := ma_setlen l.w l.strbuf (size_t (l.strbuf.len + SIZE_MOD - sepb.length))
      let a2 := ma_push a1.w a1.a 0
      if a2.ret = 0 then maJoinError a2.w a2.a
      else
        let a3 := AryC.ma_shrinktofit a2.w a2.a
        let d := AryC.ma_detach a3.w a3.a true
        ⟨d.w, sizeToInt (d.size.getD 0), d.ret, d.block⟩
  else maJoinError l.w l.strbuf

/-- The macro `ma_join(ma, ret, sep)` (mutarr.h, 631). -/
def ma_join (strdup : Ptr) (deref : α → List Nat) (strbuf : Mutarr Nat) (w : World Nat)
    (a : Mutarr α) (sep : Option (List Nat)) : Joined :=
  Fn.ma_join strdup deref strbuf w a.s sep

/-! ## ary.c / mutarr.h: the predefined comparison, setting the comparison -/

/-- The function `ary_cb_cmpint(const void *a, const void *b)` (ary.c, 29-34). -/
def ary_cb_cmpint : CmpCb Int := fun x y => if x > y then 1 else if x < y then -1 else 0

/-- The macro `ma_setcmp(ma, callb)` (mutarr.h, 169): the mutarr after it. -/
def ma_setcmp (a : Mutarr α) (callb : CmpCb α) : Mutarr α :=
  { a with s := { a.s with cmp := some callb } }

/-! ## ary.h: attaching a buffer, slicing, cloning -/

/-- The macro `ary_attach(ary, nbuf, nlen, nalloc)` (ary.h, 177-183); `block` is the
contents of the memory `nbuf` points to. -/
def ary_attach (w : World α) (a : Ary α) (nbuf : Ptr) (block : List α) (nlen nalloc : Nat) :
    Res α Unit :=
  ⟨ary_freebuf w a.s,
   { a with s := { a.s with buf := nbuf, len := nlen, alloc := nalloc, cells := block }
            buf := nbuf
            len := nlen }, ()⟩

/-- The `n` elements found at `&p[i]`, when `p` points into the array's block. -/
def Aryb.read (s : Aryb α) (p : Ptr) (i n : Nat) : List α :=
  match s.slot p i with
  | some j => blockRead s.cells j n
  | none => []

/-- Outcome of a macro working on two typed arrays: `a` is the array read, `r` the one
written through the `ret` argument. -/
structure Res2 (α : Type) where
  w : World α
  a : Ary α
  r : Ary α
  ret : Int

/-- The macro `ary_slice(ary, ret, start, end)` (ary.h, 469-474); `sizeof` is
`sizeof(*(ret)->buf)` and `r` the storage of `ret` before the call. The region handed to
`ary_splice` is what the block of `ary` holds from `&(ary)->buf[start]` on. -/
def ary_slice (sizeof : Nat) (w : World α) (a r : Ary α) (start stop : Nat) : Res2 α :=
  let i := ary_init sizeof w r 0
  let dlen := if start < a.s.len then (if start < stop then stop - start else 0) else 0
  let sp := ary_splice i.w i.a 0 0 (a.s.read a.buf start dlen)
  if sp.ret ≠ 0 then ⟨sp.w, a, { sp.a with val := a.val }, 1⟩ else ⟨sp.w, a, sp.a, 0⟩

/-- The macro `ary_clone(ary, ret)` (ary.h, 485-486). -/
def ary_clone (sizeof : Nat) (w : World α) (a r : Ary α) : Res2 α :=
  ary_slice sizeof w a r 0 a.s.len

/-! ## mutarr.c / mutarr.h: swapping two elements -/

/-- The function `(ma_xchg)(struct mutarrb *ma, int a, int b)` (mutarr.c, 191-208). -/
def Fn.ma_xchg (w : World α) (s : Mutarrb α) (a b : Int) : MaFnRes α Int :=
  let r := ma_xrealloc w NULL 1 s.sz
  if r.2.1 = NULL then ⟨r.1, s, 0⟩
  else
    ⟨ma_xfree r.1 r.2.1,
     { s with cells := swapSlots s.cells (ma_i2pos a s.len) (ma_i2pos b s.len) }, 1⟩

/-- The macro `ma_xchg(ma, a, b)` (mutarr.h, 610). -/
def ma_xchg (w : World α) (a : Mutarr α) (i j : Int) : MaRes α Int :=
  ⟨(Fn.ma_xchg w a.s i j).w, { a with s := (Fn.ma_xchg w a.s i j).s },
   (Fn.ma_xchg w a.s i j).ret⟩

/-! ## ary.h: callbacks, user pointer, init value, clearing, emplacing -/

/-- The macro `ary_setcbs(ary, _ctor, _dtor)` (ary.h, 144-145): the array after it. -/
def ary_setcbs (a : Ary α) (ctor dtor : Option (ElemCb α)) : Ary α :=
  { a with s := { a.s with ctor := ctor, dtor := dtor } }

/-- The macro `ary_setuserp(ary, ptr)` (ary.h, 152-153): the array after it. -/
def ary_setuserp (a : Ary α) (ptr : Ptr) : Ary α :=
  { a with s := { a.s with userp := ptr } }

/-- The macro `ary_setinitval(ary, v)` (ary.h, 164-165): the array after it. -/
def ary_setinitval (a : Ary α) (v : α) : Ary α :=
  { a with val := v }

/-- The macro `ary_clear(ary)` (ary.h, 265-266). -/
def ary_clear (w : World α) (a : Ary α) : Res α Unit :=
  ary_setlen w a 0

/-- The macro `ary_emplace(ary, pos)` (ary.h, 534-537); the constructor call is logged
with the slot `(ary)->ptr` designates. -/
def ary_emplace (w : World α) (a : Ary α) (pos : Nat) : Res α Int :=
  let r := ary_insertp w a pos
  if r.ret ≠ NULL then
    match r.a.s.ctor with
    | some ctor =>
      ⟨{ r.w with
         trace := r.w.trace ++ [Event.ctor (r.a.ptr.off - r.a.s.buf.off) r.a.s.userp] },
       { r.a with s := r.a.s.callCb r.a.ptr 0 ctor }, 1⟩
    | none => ⟨r.w, { r.a with s := r.a.s.store r.a.ptr 0 [r.a.val] }, 1⟩
  else ⟨r.w, r.a, 0⟩

/-! ## Well-formed arrays -/

/-- Well-formed typed array: the typed mirror agrees with `s`, the block has `alloc`
slots of which the first `len` are live, there is a block exactly when `alloc` is not
zero, and `alloc` is a `size_t`. -/
def Ary.WF (a : Ary α) : Prop :=
  a.len = a.s.len ∧ a.buf = a.s.buf ∧ a.s.len ≤ a.s.alloc ∧
    a.s.cells.length = a.s.alloc ∧ (a.s.buf = NULL ↔ a.s.alloc = 0) ∧ a.s.alloc < SIZE_MOD

instance (a : Ary α) : Decidable a.WF := by
  unfold Ary.WF
  infer_instance

/-- The structural invariant of `struct aryb`: the capacity is at least the length,
and there is a buffer exactly when the capacity is not zero. -/
def Aryb.Inv (s : Aryb α) : Prop :=
  s.len ≤ s.alloc ∧ (s.buf = NULL ↔ s.alloc = 0)

instance (s : Aryb α) : Decidable s.Inv := by
  unfold Aryb.Inv
  infer_instance

/-- The live elements of the mutarr: slots `0 .. s.len - 1` of its block. -/
def Mutarr.elems (a : Mutarr α) : List α := a.s.cells.take a.s.len

/-- Well-formed typed mutarr: the typed mirror agrees with `s`, the block has `alloc`
slots of which the first `len` are live, there is a block exactly when `alloc` is not
zero, and `alloc` is a `size_t`. -/
def Mutarr.WF (a : Mutarr α) : Prop :=
  a.len = a.s.len ∧ a.buf = a.s.buf ∧ a.s.len ≤ a.s.alloc ∧
    a.s.cells.length = a.s.alloc ∧ (a.s.buf = NULL ↔ a.s.alloc = 0) ∧ a.s.alloc < SIZE_MOD

instance (a : Mutarr α) : Decidable a.WF := by
  unfold Mutarr.WF
  infer_instance

/-- The typed mirror of an array agrees with its untyped part: `ary->len == ary->s.len`
and `ary->buf == ary->s.buf`. -/
def Ary.Mirror (a : Ary α) : Prop := a.len = a.s.len ∧ a.buf = a.s.buf

instance (a : Ary α) : Decidable a.Mirror := by
  unfold Ary.Mirror
  infer_instance

/-! ## Auxiliary definitions: parts of the operations, scenarios -/

/-- The untyped part of an array right after the assignments of `ary_init`. -/
def zeroAryb (sizeof : Nat) : Aryb α :=
  { len := 0, alloc := 0, sz := sizeof, buf := NULL, ctor := none, dtor := none,
    userp := NULL, cells := [] }

/-- The outcome of the growth step of `(ary_splicep)`. -/
def Fn.spliceGrow (w : World α) (s : Aryb α) (pos rlen alen : Nat) : FnRes α Int :=
  if alen > min rlen (s.len - min pos s.len) then
    Fn.ary_grow w s (alen - min rlen (s.len - min pos s.len))
  else ⟨w, s, 1⟩

/-- The statements of `(ary_splicep)` that follow the growth step (ary.c, 198-212), as a
function of the outcome `g` of that step and of the clamped `pos` and `rlen`. -/
def Fn.spliceTail (g : FnRes α Int) (pos rlen alen : Nat) : FnRes α Ptr :=
  let d : World α × List α :=
    match g.s.dtor with
    | some dtor =>
      if rlen ≠ 0 then dtorLoop dtor g.s.userp rlen pos g.w g.s.cells else (g.w, g.s.cells)
    | none => (g.w, g.s.cells)
  ⟨d.1,
   { g.s with
     cells :=
       if rlen ≠ alen ∧ pos < g.s.len then
         memmove d.2 (pos + alen) (pos + rlen) (g.s.len - pos - rlen)
       else d.2
     len := size_t (g.s.len - rlen + alen) },
   g.s.buf.add pos⟩

/-- Push the values of a list in order, stopping at the first `ary_push` that does
not return 1; the result is 1 when every push returned 1. -/
def pushAll (w : World α) (a : Ary α) : List α → Res α Int
  | [] => ⟨w, a, 1⟩
  | v :: vs =>
    if (ary_push w a v).ret = 1 then pushAll (ary_push w a v).w (ary_push w a v).a vs
    else ⟨(ary_push w a v).w, (ary_push w a v).a, 0⟩

/-- Call `ary_pop` with a non-NULL `ret` the given number of times; the list holds the
result and the value stored through `ret` of every call, in call order. -/
def popN (w : World α) (a : Ary α) : Nat → (World α × Ary α) × List (Int × Option α)
  | 0 => ((w, a), [])
  | n + 1 =>
    ((popN (ary_pop w a true).w (ary_pop w a true).a n).1,
     ((ary_pop w a true).ret, (ary_pop w a true).out) ::
       (popN (ary_pop w a true).w (ary_pop w a true).a n).2)

/-- The outcome of the growth step of `(ma_insertsorted)`. -/
def Fn.insertGrow (w : World α) (s : Mutarrb α) : MaFnRes α Int :=
  if s.len = s.alloc then Fn.ma_grow w s 1 else ⟨w, s, 1⟩

/-- The statements of `(ma_insertsorted)` that follow the growth step (mutarr.c, 91-105),
as a function of the outcome `g` of that step. -/
def Fn.insertTail (g : MaFnRes α Int) (cmp : CmpCb α) (data : α) : MaFnRes α Int :=
  ⟨g.w,
   { g.s with
     cells :=
       blockWrite
         (memmove g.s.cells (insertSortedLoop cmp data g.s.cells g.s.len 0 g.s.len + 1)
           (insertSortedLoop cmp data g.s.cells g.s.len 0 g.s.len)
           (g.s.len - insertSortedLoop cmp data g.s.cells g.s.len 0 g.s.len))
         (insertSortedLoop cmp data g.s.cells g.s.len 0 g.s.len) [data]
     len := size_t (g.s.len + 1) },
   1⟩

/-- The growth step of `(ma_splice)` on a mutarr without destructor. -/
def Fn.maSpliceGrow (w : World α) (s : Mutarrb α) (rlen dlen : Nat) : MaFnRes α Int :=
  if rlen < dlen then Fn.ma_grow w s (dlen - rlen) else ⟨w, s, 1⟩

/-! ## Concrete worlds and arrays used for evaluation -/

/-- An allocator that answers every request with block `calls + 1`, filled with zeros. -/
def okWorld : World Int := ⟨fun n _ _ _ => (n + 1, fun _ => 0), 0, []⟩

/-- An allocator that answers every request with `NULL`. -/
def failWorld : World Int := ⟨fun _ _ _ _ => (0, fun _ => 0), 0, []⟩

/-- Storage of a `struct ary(int)` before `ary_init`. -/
def rawAry : Ary Int := ⟨⟨0, 0, 0, NULL, none, none, NULL, []⟩, 0, NULL, NULL, 0⟩

/-- An `int` array holding `[10, 20, 30]` in a block of four slots. -/
def ary3 : Ary Int :=
  ⟨⟨3, 4, 4, ⟨1, 0⟩, none, none, NULL, [10, 20, 30, 0]⟩, 3, ⟨1, 0⟩, NULL, 0⟩

/-- An `int` array holding one element in a block of one slot. -/
def ary1 : Ary Int := ⟨⟨1, 1, 4, ⟨1, 0⟩, none, none, NULL, [7]⟩, 1, ⟨1, 0⟩, NULL, 0⟩

/-- A `char`-sized array holding one element in a block of `2 ^ 53` slots. -/
def aryHuge : Aryb Int :=
  ⟨1, 2 ^ 53, 1, ⟨1, 0⟩, none, none, NULL, List.replicate (2 ^ 53) 0⟩

/-- The slots on which a call log records a destructor call, in call order. -/
def dtorSlots (tr : List (Event α)) : List Nat :=
  tr.filterMap (fun e =>
    match e with
    | Event.dtor i _ _ => some i
    | _ => none)

/-- An `int` array holding `[5, 7]` in a full block, with a destructor and a user
pointer set. -/
def ary57 : Ary Int :=
  ⟨⟨2, 2, 4, ⟨1, 0⟩, none, some (fun x _ => x), ⟨9, 0⟩, [5, 7]⟩, 2, ⟨1, 0⟩, NULL, 0⟩

/-- A full `int` mutarr holding `[7, 5, 7]`, whose destructor zeroes the slot it is
called on. -/
def ma757 : Mutarr Int :=
  ⟨⟨3, 3, 4, ⟨1, 0⟩, none, some (fun _ _ => 0), NULL, none, none, [7, 5, 7]⟩, 3, ⟨1, 0⟩, NULL, 0⟩

/-- The loop of a `bsearch` that probes the middle element, as the C libraries do, with
`fuel` probes left. -/
def bsearchLoop (key : α) (base : List α) (comp : CmpCb α) : Nat → Nat → Nat → Option Nat
  | 0, _, _ => none
  | fuel + 1, l, u =>
    if l < u then
      match base[(l + u) / 2]? with
      | some e =>
        if comp key e < 0 then bsearchLoop key base comp fuel l ((l + u) / 2)
        else if comp key e > 0 then bsearchLoop key base comp fuel ((l + u) / 2 + 1) u
        else some ((l + u) / 2)
      | none => none
    else none

/-- A `bsearch` that probes the middle element. -/
def bsearchMid : Bsearch α := fun key base comp =>
  bsearchLoop key base comp base.length 0 base.length

/-- An allocator for `char` blocks that answers every request with block `calls + 1`,
filled with zeros. -/
def strWorld : World Nat := ⟨fun n _ _ _ => (n + 1, fun _ => 0), 0, []⟩

/-- Storage of the local `struct ary_char strbuf` of `ary_join` on entry. -/
def rawStr : Ary Nat := ⟨⟨0, 0, 0, NULL, none, none, NULL, []⟩, 0, NULL, NULL, 0⟩

/-- Storage of the local `struct mutarr(char) strbuf` of `ma_join` on entry. -/
def rawMaStr : Mutarr Nat :=
  ⟨⟨0, 0, 0, NULL, none, none, NULL, none, none, []⟩, 0, NULL, NULL, 0⟩

/-- The `char *` array `["a", "b", "c"]`; an element is the string it points to, `none`
being the `NULL` pointer. -/
def aryABC : Ary (Option (List Nat)) :=
  ⟨⟨3, 3, 8, ⟨1, 0⟩, none, none, NULL, [some [97], some [98], some [99]]⟩, 3, ⟨1, 0⟩, NULL,
   none⟩

/-- The `char *` array whose one element is a string of 1024 letters `x`. -/
def aryX1024 : Ary (Option (List Nat)) :=
  ⟨⟨1, 1, 8, ⟨1, 0⟩, none, none, NULL, [some (List.replicate 1024 120)]⟩, 1, ⟨1, 0⟩, NULL,
   none⟩

/-- The `char *` mutarr whose one element is the empty string. -/
def maEmptyStr : Mutarr (List Nat) :=
  ⟨⟨1, 1, 8, ⟨1, 0⟩, none, none, NULL, none, none, [[]]⟩, 1, ⟨1, 0⟩, NULL, []⟩

/-- A stringify callback that reports failure for every element. -/
def failingStringify : StrCb Int := fun _ => (-1, NULL, [])

/-- An `int` mutarr holding `[1, 2]` in a block of four slots, with a comparison set. -/
def ma12 : Mutarr Int :=
  ⟨⟨4, 2, 4, ⟨2, 0⟩, none, none, ⟨5, 0⟩, some (fun x y => x - y), none, [1, 2, 0, 0]⟩, 2,
   ⟨2, 0⟩, NULL, 9⟩

/-- Storage of a `struct mutarr(int)` before `ma_init`. -/
def rawMa : Mutarr Int := ⟨⟨0, 0, 0, NULL, none, none, NULL, none, none, []⟩, 0, NULL, NULL, 0⟩

/-- A comparison of `int`s that looks at the tens only. -/
def cmpTens : CmpCb Int := fun x y => x / 10 - y / 10

/-- The `int` mutarr `[30]` in a block of two slots, compared by `cmpTens`. -/
def ma30 : Mutarr Int :=
  ⟨⟨2, 1, 4, ⟨1, 0⟩, none, none, NULL, some cmpTens, none, [30, 0]⟩, 1, ⟨1, 0⟩, NULL, 0⟩

/-- The empty `int` mutarr after `ma_init(&ma, 0)` and `ma_setcmp(&ma, ary_cb_cmpint)`. -/
def maSorted0 : Mutarr Int := ma_setcmp (ma_init 4 okWorld rawMa 0).a ary_cb_cmpint

/-- The call `ma_insertsorted(&ma, &five)` on the empty mutarr. -/
def maSorted1 : MaRes Int Int := ma_insertsorted okWorld maSorted0 5

/-- The call `ma_insertsorted(&ma, &one)` that follows. -/
def maSorted2 : MaRes Int Int := ma_insertsorted maSorted1.w maSorted1.a 1

/-- The call `ma_insertsorted(&ma, &three)` that follows. -/
def maSorted3 : MaRes Int Int := ma_insertsorted maSorted2.w maSorted2.a 3

/-- The element made of the first `k` bytes of `x` followed by the remaining bytes of
`y`, for 4-byte little-endian `int`s. -/
def mixLE (k : Nat) (x y : Int) : Int :=
  let m : Int := 256 ^ k
  let u : Int := x % m + (y % 2 ^ 32 - y % m)
  if u < 2 ^ 31 then u else u - 2 ^ 32

/-- An initialised, empty `int` array. -/
def aryEmpty : Ary Int := (ary_init 4 okWorld rawAry 0).a

/-- An `int` array holding `[5, 7]` in a block of four slots, with a destructor that
zeroes the slot it is called on and a user pointer set. -/
def ary57s : Ary Int :=
  ⟨⟨2, 4, 4, ⟨1, 0⟩, none, some (fun _ _ => 0), ⟨9, 0⟩, [5, 7, 0, 0]⟩, 2, ⟨1, 0⟩, NULL, 0⟩

/-- An `int` array holding `[1, 2]` in a full block. -/
def ary12 : Ary Int := ⟨⟨2, 2, 4, ⟨1, 0⟩, none, none, NULL, [1, 2]⟩, 2, ⟨1, 0⟩, NULL, 0⟩

/-- The `char`-sized array of `aryHuge` as a typed array: one element in a block of
`2 ^ 53` slots. -/
def aryHugeT : Ary Int := ⟨aryHuge, 1, ⟨1, 0⟩, NULL, 0⟩

/-- An `int` array holding `[1, 2, 3]` in a full block. -/
def ary123 : Ary Int := ⟨⟨3, 3, 4, ⟨1, 0⟩, none, none, NULL, [1, 2, 3]⟩, 3, ⟨1, 0⟩, NULL, 0⟩

/-- A stringify callback that yields the decimal digit of its element in a block of its
own, and reports failure, returning -1, for the element 2. -/
def digitUnlessTwo : StrCb Int := fun x =>
  if x = 2 then (-1, NULL, []) else (1, ⟨8, 0⟩, [(48 + x).toNat, 0])

/-! ## Facts about the memory primitives -/

theorem length_blockWrite (cells : List α) (i : Nat) (xs : List α) :
    (blockWrite cells i xs).length = cells.length := by
  simp only [blockWrite, List.length_take, List.length_append, List.length_drop]
  omega

theorem blockWrite_eq (cells : List α) (i : Nat) (xs : List α)
    (h : i + xs.length ≤ cells.length) :
    blockWrite cells i xs = cells.take i ++ xs ++ cells.drop (i + xs.length) := by
  unfold blockWrite
  apply List.take_of_length_le
  simp only [List.length_take, List.length_append, List.length_drop]
  omega

theorem take_blockWrite (cells : List α) (i k : Nat) (xs : List α) (hk : k ≤ i) :
    (blockWrite cells i xs).take k = cells.take k := by
  unfold blockWrite
  rw [List.take_take, List.append_assoc, List.take_append_eq_append_take, List.take_take]
  simp only [List.length_take]
  by_cases hi : k ≤ cells.length
  · have h1 : min k cells.length = k := by omega
    have h2 : min k i = k := by omega
    have h3 : k - min i cells.length = 0 ∨ cells.length ≤ k := by omega
    rw [h1, h2]
    rcases h3 with h3 | h3
    · rw [h3]; simp
    · have : k = cells.length := by omega
      subst this
      have h4 : min i cells.length = cells.length := by omega
      simp [h4]
  · have h1 : min k cells.length = cells.length := by omega
    have h2 : min cells.length i = cells.length := by omega
    have h4 : min i cells.length = cells.length := by omega
    rw [h1, h2, h4]
    simp
    omega

theorem blockRead_blockWrite (cells : List α) (i : Nat) (xs : List α)
    (h : i + xs.length ≤ cells.length) :
    blockRead (blockWrite cells i xs) i xs.length = xs := by
  rw [blockWrite_eq cells i xs h]
  unfold blockRead
  have hl : (cells.take i).length = i := by
    simp only [List.length_take]; omega
  rw [List.append_assoc, List.drop_append_eq_append_drop, hl]
  simp only [Nat.sub_self, List.drop_zero]
  rw [List.drop_of_length_le (by omega)]
  simp

theorem drop_blockWrite (cells : List α) (i : Nat) (xs : List α)
    (h : i + xs.length ≤ cells.length) :
    (blockWrite cells i xs).drop (i + xs.length) = cells.drop (i + xs.length) := by
  rw [blockWrite_eq cells i xs h]
  have hl : (cells.take i ++ xs).length = i + xs.length := by
    simp only [List.length_append, List.length_take]; omega
  rw [List.drop_append_eq_append_drop, hl]
  simp only [Nat.sub_self, List.drop_zero]
  rw [List.drop_of_length_le (by omega)]
  simp

theorem take_blockWrite_run (cells : List α) (i : Nat) (xs : List α)
    (h : i + xs.length ≤ cells.length) :
    (blockWrite cells i xs).take (i + xs.length) = cells.take i ++ xs := by
  rw [blockWrite_eq cells i xs h]
  apply List.take_left'
  simp only [List.length_append, List.length_take]
  omega

theorem length_resize (cells : List α) (n : Nat) (junk : Nat → α) :
    (resize cells n junk).length = n := by
  simp only [resize, List.length_append, List.length_take, List.length_map, List.length_range]
  omega

theorem take_resize (cells : List α) (n k : Nat) (junk : Nat → α)
    (hk : k ≤ cells.length) (hn : k ≤ n) :
    (resize cells n junk).take k = cells.take k := by
  unfold resize
  rw [List.take_append_of_le_length (by simp only [List.length_take]; omega), List.take_take]
  congr 1
  omega

theorem slot_self (s : Aryb α) (i : Nat) : s.slot s.buf i = some i := by
  unfold Aryb.slot
  simp

theorem slot_add (s : Aryb α) (k i : Nat) : s.slot (s.buf.add k) i = some (k + i) := by
  unfold Aryb.slot Ptr.add
  simp only [true_and]
  rw [if_pos (by omega)]
  congr 1
  omega

theorem add_ne_null (p : Ptr) (k : Nat) (h : p ≠ NULL) : p.add k ≠ NULL := by
  intro h0
  apply h
  have hb := congrArg Ptr.base h0
  have ho := congrArg Ptr.off h0
  simp only [Ptr.add, NULL] at hb ho
  cases p with
  | mk b o =>
    simp only at hb ho
    have : o = 0 := by omega
    rw [hb, this]
    rfl

theorem xrealloc_null_iff (w : World α) (p : Ptr) (n sz : Nat) :
    (ary_xrealloc w p n sz).2.1 = NULL ↔ (w.xrealloc w.calls p n sz).1 = 0 := by
  constructor
  · intro h
    have := congrArg Ptr.base h
    simpa [ary_xrealloc, NULL] using this
  · intro h
    simp [ary_xrealloc, NULL, h]

theorem callDtor_length (dtor : ElemCb α) (userp : Ptr) (w : World α) (cells : List α)
    (slot : Nat) : (callDtor dtor userp w cells slot).2.length = cells.length := by
  unfold callDtor
  cases h : cells[slot]? <;> simp

theorem callDtor_take (dtor : ElemCb α) (userp : Ptr) (w : World α) (cells : List α)
    (slot k : Nat) (hk : k ≤ slot) :
    (callDtor dtor userp w cells slot).2.take k = cells.take k := by
  unfold callDtor
  cases h : cells[slot]? with
  | none => simp
  | some v =>
    simp only
    rw [List.set_take, List.set_eq_of_length_le]
    simp only [List.length_take]
    omega

theorem callDtor_drop (dtor : ElemCb α) (userp : Ptr) (w : World α) (cells : List α)
    (slot k : Nat) (hk : slot < k) :
    (callDtor dtor userp w cells slot).2.drop k = cells.drop k := by
  unfold callDtor
  cases h : cells[slot]? with
  | none => simp
  | some v =>
    simp only
    rw [List.drop_set_of_lt _ _ hk]

theorem dtorLoop_length (dtor : ElemCb α) (userp : Ptr) (n slot : Nat) (w : World α)
    (cells : List α) : (dtorLoop dtor userp n slot w cells).2.length = cells.length := by
  induction n generalizing slot w cells with
  | zero => rfl
  | succ n ih =>
    simp only [dtorLoop]
    rw [ih, callDtor_length]

theorem dtorLoop_take (dtor : ElemCb α) (userp : Ptr) (n slot k : Nat) (w : World α)
    (cells : List α) (hk : k ≤ slot) :
    (dtorLoop dtor userp n slot w cells).2.take k = cells.take k := by
  induction n generalizing slot w cells with
  | zero => rfl
  | succ n ih =>
    simp only [dtorLoop]
    rw [ih _ _ _ (by omega), callDtor_take _ _ _ _ _ _ hk]

theorem dtorLoop_drop (dtor : ElemCb α) (userp : Ptr) (n slot k : Nat) (w : World α)
    (cells : List α) (hk : slot + n ≤ k) :
    (dtorLoop dtor userp n slot w cells).2.drop k = cells.drop k := by
  induction n generalizing slot w cells with
  | zero => rfl
  | succ n ih =>
    simp only [dtorLoop]
    rw [ih _ _ _ (by omega), callDtor_drop _ _ _ _ _ _ (by omega)]

/-! ## Facts about the double conversion -/

theorem two_pow_dropBits_le (fuel n : Nat) (hn : 1 ≤ n) : 2 ^ dropBits fuel n ≤ n := by
  induction fuel generalizing n with
  | zero => simpa [dropBits] using hn
  | succ f ih =>
    unfold dropBits
    split
    · simpa using hn
    · rename_i h
      have h2 : 1 ≤ n / 2 := by
        have : 2 ≤ n := by
          have : 2 ^ 53 ≤ n := Nat.le_of_not_lt h
          exact le_trans (by norm_num) this
        omega
      have := ih (n / 2) h2
      rw [pow_succ]
      omega

theorem dropBits_small (fuel n : Nat) (hn : n < 2 ^ 53) : dropBits fuel n = 0 := by
  cases fuel with
  | zero => rfl
  | succ f =>
    unfold dropBits
    rw [if_pos hn]

theorem toDouble_exact (n : Nat) (hn : n < 2 ^ 53) : toDouble n = n := by
  unfold toDouble
  rw [dropBits_small 64 n hn]
  simp [Nat.mod_one]

theorem toDouble_ge_floor (n : Nat) :
    n / 2 ^ dropBits 64 n * 2 ^ dropBits 64 n ≤ toDouble n := by
  unfold toDouble
  simp only
  split
  · exact le_refl _
  · split
    · exact Nat.mul_le_mul_right _ (Nat.le_succ _)
    · split
      · exact le_refl _
      · exact Nat.mul_le_mul_right _ (Nat.le_succ _)

theorem toDouble_lower (n : Nat) (hn : 1 ≤ n) : n + 1 ≤ 2 * toDouble n := by
  have hq : 2 ^ dropBits 64 n ≤ n := two_pow_dropBits_le 64 n hn
  have hpos : 0 < 2 ^ dropBits 64 n := Nat.two_pow_pos _
  have hge := toDouble_ge_floor n
  generalize 2 ^ dropBits 64 n = p at hq hpos hge
  have h1 : 1 ≤ n / p := (Nat.one_le_div_iff hpos).mpr hq
  have h2 : n < (n / p + 1) * p := by
    have := Nat.div_add_mod n p
    have := Nat.mod_lt n hpos
    nlinarith
  nlinarith

theorem toDouble_zero : toDouble 0 = 0 := toDouble_exact 0 (by norm_num)

theorem toDouble_pos (n : Nat) (hn : 1 ≤ n) : 0 < toDouble n := by
  have := toDouble_lower n hn
  omega

/-! ## Facts about `ary_grow` and `ary_init` -/

theorem Fn.ary_grow_fits (w : World α) (s : Aryb α) (extra : Nat)
    (h : size_t (s.len + extra) ≤ s.alloc) : Fn.ary_grow w s extra = ⟨w, s, 1⟩ := by
  unfold Fn.ary_grow
  rw [if_pos h]

theorem Fn.ary_grow_null (w : World α) (s : Aryb α) (extra : Nat)
    (h : ¬ size_t (s.len + extra) ≤ s.alloc)
    (hn : (ary_xrealloc w s.buf (Fn.growAlloc s extra) s.sz).2.1 = NULL) :
    Fn.ary_grow w s extra =
      ⟨(ary_xrealloc w s.buf (Fn.growAlloc s extra) s.sz).1, s, 0⟩ := by
  unfold Fn.ary_grow
  rw [if_neg h]
  simp only
  rw [if_pos hn]

theorem Fn.ary_grow_block (w : World α) (s : Aryb α) (extra : Nat)
    (h : ¬ size_t (s.len + extra) ≤ s.alloc)
    (hn : (ary_xrealloc w s.buf (Fn.growAlloc s extra) s.sz).2.1 ≠ NULL) :
    Fn.ary_grow w s extra =
      ⟨(ary_xrealloc w s.buf (Fn.growAlloc s extra) s.sz).1,
       { s with
         alloc := Fn.growAlloc s extra
         buf := (ary_xrealloc w s.buf (Fn.growAlloc s extra) s.sz).2.1
         cells := resize s.cells (Fn.growAlloc s extra)
           (ary_xrealloc w s.buf (Fn.growAlloc s extra) s.sz).2.2 }, 1⟩ := by
  unfold Fn.ary_grow
  rw [if_neg h]
  simp only
  rw [if_neg hn]

theorem Fn.ary_grow_frame (w : World α) (s : Aryb α) (extra : Nat) :
    (Fn.ary_grow w s extra).s.len = s.len ∧ (Fn.ary_grow w s extra).s.sz = s.sz ∧
      (Fn.ary_grow w s extra).s.ctor = s.ctor ∧ (Fn.ary_grow w s extra).s.dtor = s.dtor ∧
      (Fn.ary_grow w s extra).s.userp = s.userp := by
  by_cases h : size_t (s.len + extra) ≤ s.alloc
  · rw [Fn.ary_grow_fits w s extra h]
    simp
  · by_cases hn : (ary_xrealloc w s.buf (Fn.growAlloc s extra) s.sz).2.1 = NULL
    · rw [Fn.ary_grow_null w s extra h hn]
      simp
    · rw [Fn.ary_grow_block w s extra h hn]
      simp

theorem Fn.ary_grow_fail (w : World α) (s : Aryb α) (extra : Nat)
    (h0 : (Fn.ary_grow w s extra).ret = 0) :
    (Fn.ary_grow w s extra).s = s ∧ ¬ size_t (s.len + extra) ≤ s.alloc ∧
      (Fn.ary_grow w s extra).w.trace =
        w.trace ++ [Event.xrealloc s.buf (Fn.growAlloc s extra) s.sz] := by
  by_cases h : size_t (s.len + extra) ≤ s.alloc
  · rw [Fn.ary_grow_fits w s extra h] at h0
    simp at h0
  · by_cases hn : (ary_xrealloc w s.buf (Fn.growAlloc s extra) s.sz).2.1 = NULL
    · rw [Fn.ary_grow_null w s extra h hn]
      exact ⟨rfl, h, rfl⟩
    · rw [Fn.ary_grow_block w s extra h hn] at h0
      simp at h0

theorem growAlloc_exact (s : Aryb α) (extra : Nat) (hw : s.len + extra < 2 ^ 64)
    (h2 : 2 * s.alloc < 2 ^ 64) (hC : toDouble s.alloc = s.alloc)
    (hLE : toDouble (s.len + extra) = s.len + extra) :
    Fn.growAlloc s extra = max (s.len + extra) (2 * s.alloc) := by
  unfold Fn.growAlloc size_t doubleToSize SIZE_MOD
  rw [Nat.mod_eq_of_lt hw, hC, hLE]
  split
  · omega
  · rw [Nat.mod_eq_of_lt (by omega)]
    omega

/-- The capacity requested is enough and a `size_t` when the sizes are below
`2 ^ 53`. -/
theorem growAlloc_room_small (s : Aryb α) (extra : Nat) (hb : s.len + extra < 2 ^ 53)
    (hg : s.alloc < s.len + extra) :
    s.len + extra ≤ Fn.growAlloc s extra ∧ Fn.growAlloc s extra < 2 ^ 64 := by
  have hA := growAlloc_exact s extra (lt_trans hb (by norm_num)) (by omega)
    (toDouble_exact _ (by omega)) (toDouble_exact _ hb)
  rw [hA]
  exact ⟨le_max_left _ _, by omega⟩

/-- The capacity requested for one more element of a full array is enough and a
`size_t` whenever the doubled capacity is representable. -/
theorem growAlloc_room_one (s : Aryb α) (hfull : s.len = s.alloc)
    (hdef : 2 * toDouble s.alloc < 2 ^ 64) :
    s.len + 1 < 2 ^ 64 ∧ s.len + 1 ≤ Fn.growAlloc s 1 ∧ Fn.growAlloc s 1 < 2 ^ 64 := by
  have hw : s.len + 1 < 2 ^ 64 := by
    rcases Nat.eq_zero_or_pos s.alloc with h0 | hpos
    · omega
    · have := toDouble_lower s.alloc hpos
      omega
  refine ⟨hw, ?_⟩
  unfold Fn.growAlloc size_t doubleToSize SIZE_MOD
  rw [Nat.mod_eq_of_lt hw]
  split
  · exact ⟨le_refl _, hw⟩
  · rename_i hbr
    rw [Nat.mod_eq_of_lt (by omega)]
    refine ⟨?_, by omega⟩
    rcases Nat.eq_zero_or_pos s.alloc with h0 | hpos
    · exfalso
      apply hbr
      rw [hfull, h0, toDouble_zero]
      simpa using toDouble_pos 1 (le_refl _)
    · have := toDouble_lower s.alloc hpos
      omega

/-- What a successful `ary_grow` leaves behind when the capacity it requests is
enough. -/
theorem Fn.ary_grow_post (w : World α) (s : Aryb α) (extra : Nat)
    (hc : s.cells.length = s.alloc) (hs : s.alloc < SIZE_MOD)
    (hnull : s.buf = NULL ↔ s.alloc = 0) (hw : s.len + extra < 2 ^ 64)
    (hA : s.alloc < s.len + extra →
      s.len + extra ≤ Fn.growAlloc s extra ∧ Fn.growAlloc s extra < 2 ^ 64)
    (hret : (Fn.ary_grow w s extra).ret ≠ 0) :
    s.len + extra ≤ (Fn.ary_grow w s extra).s.alloc ∧
      (Fn.ary_grow w s extra).s.cells.length = (Fn.ary_grow w s extra).s.alloc ∧
      (Fn.ary_grow w s extra).s.cells.take s.alloc = s.cells ∧
      (Fn.ary_grow w s extra).s.alloc < SIZE_MOD ∧
      s.alloc ≤ (Fn.ary_grow w s extra).s.alloc ∧
      ((Fn.ary_grow w s extra).s.buf = NULL ↔ (Fn.ary_grow w s extra).s.alloc = 0) := by
  have hsz : size_t (s.len + extra) = s.len + extra := by
    unfold size_t SIZE_MOD
    exact Nat.mod_eq_of_lt hw
  by_cases h : size_t (s.len + extra) ≤ s.alloc
  · rw [Fn.ary_grow_fits w s extra h]
    rw [hsz] at h
    refine ⟨h, hc, ?_, hs, le_refl _, hnull⟩
    simp only
    rw [← hc, List.take_length]
  · by_cases hn : (ary_xrealloc w s.buf (Fn.growAlloc s extra) s.sz).2.1 = NULL
    · rw [Fn.ary_grow_null w s extra h hn] at hret
      simp at hret
    · rw [Fn.ary_grow_block w s extra h hn]
      rw [hsz] at h
      have hroom := hA (by omega)
      simp only
      rw [length_resize]
      refine ⟨hroom.1, rfl, ?_, ?_, by omega, ?_⟩
      · rw [take_resize _ _ _ _ (by omega) (by omega), ← hc, List.take_length]
      · unfold SIZE_MOD
        exact hroom.2
      · exact ⟨fun h1 => absurd h1 hn, fun h1 => by omega⟩

/-- The macro `ary_grow` on a well-formed array, when it succeeds and the capacity it
requests is enough. -/
theorem ary_grow_wf (w : World α) (a : Ary α) (extra : Nat) (hwf : a.WF)
    (hw : a.s.len + extra < 2 ^ 64)
    (hA : a.s.alloc < a.s.len + extra →
      a.s.len + extra ≤ Fn.growAlloc a.s extra ∧ Fn.growAlloc a.s extra < 2 ^ 64)
    (hret : (ary_grow w a extra).ret ≠ 0) :
    (ary_grow w a extra).a.WF ∧ (ary_grow w a extra).a.elems = a.elems ∧
      (ary_grow w a extra).a.s.len = a.s.len ∧
      a.s.len + extra ≤ (ary_grow w a extra).a.s.alloc ∧
      (ary_grow w a extra).a.s.dtor = a.s.dtor ∧
      (ary_grow w a extra).a.s.userp = a.s.userp := by
  obtain ⟨h1, h2, h3, h4, h5, h6⟩ := hwf
  have hr : (Fn.ary_grow w a.s extra).ret ≠ 0 := by
    intro h0
    apply hret
    unfold ary_grow
    simp only
    rw [if_neg (by simpa using h0)]
  have hp := Fn.ary_grow_post w a.s extra h4 h6 h5 hw hA hr
  have hf := Fn.ary_grow_frame w a.s extra
  have he : ary_grow w a extra = ⟨(Fn.ary_grow w a.s extra).w,
      { a with s := (Fn.ary_grow w a.s extra).s, buf := (Fn.ary_grow w a.s extra).s.buf },
      1⟩ := by
    unfold ary_grow
    simp only
    rw [if_pos hr]
  rw [he]
  refine ⟨⟨?_, rfl, ?_, hp.2.1, hp.2.2.2.2.2, hp.2.2.2.1⟩, ?_, hf.1, hp.1, hf.2.2.2.1,
    hf.2.2.2.2⟩
  · show a.len = (Fn.ary_grow w a.s extra).s.len
    rw [hf.1, h1]
  · show (Fn.ary_grow w a.s extra).s.len ≤ (Fn.ary_grow w a.s extra).s.alloc
    rw [hf.1]
    omega
  · show (Fn.ary_grow w a.s extra).s.cells.take (Fn.ary_grow w a.s extra).s.len
      = a.s.cells.take a.s.len
    rw [hf.1]
    have h7 := hp.2.2.1
    have : List.take a.s.len (List.take a.s.alloc (Fn.ary_grow w a.s extra).s.cells)
        = List.take a.s.len a.s.cells := by rw [h7]
    rw [List.take_take, min_eq_left h3] at this
    exact this

theorem ary_init_zero (sizeof : Nat) (w : World α) (a : Ary α) :
    ary_init sizeof w a 0 =
      ⟨w, { a with s := zeroAryb sizeof, len := 0, buf := NULL }, 1⟩ := by
  unfold ary_init ary_grow
  rw [Fn.ary_grow_fits w _ 0 (by simp [size_t])]
  rfl

theorem elems_length (a : Ary α) (hwf : a.WF) : a.elems.length = a.s.len := by
  obtain ⟨_, _, h3, h4, _, _⟩ := hwf
  unfold Ary.elems
  rw [List.length_take]
  omega

/-! ## Facts about `ary_push` and `ary_pop` -/

/-- The stores of `ary_push` on a well-formed array that has a free slot. -/
theorem pushStore_ok (w : World α) (a : Ary α) (v : α) (hwf : a.WF)
    (hroom : a.s.len < a.s.alloc) :
    (pushStore w a v).ret = 1 ∧ (pushStore w a v).w = w ∧ (pushStore w a v).a.WF ∧
      (pushStore w a v).a.elems = a.elems ++ [v] ∧
      (pushStore w a v).a.s.len = a.s.len + 1 ∧
      (pushStore w a v).a.len = a.s.len + 1 ∧
      (pushStore w a v).a.s.alloc = a.s.alloc := by
  obtain ⟨h1, h2, h3, h4, h5, h6⟩ := hwf
  have hinc : size_t (a.s.len + 1) = a.s.len + 1 := by
    unfold size_t
    apply Nat.mod_eq_of_lt
    omega
  have hst : a.s.store a.buf a.s.len [v] =
      { a.s with cells := blockWrite a.s.cells a.s.len [v] } := by
    unfold Aryb.store
    rw [h2, slot_self]
  have he : pushStore w a v =
      ⟨w,
       { a with
         s := { a.s with
                cells := blockWrite a.s.cells a.s.len [v]
                len := a.s.len + 1 }
         len := a.s.len + 1 }, 1⟩ := by
    unfold pushStore
    simp only
    rw [hst, hinc, h1, hinc]
  rw [he]
  refine ⟨rfl, rfl, ⟨rfl, h2, ?_, ?_, h5, h6⟩, ?_, rfl, rfl, rfl⟩
  · show a.s.len + 1 ≤ a.s.alloc
    omega
  · show (blockWrite a.s.cells a.s.len [v]).length = a.s.alloc
    rw [length_blockWrite, h4]
  · show (blockWrite a.s.cells a.s.len [v]).take (a.s.len + 1) = a.s.cells.take a.s.len ++ [v]
    exact take_blockWrite_run a.s.cells a.s.len [v] (by simp only [List.length_singleton]; omega)

/-- A successful `ary_push` on a well-formed array whose capacity, if it is full, can
be doubled. -/
theorem ary_push_ok (w : World α) (a : Ary α) (v : α) (hwf : a.WF)
    (hdef : a.s.len = a.s.alloc → 2 * toDouble a.s.alloc < 2 ^ 64)
    (hret : (ary_push w a v).ret = 1) :
    (ary_push w a v).a.WF ∧ (ary_push w a v).a.elems = a.elems ++ [v] ∧
      (ary_push w a v).a.s.len = a.s.len + 1 ∧ (ary_push w a v).a.len = a.s.len + 1 := by
  by_cases hfull : a.s.len = a.s.alloc
  · have hroom := growAlloc_room_one a.s hfull (hdef hfull)
    have hg : (ary_grow w a 1).ret ≠ 0 := by
      intro h0
      unfold ary_push at hret
      rw [if_pos hfull] at hret
      simp only at hret
      rw [if_neg (by simpa using h0)] at hret
      simp at hret
    have hgw := ary_grow_wf w a 1 hwf hroom.1 (fun _ => hroom.2) hg
    have hp := pushStore_ok (ary_grow w a 1).w (ary_grow w a 1).a v hgw.1
      (by rw [hgw.2.2.1]; exact hgw.2.2.2.1)
    have he : ary_push w a v = pushStore (ary_grow w a 1).w (ary_grow w a 1).a v := by
      unfold ary_push
      rw [if_pos hfull]
      simp only
      rw [if_pos hg]
    rw [he]
    refine ⟨hp.2.2.1, ?_, ?_, ?_⟩
    · rw [hp.2.2.2.1, hgw.2.1]
    · rw [hp.2.2.2.2.1, hgw.2.2.1]
    · rw [hp.2.2.2.2.2.1, hgw.2.2.1]
  · have hp := pushStore_ok w a v hwf (by have := hwf.2.2.1; omega)
    have he : ary_push w a v = pushStore w a v := by
      unfold ary_push
      rw [if_neg hfull]
    rw [he]
    exact ⟨hp.2.2.1, hp.2.2.2.1, hp.2.2.2.2.1, hp.2.2.2.2.2.1⟩

/-- A pop with a non-NULL `ret` on a well-formed non-empty array. -/
theorem ary_pop_ok (w : World α) (a : Ary α) (hwf : a.WF) (hpos : 0 < a.s.len) :
    (ary_pop w a true).ret = 1 ∧ (ary_pop w a true).w = w ∧ (ary_pop w a true).a.WF ∧
      (ary_pop w a true).a.s.len = a.s.len - 1 ∧
      ∃ x, (ary_pop w a true).out = some x ∧ a.elems = (ary_pop w a true).a.elems ++ [x] := by
  obtain ⟨h1, h2, h3, h4, h5, h6⟩ := hwf
  have hdec : size_dec a.s.len = a.s.len - 1 := by
    unfold size_dec
    unfold SIZE_MOD at h6 ⊢
    have : a.s.len + (2 ^ 64 - 1) = (a.s.len - 1) + 2 ^ 64 := by omega
    rw [this, Nat.add_mod_right]
    apply Nat.mod_eq_of_lt
    omega
  have he : ary_pop w a true =
      ⟨w, { a with s := { a.s with len := a.s.len - 1 }, len := a.s.len - 1 }, 1,
        a.s.cells[a.s.len - 1]?⟩ := by
    unfold ary_pop
    rw [if_pos (by omega)]
    simp only [if_true]
    unfold Aryb.load
    rw [h1, h2, hdec, slot_self]
  rw [he]
  have hlt : a.s.len - 1 < a.s.cells.length := by omega
  refine ⟨rfl, rfl, ⟨rfl, h2, ?_, h4, h5, h6⟩, rfl, a.s.cells[a.s.len - 1], ?_, ?_⟩
  · show a.s.len - 1 ≤ a.s.alloc
    omega
  · exact List.getElem?_eq_getElem hlt
  · show a.s.cells.take a.s.len = a.s.cells.take (a.s.len - 1) ++ [a.s.cells[a.s.len - 1]]
    have h7 : a.s.len = (a.s.len - 1) + 1 := by omega
    conv_lhs => rw [h7]
    rw [List.take_succ, List.getElem?_eq_getElem hlt]
    rfl

theorem pushAll_ok (w : World α) (a : Ary α) (vs : List α) (hwf : a.WF)
    (hb : a.s.len + vs.length < 2 ^ 53) (hret : (pushAll w a vs).ret = 1) :
    (pushAll w a vs).a.WF ∧ (pushAll w a vs).a.elems = a.elems ++ vs := by
  induction vs generalizing w a with
  | nil => exact ⟨hwf, by simp [pushAll]⟩
  | cons v vs ih =>
    have h1 : (ary_push w a v).ret = 1 := by
      by_contra h
      unfold pushAll at hret
      rw [if_neg h] at hret
      simp at hret
    have he : pushAll w a (v :: vs) = pushAll (ary_push w a v).w (ary_push w a v).a vs := by
      conv_lhs => unfold pushAll
      rw [if_pos h1]
    simp only [List.length_cons] at hb
    have hp := ary_push_ok w a v hwf (fun hfull => by
      have hlt : a.s.alloc < 2 ^ 53 := by omega
      rw [toDouble_exact _ hlt]
      omega) h1
    rw [he] at hret ⊢
    have := ih (ary_push w a v).w (ary_push w a v).a hp.1 (by rw [hp.2.2.1]; omega) hret
    refine ⟨this.1, ?_⟩
    rw [this.2, hp.2.1]
    simp

theorem popN_ok (w : World α) (a : Ary α) (pre vs : List α) (hwf : a.WF)
    (he : a.elems = pre ++ vs) :
    (popN w a vs.length).2 = vs.reverse.map (fun v => ((1 : Int), some v)) ∧
      (popN w a vs.length).1.2.WF ∧ (popN w a vs.length).1.2.elems = pre ∧
      (popN w a vs.length).1.1 = w := by
  induction vs using List.reverseRecOn generalizing w a with
  | nil => exact ⟨rfl, hwf, by simpa using he, rfl⟩
  | append_singleton vs v ih =>
    have hlen : a.s.len = pre.length + vs.length + 1 := by
      rw [← elems_length a hwf, he]
      simp only [List.length_append, List.length_singleton]
      omega
    obtain ⟨p1, p2, p3, p4, x, p5, p6⟩ := ary_pop_ok w a hwf (by omega)
    rw [he, ← List.append_assoc] at p6
    have hx := List.append_inj' p6 rfl
    have hn : (vs ++ [v]).length = vs.length + 1 := by simp
    rw [hn]
    have hr := ih (ary_pop w a true).w (ary_pop w a true).a p3 hx.1.symm
    have hv : v = x := by simpa using hx.2
    simp only [popN]
    rw [hr.1, p1, p5, ← hv, p2] at *
    refine ⟨?_, hr.2.1, hr.2.2.1, ?_⟩
    · simp
    · rw [hr.2.2.2]

/-! ## Facts about `ary_splicep` and `ary_splice` -/

theorem clamp_pos (pos len : Nat) : (if pos > len then len else pos) = min pos len := by
  split <;> omega

theorem clamp_rlen (rlen n : Nat) : (if rlen > n then n else rlen) = min rlen n := by
  split <;> omega

/-- The failure path of `(ary_splicep)`. -/
theorem Fn.ary_splicep_fail (w : World α) (s : Aryb α) (pos rlen alen : Nat)
    (hgt : alen > min rlen (s.len - min pos s.len))
    (h0 : (Fn.ary_grow w s (alen - min rlen (s.len - min pos s.len))).ret = 0) :
    Fn.ary_splicep w s pos rlen alen =
      ⟨(Fn.ary_grow w s (alen - min rlen (s.len - min pos s.len))).w, s, NULL⟩ := by
  have hs := (Fn.ary_grow_fail w s _ h0).1
  unfold Fn.ary_splicep
  simp only [clamp_pos, clamp_rlen]
  rw [if_pos hgt, if_pos ⟨hgt, h0⟩, hs]

/-- The block after the `memmove` of `ary_splicep` and the `memcpy` of `ary_splice`:
`d` is the block after the destructor calls, which differs from `cells` only inside
the removed run. -/
theorem splice_cells (cells d data : List α) (len P R : Nat)
    (hP : P ≤ len) (hR : R ≤ len - P) (hcap : len - R + data.length ≤ cells.length)
    (hlen : len ≤ cells.length) (hdl : d.length = cells.length)
    (hdt : d.take P = cells.take P) (hdd : d.drop (P + R) = cells.drop (P + R)) :
    (blockWrite
        (if R ≠ data.length ∧ P < len then
          memmove d (P + data.length) (P + R) (len - P - R) else d)
        P data).take (len - R + data.length)
      = cells.take P ++ data ++ (cells.take len).drop (P + R) := by
  have hC : (cells.take len).drop (P + R) = blockRead d (P + R) (len - P - R) := by
    unfold blockRead
    rw [List.drop_take, hdd]
    congr 1
    omega
  have hCl : (blockRead d (P + R) (len - P - R)).length = len - P - R := by
    unfold blockRead
    rw [List.length_take, List.length_drop, hdl]
    omega
  generalize hm : (if R ≠ data.length ∧ P < len then
      memmove d (P + data.length) (P + R) (len - P - R) else d) = m
  have hml : m.length = cells.length := by
    rw [← hm]
    split
    · unfold memmove
      rw [length_blockWrite, hdl]
    · exact hdl
  have hmt : m.take P = cells.take P := by
    rw [← hm]
    split
    · unfold memmove
      rw [take_blockWrite _ _ _ _ (Nat.le_add_right _ _), hdt]
    · exact hdt
  have hmr : blockRead m (P + data.length) (len - P - R)
      = blockRead d (P + R) (len - P - R) := by
    rw [← hm]
    split
    · unfold memmove
      have := blockRead_blockWrite d (P + data.length) (blockRead d (P + R) (len - P - R))
        (by rw [hCl, hdl]; omega)
      rw [hCl] at this
      exact this
    · rename_i hcond
      by_cases hRD : R = data.length
      · rw [hRD]
      · have hPl : P = len := by
          by_contra hne
          exact hcond ⟨hRD, by omega⟩
        have h0 : len - P - R = 0 := by omega
        rw [h0]
        simp [blockRead]
  rw [blockWrite_eq m P data (by rw [hml]; omega), hC, ← hmr, hmt]
  have hsplit : len - R + data.length = (cells.take P ++ data).length + (len - P - R) := by
    simp only [List.length_append, List.length_take]
    omega
  rw [hsplit, List.take_append]
  rfl

/-- Unless the growth step fails, `(ary_splicep)` is its tail applied to the clamped
arguments. -/
theorem Fn.ary_splicep_success (w : World α) (s : Aryb α) (pos rlen alen : Nat)
    (hok : ¬ (alen > min rlen (s.len - min pos s.len) ∧
      (Fn.spliceGrow w s pos rlen alen).ret = 0)) :
    Fn.ary_splicep w s pos rlen alen =
      Fn.spliceTail (Fn.spliceGrow w s pos rlen alen) (min pos s.len)
        (min rlen (s.len - min pos s.len)) alen := by
  unfold Fn.spliceGrow at hok
  unfold Fn.ary_splicep Fn.spliceTail Fn.spliceGrow
  simp only [clamp_pos, clamp_rlen]
  rw [if_neg hok]

/-- A returned pointer other than `NULL` means the growth step did not fail. -/
theorem Fn.ary_splicep_grown (w : World α) (s : Aryb α) (pos rlen alen : Nat)
    (hret : (Fn.ary_splicep w s pos rlen alen).ret ≠ NULL) :
    ¬ (alen > min rlen (s.len - min pos s.len) ∧
      (Fn.spliceGrow w s pos rlen alen).ret = 0) := by
  intro h
  apply hret
  have h0 := h.2
  unfold Fn.spliceGrow at h0
  rw [if_pos h.1] at h0
  rw [Fn.ary_splicep_fail w s pos rlen alen h.1 h0]

/-- What the growth step of a successful `(ary_splicep)` leaves behind, for sizes
below `2 ^ 53`. -/
theorem Fn.spliceGrow_post (w : World α) (s : Aryb α) (pos rlen alen : Nat)
    (hlen : s.len ≤ s.alloc) (hc : s.cells.length = s.alloc) (hs : s.alloc < SIZE_MOD)
    (hnull : s.buf = NULL ↔ s.alloc = 0) (hb : s.len + alen < 2 ^ 53)
    (hok : ¬ (alen > min rlen (s.len - min pos s.len) ∧
      (Fn.spliceGrow w s pos rlen alen).ret = 0)) :
    (Fn.spliceGrow w s pos rlen alen).s.len = s.len ∧
      (Fn.spliceGrow w s pos rlen alen).s.dtor = s.dtor ∧
      (Fn.spliceGrow w s pos rlen alen).s.userp = s.userp ∧
      s.len - min rlen (s.len - min pos s.len) + alen
        ≤ (Fn.spliceGrow w s pos rlen alen).s.alloc ∧
      (Fn.spliceGrow w s pos rlen alen).s.cells.length
        = (Fn.spliceGrow w s pos rlen alen).s.alloc ∧
      (Fn.spliceGrow w s pos rlen alen).s.cells.take s.alloc = s.cells ∧
      (Fn.spliceGrow w s pos rlen alen).s.alloc < SIZE_MOD ∧
      ((Fn.spliceGrow w s pos rlen alen).s.buf = NULL ↔
        (Fn.spliceGrow w s pos rlen alen).s.alloc = 0) ∧
      s.alloc ≤ (Fn.spliceGrow w s pos rlen alen).s.alloc := by
  by_cases hgt : alen > min rlen (s.len - min pos s.len)
  · have hr : (Fn.spliceGrow w s pos rlen alen).ret ≠ 0 := fun h0 => hok ⟨hgt, h0⟩
    unfold Fn.spliceGrow at hr ⊢
    rw [if_pos hgt] at hr ⊢
    have hf := Fn.ary_grow_frame w s (alen - min rlen (s.len - min pos s.len))
    have hp := Fn.ary_grow_post w s (alen - min rlen (s.len - min pos s.len)) hc hs hnull
      (by have : (2 : Nat) ^ 53 < 2 ^ 64 := by norm_num
          omega)
      (fun hg => growAlloc_room_small s _ (by omega) hg) hr
    refine ⟨hf.1, hf.2.2.2.1, hf.2.2.2.2, ?_, hp.2.1, hp.2.2.1, hp.2.2.2.1, hp.2.2.2.2.2,
      hp.2.2.2.2.1⟩
    have := hp.1
    omega
  · unfold Fn.spliceGrow
    rw [if_neg hgt]
    refine ⟨rfl, rfl, rfl, ?_, hc, ?_, hs, hnull, le_refl _⟩
    · show s.len - min rlen (s.len - min pos s.len) + alen ≤ s.alloc
      omega
    · show s.cells.take s.alloc = s.cells
      rw [← hc, List.take_length]

/-- The block left by the tail of `(ary_splicep)`, once `data` is copied to the slot
it returns. -/
theorem Fn.spliceTail_cells (g : FnRes α Int) (P R len : Nat) (data : List α)
    (hgl : g.s.len = len) (hP : P ≤ len) (hR : R ≤ len - P)
    (hcap : len - R + data.length ≤ g.s.cells.length) (hlen : len ≤ g.s.cells.length) :
    (blockWrite (Fn.spliceTail g P R data.length).s.cells P data).take
        (len - R + data.length)
      = g.s.cells.take P ++ data ++ (g.s.cells.take len).drop (P + R) ∧
    (Fn.spliceTail g P R data.length).s.cells.length = g.s.cells.length := by
  unfold Fn.spliceTail
  simp only
  generalize hd : (match g.s.dtor with
    | some dtor =>
      if R ≠ 0 then dtorLoop dtor g.s.userp R P g.w g.s.cells else (g.w, g.s.cells)
    | none => (g.w, g.s.cells)) = d
  have hfacts : d.2.length = g.s.cells.length ∧ d.2.take P = g.s.cells.take P ∧
      d.2.drop (P + R) = g.s.cells.drop (P + R) := by
    rw [← hd]
    cases g.s.dtor with
    | none => exact ⟨rfl, rfl, rfl⟩
    | some dtor =>
      simp only
      split
      · exact ⟨dtorLoop_length _ _ _ _ _ _, dtorLoop_take _ _ _ _ _ _ _ (le_refl _),
          dtorLoop_drop _ _ _ _ _ _ _ (le_refl _)⟩
      · exact ⟨rfl, rfl, rfl⟩
  rw [hgl]
  refine ⟨splice_cells g.s.cells d.2 data len P R hP hR hcap hlen hfacts.1 hfacts.2.1
    hfacts.2.2, ?_⟩
  split
  · unfold memmove
    rw [length_blockWrite, hfacts.1]
  · exact hfacts.1

theorem ary_splicep_null (w : World α) (a : Ary α) (pos rlen alen : Nat)
    (h : (Fn.ary_splicep w a.s pos rlen alen).ret = NULL) :
    ary_splicep w a pos rlen alen =
      ⟨(Fn.ary_splicep w a.s pos rlen alen).w,
       { a with s := (Fn.ary_splicep w a.s pos rlen alen).s
                ptr := (Fn.ary_splicep w a.s pos rlen alen).ret }, NULL⟩ := by
  unfold ary_splicep
  simp only
  rw [if_neg (by simpa using h)]

theorem ary_splicep_ptr (w : World α) (a : Ary α) (pos rlen alen : Nat)
    (h : (Fn.ary_splicep w a.s pos rlen alen).ret ≠ NULL) :
    ary_splicep w a pos rlen alen =
      ⟨(Fn.ary_splicep w a.s pos rlen alen).w,
       { a with s := (Fn.ary_splicep w a.s pos rlen alen).s
                ptr := (Fn.ary_splicep w a.s pos rlen alen).ret
                buf := (Fn.ary_splicep w a.s pos rlen alen).s.buf
                len := (Fn.ary_splicep w a.s pos rlen alen).s.len },
       (Fn.ary_splicep w a.s pos rlen alen).ret⟩ := by
  unfold ary_splicep
  simp only
  rw [if_pos h]

/-- A successful `ary_splice` on a well-formed array, for sizes below `2 ^ 53`. -/
theorem ary_splice_ok (w : World α) (a : Ary α) (pos rlen : Nat) (data : List α)
    (hwf : a.WF) (hb : a.s.len + data.length < 2 ^ 53)
    (hret : (ary_splice w a pos rlen data).ret = 1) :
    (ary_splice w a pos rlen data).a.elems
        = a.elems.take (min pos a.s.len) ++ data
          ++ a.elems.drop (min pos a.s.len + min rlen (a.s.len - min pos a.s.len)) ∧
      (ary_splice w a pos rlen data).a.s.len
        = a.s.len - min rlen (a.s.len - min pos a.s.len) + data.length ∧
      (ary_splice w a pos rlen data).a.len
        = a.s.len - min rlen (a.s.len - min pos a.s.len) + data.length ∧
      (ary_splice w a pos rlen data).a.WF := by
  obtain ⟨h1, h2, h3, h4, h5, h6⟩ := hwf
  have hf : (Fn.ary_splicep w a.s pos rlen data.length).ret ≠ NULL := by
    intro h0
    have hm := ary_splicep_null w a pos rlen data.length h0
    unfold ary_splice at hret
    rw [hm] at hret
    simp only at hret
    rw [if_neg (by simp)] at hret
    simp at hret
  have hok := Fn.ary_splicep_grown w a.s pos rlen data.length hf
  have hg := Fn.spliceGrow_post w a.s pos rlen data.length h3 h4 h6 h5 hb hok
  have hs := Fn.ary_splicep_success w a.s pos rlen data.length hok
  obtain ⟨g1, g2, g3, g4, g5, g6, g7, g8, g9⟩ := hg
  have hP : min pos a.s.len ≤ a.s.len := min_le_right _ _
  have hR : min rlen (a.s.len - min pos a.s.len) ≤ a.s.len - min pos a.s.len :=
    min_le_right _ _
  have ht := Fn.spliceTail_cells (Fn.spliceGrow w a.s pos rlen data.length)
    (min pos a.s.len) (min rlen (a.s.len - min pos a.s.len)) a.s.len data g1 hP hR
    (by rw [g5]; exact g4) (by rw [g5]; omega)
  rw [← hs] at ht
  have hsl : (Fn.ary_splicep w a.s pos rlen data.length).s.len
      = a.s.len - min rlen (a.s.len - min pos a.s.len) + data.length := by
    rw [hs]
    unfold Fn.spliceTail
    simp only
    rw [g1]
    unfold size_t SIZE_MOD
    apply Nat.mod_eq_of_lt
    have : (2 : Nat) ^ 53 < 2 ^ 64 := by norm_num
    omega
  have hsb : (Fn.ary_splicep w a.s pos rlen data.length).s.buf
      = (Fn.spliceGrow w a.s pos rlen data.length).s.buf := by
    rw [hs]
    rfl
  have hsa : (Fn.ary_splicep w a.s pos rlen data.length).s.alloc
      = (Fn.spliceGrow w a.s pos rlen data.length).s.alloc := by
    rw [hs]
    rfl
  have hsr : (Fn.ary_splicep w a.s pos rlen data.length).ret
      = (Fn.ary_splicep w a.s pos rlen data.length).s.buf.add (min pos a.s.len) := by
    rw [hs]
    rfl
  have hst : (Fn.ary_splicep w a.s pos rlen data.length).s.store
        (Fn.ary_splicep w a.s pos rlen data.length).ret 0 data
      = { (Fn.ary_splicep w a.s pos rlen data.length).s with
          cells := blockWrite (Fn.ary_splicep w a.s pos rlen data.length).s.cells
            (min pos a.s.len) data } := by
    unfold Aryb.store
    rw [hsr, slot_add]
    rfl
  have he : ary_splice w a pos rlen data =
      ⟨(Fn.ary_splicep w a.s pos rlen data.length).w,
       { a with
         s := { (Fn.ary_splicep w a.s pos rlen data.length).s with
                cells := blockWrite (Fn.ary_splicep w a.s pos rlen data.length).s.cells
                  (min pos a.s.len) data }
         ptr := (Fn.ary_splicep w a.s pos rlen data.length).ret
         buf := (Fn.ary_splicep w a.s pos rlen data.length).s.buf
         len := (Fn.ary_splicep w a.s pos rlen data.length).s.len }, 1⟩ := by
    unfold ary_splice
    rw [ary_splicep_ptr w a pos rlen data.length hf]
    simp only
    rw [if_pos hf, hst]
  have hel : a.elems.take (min pos a.s.len) ++ data
      ++ a.elems.drop (min pos a.s.len + min rlen (a.s.len - min pos a.s.len))
      = (Fn.spliceGrow w a.s pos rlen data.length).s.cells.take (min pos a.s.len) ++ data
        ++ ((Fn.spliceGrow w a.s pos rlen data.length).s.cells.take a.s.len).drop
          (min pos a.s.len + min rlen (a.s.len - min pos a.s.len)) := by
    have e1 : (Fn.spliceGrow w a.s pos rlen data.length).s.cells.take a.s.len = a.elems := by
      have : List.take a.s.len
          (List.take a.s.alloc (Fn.spliceGrow w a.s pos rlen data.length).s.cells)
          = List.take a.s.len a.s.cells := by rw [g6]
      rw [List.take_take, min_eq_left h3] at this
      exact this
    have e2 : (Fn.spliceGrow w a.s pos rlen data.length).s.cells.take (min pos a.s.len)
        = a.elems.take (min pos a.s.len) := by
      rw [← e1, List.take_take, min_eq_left hP]
    rw [e1, e2]
  rw [he]
  refine ⟨?_, hsl, hsl, ⟨rfl, rfl, ?_, ?_, ?_, ?_⟩⟩
  · show (blockWrite (Fn.ary_splicep w a.s pos rlen data.length).s.cells
        (min pos a.s.len) data).take (Fn.ary_splicep w a.s pos rlen data.length).s.len = _
    rw [hsl, hel]
    exact ht.1
  · show (Fn.ary_splicep w a.s pos rlen data.length).s.len
      ≤ (Fn.ary_splicep w a.s pos rlen data.length).s.alloc
    rw [hsl, hsa]
    exact g4
  · show (blockWrite (Fn.ary_splicep w a.s pos rlen data.length).s.cells
        (min pos a.s.len) data).length = (Fn.ary_splicep w a.s pos rlen data.length).s.alloc
    rw [length_blockWrite, ht.2, g5, hsa]
  · show (Fn.ary_splicep w a.s pos rlen data.length).s.buf = NULL
      ↔ (Fn.ary_splicep w a.s pos rlen data.length).s.alloc = 0
    rw [hsb, hsa]
    exact g8
  · show (Fn.ary_splicep w a.s pos rlen data.length).s.alloc < SIZE_MOD
    rw [hsa]
    exact g7

/-- Where `ary_splice` does return 1: on a well-formed array that has a buffer, or to
which elements are added, it returns 1 unless the growth step fails. So the arrays on
which it returns 0 without a failure of `ary_grow` are those without a buffer to which
nothing is added. -/
theorem ary_splice_returns_one (w : World α) (a : Ary α) (pos rlen : Nat) (data : List α)
    (hwf : a.WF) (hd : data.length < 2 ^ 64)
    (h : a.s.buf ≠ NULL ∨ data.length > min rlen (a.s.len - min pos a.s.len))
    (hok : ¬ (data.length > min rlen (a.s.len - min pos a.s.len) ∧
      (Fn.spliceGrow w a.s pos rlen data.length).ret = 0)) :
    (ary_splice w a pos rlen data).ret = 1 := by
  obtain ⟨h1, h2, h3, h4, h5, h6⟩ := hwf
  have hs := Fn.ary_splicep_success w a.s pos rlen data.length hok
  have hbuf : (Fn.spliceGrow w a.s pos rlen data.length).s.buf ≠ NULL := by
    by_cases hgt : data.length > min rlen (a.s.len - min pos a.s.len)
    · have hr : (Fn.spliceGrow w a.s pos rlen data.length).ret ≠ 0 := fun h0 => hok ⟨hgt, h0⟩
      unfold Fn.spliceGrow at hr ⊢
      rw [if_pos hgt] at hr ⊢
      by_cases hfit : size_t (a.s.len + (data.length - min rlen (a.s.len - min pos a.s.len)))
          ≤ a.s.alloc
      · rw [Fn.ary_grow_fits w a.s _ hfit]
        intro hnull
        have ha := h5.mp hnull
        have hl : a.s.len = 0 := by omega
        rw [hl, ha] at hfit
        rw [hl] at hgt
        simp only [Nat.zero_sub, Nat.zero_le, min_eq_right, Nat.sub_zero, Nat.zero_add,
          Nat.le_zero_eq] at hfit hgt
        unfold size_t SIZE_MOD at hfit
        rw [Nat.mod_eq_of_lt hd] at hfit
        omega
      · by_cases hn : (ary_xrealloc w a.s.buf (Fn.growAlloc a.s
            (data.length - min rlen (a.s.len - min pos a.s.len))) a.s.sz).2.1 = NULL
        · rw [Fn.ary_grow_null w a.s _ hfit hn] at hr
          simp at hr
        · rw [Fn.ary_grow_block w a.s _ hfit hn]
          exact hn
    · unfold Fn.spliceGrow
      rw [if_neg hgt]
      rcases h with h | h
      · exact h
      · exact absurd h hgt
  have hf : (Fn.ary_splicep w a.s pos rlen data.length).ret ≠ NULL := by
    rw [hs]
    exact add_ne_null _ _ hbuf
  unfold ary_splice
  rw [ary_splicep_ptr w a pos rlen data.length hf]
  simp only
  rw [if_pos hf]

/-! ## Facts about the destructor loop's call log -/

theorem callDtor_getElem (dtor : ElemCb α) (userp : Ptr) (w : World α) (cells : List α)
    (slot j : Nat) (hj : slot < j) :
    (callDtor dtor userp w cells slot).2[j]? = cells[j]? := by
  unfold callDtor
  cases h : cells[slot]? with
  | none => rfl
  | some v =>
    simp only
    exact List.getElem?_set_ne (by omega)

theorem dtorLoop_trace (dtor : ElemCb α) (userp : Ptr) (n slot : Nat) (w : World α)
    (cells : List α) :
    (dtorLoop dtor userp n slot w cells).1.trace
      = w.trace ++ (List.range n).map (fun k => Event.dtor (slot + k) cells[slot + k]? userp) := by
  induction n generalizing slot w cells with
  | zero => simp [dtorLoop]
  | succ n ih =>
    simp only [dtorLoop]
    rw [ih, List.range_succ_eq_map, List.map_cons, List.map_map]
    have h1 : (callDtor dtor userp w cells slot).1.trace
        = w.trace ++ [Event.dtor slot cells[slot]? userp] := rfl
    rw [h1, List.append_assoc]
    congr 1
    simp only [List.singleton_append, Nat.add_zero]
    congr 1
    apply List.map_congr_left
    intro k _
    simp only [Function.comp]
    rw [callDtor_getElem dtor userp w cells slot (slot + 1 + k) (by omega)]
    have : slot + 1 + k = slot + (k + 1) := by omega
    rw [this]

theorem dtorSlots_append (t1 t2 : List (Event α)) :
    dtorSlots (t1 ++ t2) = dtorSlots t1 ++ dtorSlots t2 := by
  unfold dtorSlots
  exact List.filterMap_append _ _ _

theorem dtorSlots_dtors (f : Nat → Option α) (userp : Ptr) (slot n : Nat) :
    dtorSlots ((List.range n).map (fun k => Event.dtor (slot + k) (f k) userp))
      = (List.range n).map (fun k => slot + k) := by
  unfold dtorSlots
  rw [List.filterMap_map]
  induction n with
  | zero => rfl
  | succ n ih =>
    rw [List.range_succ, List.filterMap_append, List.map_append, ih]
    rfl

/-- The call log of `ary_freebuf`. -/
theorem ary_freebuf_trace (w : World α) (s : Aryb α) :
    (ary_freebuf w s).trace
      = w.trace ++
        (match s.dtor with
         | some _ => (List.range s.len).map (fun i => Event.dtor i s.cells[i]? s.userp)
         | none => []) ++ [Event.xfree s.buf] := by
  unfold ary_freebuf ary_xfree
  simp only
  congr 1
  cases hd : s.dtor with
  | none => simp
  | some dtor =>
    simp only
    by_cases hl : s.len = 0
    · simp [hl]
    · rw [if_pos hl, dtorLoop_trace]
      simp

/-! ## Facts about `ary_shrinktofit` -/

theorem Fn.ary_shrinktofit_same (w : World α) (s : Aryb α) (h : s.alloc = s.len) :
    Fn.ary_shrinktofit w s = ⟨w, s, 1⟩ := by
  unfold Fn.ary_shrinktofit
  rw [if_pos h]

theorem Fn.ary_shrinktofit_null (w : World α) (s : Aryb α) (h : s.alloc ≠ s.len)
    (hl : s.len ≠ 0) (hn : (ary_xrealloc w s.buf s.len s.sz).2.1 = NULL) :
    Fn.ary_shrinktofit w s = ⟨(ary_xrealloc w s.buf s.len s.sz).1, s, 0⟩ := by
  unfold Fn.ary_shrinktofit
  rw [if_neg h, if_pos hl]
  simp only
  rw [if_pos hn]

theorem Fn.ary_shrinktofit_block (w : World α) (s : Aryb α) (h : s.alloc ≠ s.len)
    (hl : s.len ≠ 0) (hn : (ary_xrealloc w s.buf s.len s.sz).2.1 ≠ NULL) :
    Fn.ary_shrinktofit w s =
      ⟨(ary_xrealloc w s.buf s.len s.sz).1,
       { s with
         alloc := s.len
         buf := (ary_xrealloc w s.buf s.len s.sz).2.1
         cells := resize s.cells s.len (ary_xrealloc w s.buf s.len s.sz).2.2 }, 1⟩ := by
  unfold Fn.ary_shrinktofit
  rw [if_neg h, if_pos hl]
  simp only
  rw [if_neg hn]

theorem Fn.ary_shrinktofit_free (w : World α) (s : Aryb α) (h : s.alloc ≠ s.len)
    (hl : s.len = 0) :
    Fn.ary_shrinktofit w s =
      ⟨ary_xfree w s.buf, { s with alloc := s.len, buf := NULL, cells := [] }, 1⟩ := by
  unfold Fn.ary_shrinktofit
  rw [if_neg h, if_neg (by simpa using hl)]

/-! ## Facts about the linear searches -/

theorem elems_getElem (a : Ary α) (j : Nat) (hj : j < a.s.len) :
    a.elems[j]? = a.s.cells[j]? := by
  unfold Ary.elems
  rw [List.getElem?_take, if_pos hj]

theorem spliceGrow_trace (w : World α) (s : Aryb α) (pos rlen alen : Nat) :
    (Fn.spliceGrow w s pos rlen alen).w.trace = w.trace ∨
      ∃ n, (Fn.spliceGrow w s pos rlen alen).w.trace
        = w.trace ++ [Event.xrealloc s.buf n s.sz] := by
  unfold Fn.spliceGrow
  split
  · by_cases h : size_t (s.len + (alen - min rlen (s.len - min pos s.len))) ≤ s.alloc
    · rw [Fn.ary_grow_fits w s _ h]
      exact Or.inl rfl
    · by_cases hn : (ary_xrealloc w s.buf
          (Fn.growAlloc s (alen - min rlen (s.len - min pos s.len))) s.sz).2.1 = NULL
      · rw [Fn.ary_grow_null w s _ h hn]
        exact Or.inr ⟨_, rfl⟩
      · rw [Fn.ary_grow_block w s _ h hn]
        exact Or.inr ⟨_, rfl⟩
  · exact Or.inl rfl

theorem ary_splicep_world (w : World α) (a : Ary α) (pos rlen alen : Nat) :
    (ary_splicep w a pos rlen alen).w = (Fn.ary_splicep w a.s pos rlen alen).w := by
  unfold ary_splicep
  simp only
  split <;> rfl

/-! ## Facts about the structural invariant -/

theorem store_frame (s : Aryb α) (p : Ptr) (i : Nat) (xs : List α) :
    (s.store p i xs).len = s.len ∧ (s.store p i xs).alloc = s.alloc ∧
      (s.store p i xs).buf = s.buf ∧ (s.store p i xs).userp = s.userp := by
  unfold Aryb.store
  split <;> exact ⟨rfl, rfl, rfl, rfl⟩

theorem callCb_frame (s : Aryb α) (p : Ptr) (i : Nat) (cb : ElemCb α) :
    (s.callCb p i cb).len = s.len ∧ (s.callCb p i cb).alloc = s.alloc ∧
      (s.callCb p i cb).buf = s.buf ∧ (s.callCb p i cb).userp = s.userp := by
  unfold Aryb.callCb
  split
  · exact store_frame s p i _
  · exact ⟨rfl, rfl, rfl, rfl⟩

theorem move_frame (s : Aryb α) (p : Ptr) (dst src n : Nat) :
    (s.move p dst src n).len = s.len ∧ (s.move p dst src n).alloc = s.alloc ∧
      (s.move p dst src n).buf = s.buf := by
  unfold Aryb.move
  split
  · exact ⟨(store_frame s p dst _).1, (store_frame s p dst _).2.1, (store_frame s p dst _).2.2.1⟩
  · exact ⟨rfl, rfl, rfl⟩

theorem setlenCtor_frame (ctor : ElemCb α) (p : Ptr) (n i : Nat) (w : World α) (s : Aryb α) :
    (setlenCtor ctor p n i w s).2.alloc = s.alloc ∧ (setlenCtor ctor p n i w s).2.buf = s.buf := by
  induction n generalizing i w s with
  | zero => exact ⟨rfl, rfl⟩
  | succ n ih =>
    simp only [setlenCtor]
    rw [(ih _ _ _).1, (ih _ _ _).2]
    exact ⟨(callCb_frame s p i ctor).2.1, (callCb_frame s p i ctor).2.2.1⟩

theorem setlenFill_frame (val : α) (p : Ptr) (n i : Nat) (s : Aryb α) :
    (setlenFill val p n i s).alloc = s.alloc ∧ (setlenFill val p n i s).buf = s.buf := by
  induction n generalizing i s with
  | zero => exact ⟨rfl, rfl⟩
  | succ n ih =>
    simp only [setlenFill]
    rw [(ih _ _).1, (ih _ _).2]
    exact ⟨(store_frame s p i _).2.1, (store_frame s p i _).2.2.1⟩

theorem setlenDtor_frame (dtor : ElemCb α) (p : Ptr) (n i : Nat) (w : World α) (s : Aryb α) :
    (setlenDtor dtor p n i w s).2.alloc = s.alloc ∧ (setlenDtor dtor p n i w s).2.buf = s.buf := by
  induction n generalizing i w s with
  | zero => exact ⟨rfl, rfl⟩
  | succ n ih =>
    simp only [setlenDtor]
    rw [(ih _ _ _).1, (ih _ _ _).2]
    exact ⟨(callCb_frame s p i dtor).2.1, (callCb_frame s p i dtor).2.2.1⟩

theorem size_dec_le (n : Nat) (hn : n ≠ 0) : size_dec n ≤ n - 1 := by
  unfold size_dec SIZE_MOD
  have h : n + (2 ^ 64 - 1) = (n - 1) + 2 ^ 64 := by omega
  rw [h, Nat.add_mod_right]
  exact Nat.mod_le _ _

theorem size_t_le (n : Nat) : size_t n ≤ n := Nat.mod_le _ _

/-- When `ary_grow` has to allocate and the doubled capacity is representable, the
capacity it requests exceeds the old one. -/
theorem growAlloc_gt (s : Aryb α) (extra : Nat) (h : ¬ size_t (s.len + extra) ≤ s.alloc)
    (hdef : 2 * toDouble s.alloc < 2 ^ 64) : s.alloc < Fn.growAlloc s extra := by
  unfold Fn.growAlloc doubleToSize SIZE_MOD
  split
  · omega
  · rename_i hbr
    rw [Nat.mod_eq_of_lt (by omega)]
    rcases Nat.eq_zero_or_pos s.alloc with h0 | hpos
    · exfalso
      apply hbr
      rw [h0, toDouble_zero]
      have := toDouble_pos (size_t (s.len + extra)) (by omega)
      omega
    · have := toDouble_lower s.alloc hpos
      omega

/-- The invariant survives `(ary_grow)`, whether it succeeds or fails, when the
doubled capacity is representable. -/
theorem Fn.ary_grow_inv (w : World α) (s : Aryb α) (extra : Nat) (hinv : s.Inv)
    (hdef : 2 * toDouble s.alloc < 2 ^ 64) : (Fn.ary_grow w s extra).s.Inv := by
  by_cases h : size_t (s.len + extra) ≤ s.alloc
  · rw [Fn.ary_grow_fits w s extra h]
    exact hinv
  · by_cases hn : (ary_xrealloc w s.buf (Fn.growAlloc s extra) s.sz).2.1 = NULL
    · rw [Fn.ary_grow_null w s extra h hn]
      exact hinv
    · rw [Fn.ary_grow_block w s extra h hn]
      have hgt := growAlloc_gt s extra h hdef
      refine ⟨?_, ?_⟩
      · show s.len ≤ Fn.growAlloc s extra
        have := hinv.1
        omega
      · show (ary_xrealloc w s.buf (Fn.growAlloc s extra) s.sz).2.1 = NULL
          ↔ Fn.growAlloc s extra = 0
        exact ⟨fun h1 => absurd h1 hn, fun h1 => by omega⟩

/-- A successful `(ary_grow)` that requests enough capacity leaves room for `extra`
more elements and keeps the invariant. -/
theorem Fn.ary_grow_inv_room (w : World α) (s : Aryb α) (extra : Nat) (hinv : s.Inv)
    (hw : s.len + extra < 2 ^ 64)
    (hA : s.alloc < s.len + extra → s.len + extra ≤ Fn.growAlloc s extra)
    (hret : (Fn.ary_grow w s extra).ret ≠ 0) :
    (Fn.ary_grow w s extra).s.Inv ∧ s.len + extra ≤ (Fn.ary_grow w s extra).s.alloc ∧
      (Fn.ary_grow w s extra).s.len = s.len := by
  have hsz : size_t (s.len + extra) = s.len + extra := by
    unfold size_t SIZE_MOD
    exact Nat.mod_eq_of_lt hw
  by_cases h : size_t (s.len + extra) ≤ s.alloc
  · rw [Fn.ary_grow_fits w s extra h]
    rw [hsz] at h
    exact ⟨hinv, h, rfl⟩
  · by_cases hn : (ary_xrealloc w s.buf (Fn.growAlloc s extra) s.sz).2.1 = NULL
    · rw [Fn.ary_grow_null w s extra h hn] at hret
      simp at hret
    · rw [Fn.ary_grow_block w s extra h hn]
      rw [hsz] at h
      have hroom := hA (by omega)
      refine ⟨⟨?_, ?_⟩, hroom, rfl⟩
      · show s.len ≤ Fn.growAlloc s extra
        omega
      · show (ary_xrealloc w s.buf (Fn.growAlloc s extra) s.sz).2.1 = NULL
          ↔ Fn.growAlloc s extra = 0
        exact ⟨fun h1 => absurd h1 hn, fun h1 => by omega⟩

theorem ary_grow_s (w : World α) (a : Ary α) (extra : Nat) :
    (ary_grow w a extra).a.s = (Fn.ary_grow w a.s extra).s ∧
      ((ary_grow w a extra).ret ≠ 0 ↔ (Fn.ary_grow w a.s extra).ret ≠ 0) := by
  unfold ary_grow
  simp only
  split
  · rename_i h
    exact ⟨rfl, fun _ => h, fun _ => by simp⟩
  · rename_i h
    exact ⟨rfl, fun h1 => absurd rfl h1, fun h1 => absurd h1 h⟩

theorem Fn.ary_shrinktofit_inv (w : World α) (s : Aryb α) (hinv : s.Inv) :
    (Fn.ary_shrinktofit w s).s.Inv := by
  by_cases hsame : s.alloc = s.len
  · rw [Fn.ary_shrinktofit_same w s hsame]
    exact hinv
  · by_cases hl : s.len = 0
    · rw [Fn.ary_shrinktofit_free w s hsame hl]
      exact ⟨le_refl _, by simp [hl]⟩
    · by_cases hn : (ary_xrealloc w s.buf s.len s.sz).2.1 = NULL
      · rw [Fn.ary_shrinktofit_null w s hsame hl hn]
        exact hinv
      · rw [Fn.ary_shrinktofit_block w s hsame hl hn]
        exact ⟨le_refl _, fun h1 => absurd h1 hn, fun h1 => absurd h1 hl⟩

theorem ary_shrinktofit_s (w : World α) (a : Ary α) :
    (ary_shrinktofit w a).a.s = (Fn.ary_shrinktofit w a.s).s := by
  unfold ary_shrinktofit
  simp only
  split <;> rfl

theorem ary_setlen_inv (w : World α) (a : Ary α) (nlen : Nat) (hinv : a.s.Inv) :
    (ary_setlen w a nlen).a.s.Inv := by
  unfold ary_setlen
  by_cases h : a.s.len < nlen
  · rw [if_pos h]
    simp only
    cases a.s.ctor with
    | some ctor =>
      simp only
      refine ⟨?_, ?_⟩
      · show (if a.s.alloc < nlen then a.s.alloc else nlen) ≤ (setlenCtor ctor a.buf _ _ w a.s).2.alloc
        rw [(setlenCtor_frame _ _ _ _ _ _).1]
        split <;> omega
      · show (setlenCtor ctor a.buf _ _ w a.s).2.buf = NULL
          ↔ (setlenCtor ctor a.buf _ _ w a.s).2.alloc = 0
        rw [(setlenCtor_frame _ _ _ _ _ _).1, (setlenCtor_frame _ _ _ _ _ _).2]
        exact hinv.2
    | none =>
      simp only
      refine ⟨?_, ?_⟩
      · show (if a.s.alloc < nlen then a.s.alloc else nlen) ≤ (setlenFill a.val a.buf _ _ a.s).alloc
        rw [(setlenFill_frame _ _ _ _ _).1]
        split <;> omega
      · show (setlenFill a.val a.buf _ _ a.s).buf = NULL
          ↔ (setlenFill a.val a.buf _ _ a.s).alloc = 0
        rw [(setlenFill_frame _ _ _ _ _).1, (setlenFill_frame _ _ _ _ _).2]
        exact hinv.2
  · rw [if_neg h]
    have hle : nlen ≤ a.s.alloc := by
      have := hinv.1
      omega
    cases a.s.dtor with
    | some dtor =>
      simp only
      split
      · refine ⟨?_, ?_⟩
        · show nlen ≤ (setlenDtor dtor a.buf _ _ w a.s).2.alloc
          rw [(setlenDtor_frame _ _ _ _ _ _).1]
          exact hle
        · show (setlenDtor dtor a.buf _ _ w a.s).2.buf = NULL
            ↔ (setlenDtor dtor a.buf _ _ w a.s).2.alloc = 0
          rw [(setlenDtor_frame _ _ _ _ _ _).1, (setlenDtor_frame _ _ _ _ _ _).2]
          exact hinv.2
      · exact ⟨hle, hinv.2⟩
    | none => exact ⟨hle, hinv.2⟩

/-- An array with the same buffer and capacity as one that satisfies the invariant
satisfies it too, as long as its length does not exceed that capacity. -/
theorem inv_of_frame (s t : Aryb α) (hinv : s.Inv) (ha : t.alloc = s.alloc)
    (hb : t.buf = s.buf) (hl : t.len ≤ s.alloc) : t.Inv := by
  unfold Aryb.Inv
  rw [ha, hb]
  exact ⟨hl, hinv.2⟩

theorem pushStore_inv (w : World α) (a : Ary α) (v : α) (hinv : a.s.Inv)
    (hroom : a.s.len + 1 ≤ a.s.alloc) : (pushStore w a v).a.s.Inv := by
  unfold pushStore
  refine inv_of_frame a.s _ hinv ?_ ?_ ?_
  · exact (store_frame a.s a.buf a.s.len [v]).2.1
  · exact (store_frame a.s a.buf a.s.len [v]).2.2.1
  · show size_t (a.s.len + 1) ≤ a.s.alloc
    exact le_trans (size_t_le _) hroom

theorem ary_push_inv (w : World α) (a : Ary α) (v : α) (hinv : a.s.Inv)
    (hdef : a.s.len = a.s.alloc → 2 * toDouble a.s.alloc < 2 ^ 64) :
    (ary_push w a v).a.s.Inv := by
  unfold ary_push
  by_cases hfull : a.s.len = a.s.alloc
  · rw [if_pos hfull]
    simp only
    have hs := ary_grow_s w a 1
    have hroom := growAlloc_room_one a.s hfull (hdef hfull)
    by_cases hret : (ary_grow w a 1).ret ≠ 0
    · rw [if_pos hret]
      have hr := Fn.ary_grow_inv_room w a.s 1 hinv hroom.1 (fun _ => hroom.2.1)
        (hs.2.mp hret)
      apply pushStore_inv
      · rw [hs.1]
        exact hr.1
      · rw [hs.1, hr.2.2]
        exact hr.2.1
    · rw [if_neg hret]
      show (ary_grow w a 1).a.s.Inv
      rw [hs.1]
      exact Fn.ary_grow_inv w a.s 1 hinv (hdef hfull)
  · rw [if_neg hfull]
    apply pushStore_inv w a v hinv
    have := hinv.1
    omega

theorem ary_pushp_inv (w : World α) (a : Ary α) (hinv : a.s.Inv)
    (hdef : a.s.len = a.s.alloc → 2 * toDouble a.s.alloc < 2 ^ 64) :
    (ary_pushp w a).a.s.Inv := by
  unfold ary_pushp
  by_cases hfull : a.s.len = a.s.alloc
  · rw [if_pos hfull]
    simp only
    have hs := ary_grow_s w a 1
    have hroom := growAlloc_room_one a.s hfull (hdef hfull)
    by_cases hret : (ary_grow w a 1).ret ≠ 0
    · rw [if_pos hret]
      have hr := Fn.ary_grow_inv_room w a.s 1 hinv hroom.1 (fun _ => hroom.2.1)
        (hs.2.mp hret)
      rw [← hs.1] at hr
      refine inv_of_frame (ary_grow w a 1).a.s _ hr.1 rfl rfl ?_
      show size_t ((ary_grow w a 1).a.s.len + 1) ≤ (ary_grow w a 1).a.s.alloc
      rw [hr.2.2]
      exact le_trans (size_t_le _) hr.2.1
    · rw [if_neg hret]
      show (ary_grow w a 1).a.s.Inv
      rw [hs.1]
      exact Fn.ary_grow_inv w a.s 1 hinv (hdef hfull)
  · rw [if_neg hfull]
    refine inv_of_frame a.s _ hinv rfl rfl ?_
    show size_t (a.s.len + 1) ≤ a.s.alloc
    have := hinv.1
    have := size_t_le (a.s.len + 1)
    omega

theorem store_inv (s : Aryb α) (p : Ptr) (i : Nat) (xs : List α) (hinv : s.Inv) :
    (s.store p i xs).Inv := by
  refine inv_of_frame s _ hinv (store_frame s p i xs).2.1 (store_frame s p i xs).2.2.1 ?_
  rw [(store_frame s p i xs).1]
  exact hinv.1

theorem ary_pop_inv (w : World α) (a : Ary α) (ret : Bool) (hinv : a.s.Inv) :
    (ary_pop w a ret).a.s.Inv := by
  unfold ary_pop
  by_cases h0 : a.s.len ≠ 0
  · rw [if_pos h0]
    have hle : size_dec a.s.len ≤ a.s.alloc :=
      le_trans (size_dec_le a.s.len h0) (le_trans (Nat.sub_le _ _) hinv.1)
    generalize size_dec a.s.len = n at hle ⊢
    generalize size_dec a.len = m
    cases ret with
    | true =>
      simp only [if_true]
      exact ⟨hle, hinv.2⟩
    | false =>
      simp only [Bool.false_eq_true, if_false]
      cases a.s.dtor with
      | none =>
        simp only
        exact ⟨hle, hinv.2⟩
      | some dtor =>
        simp only
        cases a.s.load a.buf n with
        | none =>
          simp only
          exact ⟨hle, hinv.2⟩
        | some v =>
          simp only
          refine ⟨?_, ?_⟩
          · show n ≤ (a.s.store a.buf n [dtor v a.s.userp]).alloc
            rw [(store_frame a.s _ _ _).2.1]
            exact hle
          · show (a.s.store a.buf n [dtor v a.s.userp]).buf = NULL ↔
              (a.s.store a.buf n [dtor v a.s.userp]).alloc = 0
            rw [(store_frame a.s _ _ _).2.1, (store_frame a.s _ _ _).2.2.1]
            exact hinv.2
  · rw [if_neg h0]
    exact hinv

theorem ary_shift_inv (w : World α) (a : Ary α) (ret : Bool) (hinv : a.s.Inv) :
    (ary_shift w a ret).a.s.Inv := by
  unfold ary_shift
  by_cases h0 : a.s.len ≠ 0
  · rw [if_pos h0]
    have hle : size_dec a.s.len ≤ a.s.alloc :=
      le_trans (size_dec_le a.s.len h0) (le_trans (Nat.sub_le _ _) hinv.1)
    generalize size_dec a.s.len = n at hle ⊢
    generalize size_dec a.len = m
    have hmove : ∀ t : Aryb α, t.alloc = a.s.alloc → t.buf = a.s.buf →
        ({ t.move a.buf 0 1 n with len := n } : Aryb α).Inv := by
      intro t ha hb
      refine ⟨?_, ?_⟩
      · show n ≤ (t.move a.buf 0 1 n).alloc
        rw [(move_frame t _ _ _ _).2.1, ha]
        exact hle
      · show (t.move a.buf 0 1 n).buf = NULL ↔ (t.move a.buf 0 1 n).alloc = 0
        rw [(move_frame t _ _ _ _).2.1, (move_frame t _ _ _ _).2.2, ha, hb]
        exact hinv.2
    cases ret with
    | true =>
      simp only [if_true]
      exact hmove a.s rfl rfl
    | false =>
      simp only [Bool.false_eq_true, if_false]
      cases a.s.dtor with
      | none =>
        simp only
        exact hmove a.s rfl rfl
      | some dtor =>
        simp only
        cases a.s.load a.buf 0 with
        | none =>
          simp only
          exact hmove a.s rfl rfl
        | some v =>
          simp only
          exact hmove _ (store_frame a.s _ _ _).2.1 (store_frame a.s _ _ _).2.2.1
  · rw [if_neg h0]
    exact hinv

theorem ary_snatch_inv (mix : Nat → α → α → α) (w : World α) (a : Ary α) (pos : Nat)
    (ret : Bool) (hinv : a.s.Inv) : (ary_snatch mix w a pos ret).a.s.Inv := by
  unfold ary_snatch
  by_cases h0 : a.s.len ≠ 0
  · rw [if_pos h0]
    have hle : size_dec a.s.len ≤ a.s.alloc :=
      le_trans (size_dec_le a.s.len h0) (le_trans (Nat.sub_le _ _) hinv.1)
    generalize size_dec a.s.len = n at hle ⊢
    generalize size_dec a.len = m
    simp only
    cases a.s.slot a.buf (if pos < a.s.len then pos else n) with
    | none =>
      simp only
      exact ⟨hle, hinv.2⟩
    | some j =>
      simp only
      exact ⟨hle, hinv.2⟩
  · rw [if_neg h0]
    exact hinv

/-- The growth step of `(ary_splicep)`, when it does not fail, keeps the invariant and
leaves room for the elements to be added. -/
theorem spliceGrow_inv (w : World α) (s : Aryb α) (pos rlen alen : Nat) (hinv : s.Inv)
    (hb : alen > min rlen (s.len - min pos s.len) → s.len + alen < 2 ^ 53)
    (hok : ¬ (alen > min rlen (s.len - min pos s.len) ∧
      (Fn.spliceGrow w s pos rlen alen).ret = 0)) :
    (Fn.spliceGrow w s pos rlen alen).s.Inv ∧
      (Fn.spliceGrow w s pos rlen alen).s.len = s.len ∧
      s.len - min rlen (s.len - min pos s.len) + alen ≤
        (Fn.spliceGrow w s pos rlen alen).s.alloc := by
  by_cases hgt : alen > min rlen (s.len - min pos s.len)
  · have hret : (Fn.spliceGrow w s pos rlen alen).ret ≠ 0 := fun h => hok ⟨hgt, h⟩
    unfold Fn.spliceGrow at hret ⊢
    rw [if_pos hgt] at hret ⊢
    have hb1 := hb hgt
    have hb2 : s.len + (alen - min rlen (s.len - min pos s.len)) < 2 ^ 53 := by omega
    have hr := Fn.ary_grow_inv_room w s _ hinv (lt_trans hb2 (by norm_num))
      (fun hg => (growAlloc_room_small s _ hb2 hg).1) hret
    refine ⟨hr.1, hr.2.2, ?_⟩
    have := hr.2.1
    omega
  · unfold Fn.spliceGrow
    rw [if_neg hgt]
    refine ⟨hinv, rfl, ?_⟩
    show s.len - min rlen (s.len - min pos s.len) + alen ≤ s.alloc
    have := hinv.1
    omega

theorem Fn.ary_splicep_keeps_inv (w : World α) (s : Aryb α) (pos rlen alen : Nat) (hinv : s.Inv)
    (hb : alen > min rlen (s.len - min pos s.len) → s.len + alen < 2 ^ 53) :
    (Fn.ary_splicep w s pos rlen alen).s.Inv := by
  by_cases hok : alen > min rlen (s.len - min pos s.len) ∧
      (Fn.spliceGrow w s pos rlen alen).ret = 0
  · have h0 := hok.2
    unfold Fn.spliceGrow at h0
    rw [if_pos hok.1] at h0
    rw [Fn.ary_splicep_fail w s pos rlen alen hok.1 h0]
    exact hinv
  · rw [Fn.ary_splicep_success w s pos rlen alen hok]
    obtain ⟨hi, hl, hroom⟩ := spliceGrow_inv w s pos rlen alen hinv hb hok
    refine inv_of_frame _ _ hi rfl rfl ?_
    show size_t ((Fn.spliceGrow w s pos rlen alen).s.len - min rlen (s.len - min pos s.len)
      + alen) ≤ (Fn.spliceGrow w s pos rlen alen).s.alloc
    rw [hl]
    exact le_trans (size_t_le _) hroom

theorem ary_splicep_s (w : World α) (a : Ary α) (pos rlen alen : Nat) :
    (ary_splicep w a pos rlen alen).a.s = (Fn.ary_splicep w a.s pos rlen alen).s := by
  unfold ary_splicep
  simp only
  split <;> rfl

theorem ary_splicep_inv (w : World α) (a : Ary α) (pos rlen alen : Nat) (hinv : a.s.Inv)
    (hb : alen > min rlen (a.s.len - min pos a.s.len) → a.s.len + alen < 2 ^ 53) :
    (ary_splicep w a pos rlen alen).a.s.Inv := by
  rw [ary_splicep_s]
  exact Fn.ary_splicep_keeps_inv w a.s pos rlen alen hinv hb

theorem ary_insert_inv (w : World α) (a : Ary α) (pos : Nat) (v : α) (hinv : a.s.Inv)
    (hb : a.s.len + 1 < 2 ^ 53) : (ary_insert w a pos v).a.s.Inv := by
  have hi := ary_splicep_inv w a pos 0 1 hinv (fun _ => hb)
  unfold ary_insert
  simp only
  split
  · exact store_inv _ _ _ _ hi
  · exact hi

theorem ary_unshift_inv (w : World α) (a : Ary α) (v : α) (hinv : a.s.Inv)
    (hb : a.s.len + 1 < 2 ^ 53) : (ary_unshift w a v).a.s.Inv := by
  have hi := ary_splicep_inv w a 0 0 1 hinv (fun _ => hb)
  unfold ary_unshift ary_unshiftp
  simp only
  split
  · exact store_inv _ _ _ _ hi
  · exact hi

theorem ary_remove_inv (w : World α) (a : Ary α) (pos : Nat) (hinv : a.s.Inv) :
    (ary_remove w a pos).a.s.Inv := by
  unfold ary_remove
  exact ary_splicep_inv w a pos 1 0 hinv (fun h => absurd h (Nat.not_lt_zero _))

theorem zeroAryb_inv (sizeof : Nat) : (zeroAryb sizeof : Aryb α).Inv :=
  ⟨le_refl _, fun _ => rfl, fun _ => rfl⟩

theorem ary_init_inv (sizeof : Nat) (w : World α) (a : Ary α) (hint : Nat) :
    (ary_init sizeof w a hint).a.s.Inv := by
  unfold ary_init
  rw [(ary_grow_s w _ hint).1]
  apply Fn.ary_grow_inv
  · exact zeroAryb_inv sizeof
  · show 2 * toDouble 0 < 2 ^ 64
    rw [toDouble_zero]
    norm_num

theorem ary_release_inv (sizeof : Nat) (w : World α) (a : Ary α) :
    (ary_release sizeof w a).a.s.Inv := by
  unfold ary_release
  exact ary_init_inv sizeof _ a 0

theorem ary_detach_inv (w : World α) (a : Ary α) (size : Bool) :
    (ary_detach w a size).a.s.Inv :=
  ⟨le_refl _, fun _ => rfl, fun _ => rfl⟩

/-! ## Facts about `swapSlots` and the loop of `ary_reverse` -/

theorem length_swapSlots (cells : List α) (i j : Nat) :
    (swapSlots cells i j).length = cells.length := by
  unfold swapSlots
  split
  · simp
  · rfl

theorem getElem?_swapSlots (cells : List α) (i j k : Nat) (hi : i < cells.length)
    (hj : j < cells.length) :
    (swapSlots cells i j)[k]?
      = if k = j then cells[i]? else if k = i then cells[j]? else cells[k]? := by
  unfold swapSlots
  rw [List.getElem?_eq_getElem hi, List.getElem?_eq_getElem hj]
  simp only
  rw [List.getElem?_set, List.getElem?_set]
  by_cases h1 : k = j
  · subst h1
    simp [hj]
  · rw [if_neg (fun h => h1 h.symm), if_neg h1]
    by_cases h2 : k = i
    · subst h2
      simp [hi]
    · rw [if_neg (fun h => h2 h.symm), if_neg h2]

theorem swapSlots_cons (a : α) (cells : List α) (i j : Nat) :
    swapSlots (a :: cells) (i + 1) (j + 1) = a :: swapSlots cells i j := by
  unfold swapSlots
  simp only [List.getElem?_cons_succ]
  cases cells[i]? with
  | none => rfl
  | some x =>
    cases cells[j]? with
    | none => rfl
    | some y => simp

theorem set_append_length (m : List α) (y x : α) (post : List α) :
    (m ++ y :: post).set m.length x = m ++ x :: post := by
  induction m with
  | nil => rfl
  | cons a m ih => simp [ih]

theorem getElem?_append_length (m : List α) (y : α) (post : List α) :
    (m ++ y :: post)[m.length]? = some y := by
  induction m with
  | nil => simp
  | cons a m ih =>
    simp only [List.cons_append, List.length_cons, List.getElem?_cons_succ]
    exact ih

theorem swapSlots_ends (x y : α) (m post : List α) :
    swapSlots (x :: (m ++ y :: post)) 0 (m.length + 1) = y :: (m ++ x :: post) := by
  unfold swapSlots
  have h1 : (x :: (m ++ y :: post))[0]? = some x := List.getElem?_cons_zero
  have h2 : (x :: (m ++ y :: post))[m.length + 1]? = some y := by
    rw [List.getElem?_cons_succ]
    exact getElem?_append_length m y post
  rw [h1, h2]
  simp only [List.set_cons_zero, List.set_cons_succ]
  rw [set_append_length]

theorem swapSlots_append (pre : List α) (x y : α) (m post : List α) :
    swapSlots (pre ++ x :: (m ++ y :: post)) pre.length (pre.length + m.length + 1)
      = pre ++ y :: (m ++ x :: post) := by
  induction pre with
  | nil =>
    simp only [List.nil_append, List.length_nil, Nat.zero_add]
    exact swapSlots_ends x y m post
  | cons a pre ih =>
    have h : (a :: pre).length + m.length + 1 = (pre.length + m.length + 1) + 1 := by
      simp only [List.length_cons]
      omega
    rw [h]
    simp only [List.length_cons, List.cons_append]
    rw [swapSlots_cons, ih]

/-- The loop of `ary_reverse` reverses the run between its two pointers. -/
theorem reverseLoop_spec (n : Nat) (pre mid post : List α) (hn : mid.length / 2 = n) :
    reverseLoop n pre.length (pre.length + mid.length - 1) (pre ++ mid ++ post)
      = pre ++ mid.reverse ++ post := by
  induction n generalizing pre mid post with
  | zero =>
    have hm : mid.reverse = mid := by
      match mid, hn with
      | [], _ => rfl
      | [_], _ => rfl
      | _ :: _ :: t, h =>
        simp only [List.length_cons] at h
        omega
    rw [hm]
    rfl
  | succ n ih =>
    match mid, hn with
    | [], h =>
      simp only [List.length_nil] at h
      omega
    | [_], h =>
      simp only [List.length_cons, List.length_nil] at h
      omega
    | x :: z :: t, h =>
      obtain ⟨m, y, hzy⟩ : ∃ m y, z :: t = m ++ [y] :=
        ⟨(z :: t).dropLast, (z :: t).getLast (by simp), (List.dropLast_append_getLast _).symm⟩
      rw [hzy] at h ⊢
      have hlen : (x :: (m ++ [y])).length = m.length + 2 := by simp
      rw [hlen] at h
      have hq : pre.length + (x :: (m ++ [y])).length - 1 = pre.length + m.length + 1 := by
        rw [hlen]
        omega
      rw [hq]
      unfold reverseLoop
      have hcells : pre ++ x :: (m ++ [y]) ++ post = pre ++ x :: (m ++ y :: post) := by simp
      rw [hcells, swapSlots_append]
      have h1 : pre.length + 1 = (pre ++ [y]).length := by simp
      have h2 : pre.length + m.length + 1 - 1 = (pre ++ [y]).length + m.length - 1 := by
        simp only [List.length_append, List.length_singleton]
        omega
      have h3 : pre ++ y :: (m ++ x :: post) = (pre ++ [y]) ++ m ++ (x :: post) := by simp
      rw [h1, h2, h3, ih (pre ++ [y]) m (x :: post) (by omega)]
      simp

/-! ## Facts about `ary_reverse` and `ary_swap` -/

theorem size_dec_eq (n : Nat) (h0 : n ≠ 0) (hn : n < SIZE_MOD) : size_dec n = n - 1 := by
  unfold size_dec
  unfold SIZE_MOD at hn ⊢
  have h : n + (2 ^ 64 - 1) = (n - 1) + 2 ^ 64 := by omega
  rw [h, Nat.add_mod_right]
  exact Nat.mod_eq_of_lt (by omega)

theorem swap_clamp (i len : Nat) (h0 : len ≠ 0) (hn : len < SIZE_MOD) :
    (if i ≥ len then size_dec len else i) = min i (len - 1) := by
  rw [size_dec_eq len h0 hn]
  split <;> omega

/-- The block after the loop of `ary_reverse`. -/
theorem reverseLoop_cells (cells : List α) (len : Nat) (hlen : len ≤ cells.length)
    (hn : len < SIZE_MOD) :
    reverseLoop (len / 2) 0 (size_dec len) cells
      = (cells.take len).reverse ++ cells.drop len := by
  by_cases h0 : len = 0
  · subst h0
    simp [reverseLoop]
  · rw [size_dec_eq len h0 hn]
    have h := reverseLoop_spec (len / 2) [] (cells.take len) (cells.drop len)
      (by rw [List.length_take, Nat.min_eq_left hlen])
    simp only [List.length_nil, List.nil_append, List.take_append_drop, Nat.zero_add,
      List.length_take, Nat.min_eq_left hlen] at h
    exact h

theorem Fn.ary_reverse_null (w : World α) (s : Aryb α)
    (hn : (ary_xrealloc w NULL 1 s.sz).2.1 = NULL) :
    Fn.ary_reverse w s = ⟨(ary_xrealloc w NULL 1 s.sz).1, s, 0⟩ := by
  unfold Fn.ary_reverse
  simp only
  rw [if_pos hn]

theorem Fn.ary_reverse_block (w : World α) (s : Aryb α)
    (hn : (ary_xrealloc w NULL 1 s.sz).2.1 ≠ NULL) (hlen : s.len ≤ s.cells.length)
    (h64 : s.len < SIZE_MOD) :
    Fn.ary_reverse w s =
      ⟨ary_xfree (ary_xrealloc w NULL 1 s.sz).1 (ary_xrealloc w NULL 1 s.sz).2.1,
       { s with cells := (s.cells.take s.len).reverse ++ s.cells.drop s.len }, 1⟩ := by
  unfold Fn.ary_reverse
  simp only
  rw [if_neg hn, reverseLoop_cells s.cells s.len hlen h64]

theorem Fn.ary_swap_same (w : World α) (s : Aryb α) (i j : Nat) (h0 : s.len ≠ 0)
    (h64 : s.len < SIZE_MOD) (h : min i (s.len - 1) = min j (s.len - 1)) :
    Fn.ary_swap w s i j = ⟨w, s, 1⟩ := by
  unfold Fn.ary_swap
  simp only [swap_clamp _ _ h0 h64]
  rw [if_pos h]

theorem Fn.ary_swap_null (w : World α) (s : Aryb α) (i j : Nat) (h0 : s.len ≠ 0)
    (h64 : s.len < SIZE_MOD) (h : min i (s.len - 1) ≠ min j (s.len - 1))
    (hn : (ary_xrealloc w NULL 1 s.sz).2.1 = NULL) :
    Fn.ary_swap w s i j = ⟨(ary_xrealloc w NULL 1 s.sz).1, s, 0⟩ := by
  unfold Fn.ary_swap
  simp only [swap_clamp _ _ h0 h64]
  rw [if_neg h, if_pos hn]

theorem Fn.ary_swap_block (w : World α) (s : Aryb α) (i j : Nat) (h0 : s.len ≠ 0)
    (h64 : s.len < SIZE_MOD) (h : min i (s.len - 1) ≠ min j (s.len - 1))
    (hn : (ary_xrealloc w NULL 1 s.sz).2.1 ≠ NULL) :
    Fn.ary_swap w s i j =
      ⟨ary_xfree (ary_xrealloc w NULL 1 s.sz).1 (ary_xrealloc w NULL 1 s.sz).2.1,
       { s with cells := swapSlots s.cells (min i (s.len - 1)) (min j (s.len - 1)) }, 1⟩ := by
  unfold Fn.ary_swap
  simp only [swap_clamp _ _ h0 h64]
  rw [if_neg h, if_neg hn]

/-- A successful `ary_reverse` of a well-formed array. -/
theorem ary_reverse_ok (w : World α) (a : Ary α) (hwf : a.WF)
    (hret : (ary_reverse w a).ret = 1) :
    (ary_reverse w a).a =
      { a with
        s := { a.s with cells := (a.s.cells.take a.s.len).reverse ++ a.s.cells.drop a.s.len } } ∧
      (w.xrealloc w.calls NULL 1 a.s.sz).1 ≠ 0 := by
  obtain ⟨h1, h2, h3, h4, h5, h6⟩ := hwf
  by_cases hn : (ary_xrealloc w NULL 1 a.s.sz).2.1 = NULL
  · unfold ary_reverse at hret
    rw [Fn.ary_reverse_null w a.s hn] at hret
    simp at hret
  · refine ⟨?_, fun h => hn ((xrealloc_null_iff w NULL 1 a.s.sz).mpr h)⟩
    unfold ary_reverse
    rw [Fn.ary_reverse_block w a.s hn (by omega) (by omega)]

/-- A failed `ary_reverse`. -/
theorem ary_reverse_fail (w : World α) (a : Ary α) (hwf : a.WF)
    (hret : (ary_reverse w a).ret ≠ 1) :
    (ary_reverse w a).ret = 0 ∧ (ary_reverse w a).a = a ∧
      (w.xrealloc w.calls NULL 1 a.s.sz).1 = 0 := by
  obtain ⟨h1, h2, h3, h4, h5, h6⟩ := hwf
  by_cases hn : (ary_xrealloc w NULL 1 a.s.sz).2.1 = NULL
  · refine ⟨?_, ?_, (xrealloc_null_iff w NULL 1 a.s.sz).mp hn⟩
    · unfold ary_reverse
      rw [Fn.ary_reverse_null w a.s hn]
    · unfold ary_reverse
      rw [Fn.ary_reverse_null w a.s hn]
  · exfalso
    apply hret
    unfold ary_reverse
    rw [Fn.ary_reverse_block w a.s hn (by omega) (by omega)]

theorem reversed_wf (a : Ary α) (hwf : a.WF) :
    ({ a with
        s := { a.s with cells := (a.s.cells.take a.s.len).reverse ++ a.s.cells.drop a.s.len } }
      : Ary α).WF := by
  obtain ⟨h1, h2, h3, h4, h5, h6⟩ := hwf
  refine ⟨h1, h2, h3, ?_, h5, h6⟩
  show ((a.s.cells.take a.s.len).reverse ++ a.s.cells.drop a.s.len).length = a.s.alloc
  rw [List.length_append, List.length_reverse, List.length_take, List.length_drop]
  omega

theorem reversed_elems (a : Ary α) (hwf : a.WF) :
    ({ a with
        s := { a.s with cells := (a.s.cells.take a.s.len).reverse ++ a.s.cells.drop a.s.len } }
      : Ary α).elems = a.elems.reverse := by
  obtain ⟨h1, h2, h3, h4, h5, h6⟩ := hwf
  show ((a.s.cells.take a.s.len).reverse ++ a.s.cells.drop a.s.len).take a.s.len
    = (a.s.cells.take a.s.len).reverse
  rw [List.take_append_of_le_length (by rw [List.length_reverse, List.length_take]; omega)]
  apply List.take_of_length_le
  rw [List.length_reverse, List.length_take]
  omega

theorem reversed_twice (a : Ary α) (hwf : a.WF) :
    ((((a.s.cells.take a.s.len).reverse ++ a.s.cells.drop a.s.len).take a.s.len).reverse
        ++ ((a.s.cells.take a.s.len).reverse ++ a.s.cells.drop a.s.len).drop a.s.len)
      = a.s.cells := by
  obtain ⟨h1, h2, h3, h4, h5, h6⟩ := hwf
  have hl : ((a.s.cells.take a.s.len).reverse).length = a.s.len := by
    rw [List.length_reverse, List.length_take]
    omega
  rw [List.take_append_of_le_length (by omega), List.take_of_length_le (by omega),
    List.reverse_reverse, List.drop_append_of_le_length (by omega),
    List.drop_of_length_le (by omega), List.nil_append, List.take_append_drop]

/-! ## Facts about the loop of `ary_join` -/

theorem ary_init_len (sizeof : Nat) (w : World α) (a : Ary α) (hint : Nat) :
    (ary_init sizeof w a hint).a.len = 0 := by
  unfold ary_init ary_grow
  simp only
  split <;> rfl

theorem joinSep_nil (w : World Nat) (strbuf : Ary Nat) : joinSep [] w strbuf = ⟨true, w, strbuf⟩ := by
  unfold joinSep
  rw [if_neg (by simp)]

/-- An element for which the stringify callback returns a negative value adds nothing
but its separator. -/
theorem joinLoop_skip (deref : α → Option (List Nat)) (f : StrCb α) (sep : List Nat) (e : α)
    (es : List α) (w : World Nat) (strbuf : Ary Nat) (h : (f e).1 < 0) :
    joinLoop deref (some f) sep (e :: es) w strbuf =
      if (joinSep sep w strbuf).ok then
        joinLoop deref (some f) sep es (joinSep sep w strbuf).w (joinSep sep w strbuf).strbuf
      else joinSep sep w strbuf := by
  have h1 : ¬ (f e).1 > 0 := by omega
  have h2 : ¬ (f e).1 = 0 := by omega
  rw [joinLoop]
  simp only
  rw [if_neg h1, if_neg h2]

theorem joinLoop_all_fail (deref : α → Option (List Nat)) (f : StrCb α) (es : List α)
    (w : World Nat) (strbuf : Ary Nat) (h : ∀ e ∈ es, (f e).1 < 0) :
    joinLoop deref (some f) [] es w strbuf = ⟨true, w, strbuf⟩ := by
  induction es with
  | nil => rfl
  | cons e es ih =>
    rw [joinLoop_skip deref f [] e es w strbuf (h e (List.mem_cons_self e es)), joinSep_nil]
    simp only [if_true]
    exact ih (fun x hx => h x (List.mem_cons_of_mem e hx))

theorem joinFrom_all_fail (strdup : Ptr) (deref : α → Option (List Nat)) (s : Aryb α)
    (f : StrCb α) (i : Res Nat Int) (hfail : ∀ e ∈ s.cells.take s.len, (f e).1 < 0)
    (hinit : i.ret ≠ 0) (hlen : i.a.len = 0) :
    joinFrom strdup deref s [] (some f) i =
      if strdup = NULL then joinError i.w i.a else ⟨i.w, 0, strdup, [0]⟩ := by
  unfold joinFrom
  rw [if_neg hinit, joinLoop_all_fail deref f _ _ _ hfail]
  show (if (⟨true, i.w, i.a⟩ : JoinLoop).ok = true then
      (if i.a.len = 0 then
        (if strdup = NULL then joinError i.w i.a else (⟨i.w, 0, strdup, [0]⟩ : Joined))
      else _)
    else _) = _
  rw [if_pos rfl, if_pos hlen]

theorem Fn.ary_join_all_fail (strdup : Ptr) (deref : α → Option (List Nat)) (strbuf : Ary Nat)
    (w : World Nat) (s : Aryb α) (sep : Option (List Nat)) (f : StrCb α)
    (hfail : ∀ e ∈ s.cells.take s.len, (f e).1 < 0) (hsep : sep.getD [] = [])
    (hinit : (ary_init 1 w strbuf 1024).ret ≠ 0) :
    Fn.ary_join strdup deref strbuf w s sep (some f) =
      if strdup = NULL then
        joinError (ary_init 1 w strbuf 1024).w (ary_init 1 w strbuf 1024).a
      else ⟨(ary_init 1 w strbuf 1024).w, 0, strdup, [0]⟩ := by
  unfold Fn.ary_join
  rw [hsep]
  exact joinFrom_all_fail strdup deref s f _ hfail hinit (ary_init_len 1 w strbuf 1024)

/-! ## Facts about `ma_grow` and the search loop of `ma_insertsorted` -/

theorem ma_xrealloc_null_iff (w : World α) (p : Ptr) (n sz : Nat) :
    (ma_xrealloc w p n sz).2.1 = NULL ↔ (w.xrealloc w.calls p n sz).1 = 0 := by
  constructor
  · intro h
    have := congrArg Ptr.base h
    simpa [ma_xrealloc, NULL] using this
  · intro h
    simp [ma_xrealloc, NULL, h]

theorem Fn.ma_grow_fits (w : World α) (s : Mutarrb α) (extra : Nat)
    (h : size_t (s.len + extra) ≤ s.alloc) : Fn.ma_grow w s extra = ⟨w, s, 1⟩ := by
  unfold Fn.ma_grow
  rw [if_pos h]

theorem Fn.ma_grow_null (w : World α) (s : Mutarrb α) (extra : Nat)
    (h : ¬ size_t (s.len + extra) ≤ s.alloc)
    (hn : (ma_xrealloc w s.buf (Fn.maGrowAlloc s extra) s.sz).2.1 = NULL) :
    Fn.ma_grow w s extra =
      ⟨(ma_xrealloc w s.buf (Fn.maGrowAlloc s extra) s.sz).1, s, 0⟩ := by
  unfold Fn.ma_grow
  rw [if_neg h]
  simp only
  rw [if_pos hn]

theorem Fn.ma_grow_block (w : World α) (s : Mutarrb α) (extra : Nat)
    (h : ¬ size_t (s.len + extra) ≤ s.alloc)
    (hn : (ma_xrealloc w s.buf (Fn.maGrowAlloc s extra) s.sz).2.1 ≠ NULL) :
    Fn.ma_grow w s extra =
      ⟨(ma_xrealloc w s.buf (Fn.maGrowAlloc s extra) s.sz).1,
       { s with
         alloc := Fn.maGrowAlloc s extra
         buf := (ma_xrealloc w s.buf (Fn.maGrowAlloc s extra) s.sz).2.1
         cells := resize s.cells (Fn.maGrowAlloc s extra)
           (ma_xrealloc w s.buf (Fn.maGrowAlloc s extra) s.sz).2.2 }, 1⟩ := by
  unfold Fn.ma_grow
  rw [if_neg h]
  simp only
  rw [if_neg hn]

/-- The capacity `ma_grow` requests for one more element of a full mutarr of fewer than
`2 ^ 51` elements is enough and a `size_t`. -/
theorem maGrowAlloc_room_one (s : Mutarrb α) (hfull : s.len = s.alloc) (hb : s.len < 2 ^ 51) :
    s.len + 1 ≤ Fn.maGrowAlloc s 1 ∧ Fn.maGrowAlloc s 1 < 2 ^ 64 := by
  have e1 : toDouble s.alloc = s.alloc := toDouble_exact _ (by omega)
  have e2 : toDouble (3 * s.alloc) = 3 * s.alloc := toDouble_exact _ (by omega)
  have e3 : size_t (s.len + 1) = s.len + 1 := by
    unfold size_t SIZE_MOD
    exact Nat.mod_eq_of_lt (by omega)
  have e4 : toDouble (s.len + 1) = s.len + 1 := toDouble_exact _ (by omega)
  unfold Fn.maGrowAlloc
  rw [e1, e2, e3, e4]
  unfold doubleToSize SIZE_MOD
  split
  · omega
  · rw [Nat.mod_eq_of_lt (by omega)]
    omega

/-- The search loop of `ma_insertsorted` on a sorted run ends at the upper bound of
`data`: the elements before it are not greater than `data`, those from it on are. -/
theorem insertSortedLoop_spec (c : CmpCb α) (v : α) (cells : List α) (len : Nat)
    (hlen : len ≤ cells.length) (h64 : 2 * len < SIZE_MOD)
    (htrans : ∀ x y z, c x y ≤ 0 → c y z ≤ 0 → c x z ≤ 0)
    (hsorted : ∀ i j ei ej, i < j → j < len → cells[i]? = some ei → cells[j]? = some ej →
      c ei ej ≤ 0) :
    ∀ fuel l h, l ≤ h → h ≤ len → h - l ≤ fuel →
      (∀ i e, i < l → cells[i]? = some e → c e v ≤ 0) →
      (∀ i e, h ≤ i → i < len → cells[i]? = some e → c e v > 0) →
      l ≤ insertSortedLoop c v cells fuel l h ∧ insertSortedLoop c v cells fuel l h ≤ h ∧
      (∀ i e, i < insertSortedLoop c v cells fuel l h → cells[i]? = some e → c e v ≤ 0) ∧
      (∀ i e, insertSortedLoop c v cells fuel l h ≤ i → i < len → cells[i]? = some e →
        c e v > 0) := by
  intro fuel
  induction fuel with
  | zero =>
    intro l h hlh hh hf hlo hhi
    have : l = h := by omega
    subst this
    exact ⟨le_refl _, le_refl _, hlo, hhi⟩
  | succ fuel ih =>
    intro l h hlh hh hf hlo hhi
    by_cases hlt : l < h
    · have hm : size_t (l + h) / 2 = (l + h) / 2 := by
        unfold size_t
        rw [Nat.mod_eq_of_lt (by omega)]
      have hml : l ≤ (l + h) / 2 := by omega
      have hmh : (l + h) / 2 < h := by omega
      have hmlen : (l + h) / 2 < cells.length := by omega
      have hget : cells[(l + h) / 2]? = some cells[(l + h) / 2] :=
        List.getElem?_eq_getElem hmlen
      rw [insertSortedLoop, if_pos hlt, hm, hget]
      simp only
      by_cases hc : c cells[(l + h) / 2] v > 0
      · rw [if_pos hc]
        have hr := ih l ((l + h) / 2) hml (by omega) (by omega) hlo
          (fun i e hi1 hi2 hie => by
            by_cases hi : i = (l + h) / 2
            · subst hi
              rw [hget] at hie
              cases hie
              exact hc
            · by_contra hcon
              have h1 := hsorted ((l + h) / 2) i _ e (by omega) hi2 hget hie
              have h2 := htrans cells[(l + h) / 2] e v h1 (by omega)
              omega)
        exact ⟨hr.1, by omega, hr.2.2.1, hr.2.2.2⟩
      · rw [if_neg hc]
        have hr := ih ((l + h) / 2 + 1) h (by omega) hh (by omega)
          (fun i e hi1 hie => by
            by_cases hi : i = (l + h) / 2
            · subst hi
              rw [hget] at hie
              cases hie
              omega
            · have h1 := hsorted i ((l + h) / 2) e _ (by omega) (by omega) hie hget
              exact htrans e cells[(l + h) / 2] v h1 (by omega))
          hhi
        exact ⟨by omega, hr.2.1, hr.2.2.1, hr.2.2.2⟩
    · have : l = h := by omega
      subst this
      rw [insertSortedLoop, if_neg hlt]
      exact ⟨le_refl _, le_refl _, hlo, hhi⟩

theorem memmove_zero (cells : List α) (d s : Nat) : memmove cells d s 0 = cells := by
  unfold memmove blockRead blockWrite
  simp

/-! ## Facts about `ma_insertsorted` -/

theorem Fn.ma_insertsorted_fail (w : World α) (s : Mutarrb α) (v : α) (c : CmpCb α)
    (hc : s.cmp = some c) (h : s.len = s.alloc ∧ (Fn.insertGrow w s).ret = 0) :
    Fn.ma_insertsorted w s v = ⟨(Fn.insertGrow w s).w, (Fn.insertGrow w s).s, 0⟩ := by
  unfold Fn.insertGrow at h
  unfold Fn.ma_insertsorted Fn.insertGrow
  rw [hc]
  simp only
  rw [if_pos h]

theorem Fn.ma_insertsorted_success (w : World α) (s : Mutarrb α) (v : α) (c : CmpCb α)
    (hc : s.cmp = some c) (h : ¬ (s.len = s.alloc ∧ (Fn.insertGrow w s).ret = 0)) :
    Fn.ma_insertsorted w s v = Fn.insertTail (Fn.insertGrow w s) c v := by
  unfold Fn.insertGrow at h
  unfold Fn.ma_insertsorted Fn.insertTail Fn.insertGrow
  rw [hc]
  simp only
  rw [if_neg h]

/-- What the growth step of `ma_insertsorted` leaves behind when it does not fail. -/
theorem Fn.insertGrow_post (w : World α) (s : Mutarrb α) (hlen : s.len ≤ s.alloc)
    (hc : s.cells.length = s.alloc) (h64 : s.alloc < SIZE_MOD)
    (hnull : s.buf = NULL ↔ s.alloc = 0) (hb : s.len < 2 ^ 51)
    (hok : ¬ (s.len = s.alloc ∧ (Fn.insertGrow w s).ret = 0)) :
    (Fn.insertGrow w s).s.len = s.len ∧ s.len + 1 ≤ (Fn.insertGrow w s).s.alloc ∧
      (Fn.insertGrow w s).s.cells.length = (Fn.insertGrow w s).s.alloc ∧
      (Fn.insertGrow w s).s.cells.take s.len = s.cells.take s.len ∧
      (Fn.insertGrow w s).s.alloc < SIZE_MOD ∧
      ((Fn.insertGrow w s).s.buf = NULL ↔ (Fn.insertGrow w s).s.alloc = 0) := by
  by_cases hfull : s.len = s.alloc
  · have hg : Fn.insertGrow w s = Fn.ma_grow w s 1 := by
      unfold Fn.insertGrow
      rw [if_pos hfull]
    rw [hg] at hok ⊢
    have hsz : size_t (s.len + 1) = s.len + 1 := by
      unfold size_t SIZE_MOD
      exact Nat.mod_eq_of_lt (by omega)
    have hnf : ¬ size_t (s.len + 1) ≤ s.alloc := by
      rw [hsz]
      omega
    have hroom := maGrowAlloc_room_one s hfull hb
    by_cases hn : (ma_xrealloc w s.buf (Fn.maGrowAlloc s 1) s.sz).2.1 = NULL
    · exfalso
      apply hok
      rw [Fn.ma_grow_null w s 1 hnf hn]
      exact ⟨hfull, rfl⟩
    · rw [Fn.ma_grow_block w s 1 hnf hn]
      refine ⟨rfl, hroom.1, ?_, ?_, ?_, ?_⟩
      · show (resize s.cells (Fn.maGrowAlloc s 1) _).length = Fn.maGrowAlloc s 1
        exact length_resize _ _ _
      · show (resize s.cells (Fn.maGrowAlloc s 1) _).take s.len = s.cells.take s.len
        exact take_resize _ _ _ _ (by omega) (by omega)
      · show Fn.maGrowAlloc s 1 < SIZE_MOD
        unfold SIZE_MOD
        exact hroom.2
      · show (ma_xrealloc w s.buf (Fn.maGrowAlloc s 1) s.sz).2.1 = NULL
          ↔ Fn.maGrowAlloc s 1 = 0
        exact ⟨fun h1 => absurd h1 hn, fun h1 => by omega⟩
  · have hg : Fn.insertGrow w s = ⟨w, s, 1⟩ := by
      unfold Fn.insertGrow
      rw [if_neg hfull]
    rw [hg]
    exact ⟨rfl, by show s.len + 1 ≤ s.alloc; omega, hc, rfl, h64, hnull⟩

theorem pairwise_getElem? (R : α → α → Prop) (l : List α) (h : l.Pairwise R) (i j : Nat)
    (x y : α) (hij : i < j) (hx : l[i]? = some x) (hy : l[j]? = some y) : R x y := by
  obtain ⟨hi, rfl⟩ := List.getElem?_eq_some.mp hx
  obtain ⟨hj, rfl⟩ := List.getElem?_eq_some.mp hy
  exact List.pairwise_iff_getElem.mp h i j hi hj hij

/-- The live elements after the `memmove` and the `memcpy` of `ma_insertsorted`. -/
theorem insert_cells (cells : List α) (v : α) (len l : Nat) (hl : l ≤ len)
    (hcap : len + 1 ≤ cells.length) :
    (blockWrite (memmove cells (l + 1) l (len - l)) l [v]).take (len + 1)
      = (cells.take len).take l ++ [v] ++ (cells.take len).drop l := by
  have h := splice_cells cells cells [v] len l 0 hl (Nat.zero_le _)
    (by simp only [List.length_singleton]; omega) (by omega) rfl rfl rfl
  simp only [List.length_singleton, Nat.add_zero, Nat.sub_zero] at h
  rw [List.take_take, Nat.min_eq_left hl]
  by_cases hlt : l < len
  · rw [if_pos ⟨by omega, hlt⟩] at h
    exact h
  · rw [if_neg (fun hh => hlt hh.2)] at h
    have hz : len - l = 0 := by omega
    rw [hz, memmove_zero]
    exact h

/-- Outcome of a successful `ma_insertsorted` on a well-formed sorted mutarr: the value
is inserted at the upper bound. -/
theorem ma_insertsorted_ok (w : World α) (a : Mutarr α) (v : α) (c : CmpCb α) (hwf : a.WF)
    (hb : a.s.len < 2 ^ 51) (hc : a.s.cmp = some c)
    (htrans : ∀ x y z, c x y ≤ 0 → c y z ≤ 0 → c x z ≤ 0)
    (hs : a.elems.Pairwise (fun x y => c x y ≤ 0))
    (hret : (ma_insertsorted w a v).ret = 1) :
    (ma_insertsorted w a v).a.s.len = a.s.len + 1 ∧
      (ma_insertsorted w a v).a.len = a.len + 1 ∧
      (ma_insertsorted w a v).a.WF ∧
      ∃ l, l ≤ a.s.len ∧
        (ma_insertsorted w a v).a.elems = a.elems.take l ++ [v] ++ a.elems.drop l ∧
        (∀ e ∈ a.elems.take l, c e v ≤ 0) ∧ (∀ e ∈ a.elems.drop l, c e v > 0) := by
  obtain ⟨h1, h2, h3, h4, h5, h6⟩ := hwf
  have hok : ¬ (a.s.len = a.s.alloc ∧ (Fn.insertGrow w a.s).ret = 0) := by
    intro h
    unfold ma_insertsorted at hret
    rw [Fn.ma_insertsorted_fail w a.s v c hc h] at hret
    simp at hret
  obtain ⟨g1, g2, g3, g4, g5, g6⟩ := Fn.insertGrow_post w a.s h3 h4 h6 h5 hb hok
  have hsz : size_t (a.s.len + 1) = a.s.len + 1 := by
    unfold size_t SIZE_MOD
    exact Nat.mod_eq_of_lt (by omega)
  have hE : (Fn.insertGrow w a.s).s.cells.take a.s.len = a.elems := g4
  have hget : ∀ i, i < a.s.len → (Fn.insertGrow w a.s).s.cells[i]? = a.elems[i]? := by
    intro i hi
    rw [← hE, List.getElem?_take, if_pos hi]
  have hspec := insertSortedLoop_spec c v (Fn.insertGrow w a.s).s.cells a.s.len (by omega)
    (by unfold SIZE_MOD; omega) htrans
    (fun i j ei ej hij hj hi1 hj1 => by
      rw [hget i (by omega)] at hi1
      rw [hget j hj] at hj1
      exact pairwise_getElem? _ _ hs i j ei ej hij hi1 hj1)
    a.s.len 0 a.s.len (Nat.zero_le _) (le_refl _) (by omega)
    (fun i e hi _ => absurd hi (Nat.not_lt_zero _))
    (fun i e hi1 hi2 _ => by omega)
  generalize hL : insertSortedLoop c v (Fn.insertGrow w a.s).s.cells a.s.len 0 a.s.len = L
    at hspec
  obtain ⟨_, hLle, hlo, hhi⟩ := hspec
  have he : ma_insertsorted w a v =
      ⟨(Fn.insertGrow w a.s).w,
       { a with
         s := { (Fn.insertGrow w a.s).s with
                cells := blockWrite (memmove (Fn.insertGrow w a.s).s.cells (L + 1) L
                  (a.s.len - L)) L [v]
                len := a.s.len + 1 }
         buf := (Fn.insertGrow w a.s).s.buf
         len := a.len + 1 }, 1⟩ := by
    have hsz2 : size_t (a.len + 1) = a.len + 1 := by
      rw [h1]
      exact hsz
    unfold ma_insertsorted
    rw [Fn.ma_insertsorted_success w a.s v c hc hok]
    unfold Fn.insertTail
    rw [g1, hL, hsz, hsz2]
    simp only
    rw [if_pos (by decide)]
  rw [he]
  have hcells := insert_cells (Fn.insertGrow w a.s).s.cells v a.s.len L hLle (by omega)
  rw [hE] at hcells
  refine ⟨rfl, rfl, ⟨?_, rfl, ?_, ?_, g6, g5⟩, L, hLle, hcells, ?_, ?_⟩
  · show a.len + 1 = a.s.len + 1
    rw [h1]
  · show a.s.len + 1 ≤ (Fn.insertGrow w a.s).s.alloc
    exact g2
  · show (blockWrite (memmove (Fn.insertGrow w a.s).s.cells (L + 1) L (a.s.len - L)) L
      [v]).length = (Fn.insertGrow w a.s).s.alloc
    rw [length_blockWrite]
    unfold memmove
    rw [length_blockWrite, g3]
  · intro e he1
    obtain ⟨i, hi⟩ := List.mem_iff_getElem?.mp he1
    rw [List.getElem?_take] at hi
    by_cases hiL : i < L
    · rw [if_pos hiL] at hi
      rw [← hget i (by omega)] at hi
      exact hlo i e hiL hi
    · rw [if_neg hiL] at hi
      cases hi
  · intro e he1
    obtain ⟨i, hi⟩ := List.mem_iff_getElem?.mp he1
    rw [List.getElem?_drop] at hi
    have hlt : L + i < a.s.len := by
      by_contra hcon
      have hlen : a.elems.length = a.s.len := by
        unfold Mutarr.elems
        rw [List.length_take]
        omega
      rw [List.getElem?_eq_none (by omega)] at hi
      cases hi
    rw [← hget (L + i) hlt] at hi
    exact hhi (L + i) e (by omega) hlt hi

theorem ary_cb_cmpint_trans (x y z : Int) (h1 : ary_cb_cmpint x y ≤ 0)
    (h2 : ary_cb_cmpint y z ≤ 0) : ary_cb_cmpint x z ≤ 0 := by
  unfold ary_cb_cmpint at *
  split_ifs at * <;> omega

theorem ary_cb_cmpint_total (x y : Int) : ary_cb_cmpint x y ≤ 0 ∨ ary_cb_cmpint y x ≤ 0 := by
  unfold ary_cb_cmpint
  split_ifs <;> omega

theorem cmpTens_trans (x y z : Int) (h1 : cmpTens x y ≤ 0) (h2 : cmpTens y z ≤ 0) :
    cmpTens x z ≤ 0 := by
  unfold cmpTens at *
  omega

/-! ## Facts about `ary_detach` and `ary_attach` -/

theorem dtorSlots_xrealloc (p : Ptr) (n sz : Nat) :
    dtorSlots ([Event.xrealloc p n sz] : List (Event α)) = [] := rfl

theorem dtorSlots_xfree (p : Ptr) : dtorSlots ([Event.xfree p] : List (Event α)) = [] := rfl

/-- What `(ary_shrinktofit)` leaves of an array whose block has `alloc` slots: the length,
the hooks and the live elements; a log that grew by no destructor call; a block of
exactly `len` slots when it returns 1; and a buffer exactly when `len` is not zero. -/
theorem Fn.ary_shrinktofit_keeps (w : World α) (s : Aryb α) (hle : s.len ≤ s.alloc)
    (hc : s.cells.length = s.alloc) (hb : s.buf = NULL ↔ s.alloc = 0) :
    (Fn.ary_shrinktofit w s).s.len = s.len ∧
      (Fn.ary_shrinktofit w s).s.sz = s.sz ∧
      (Fn.ary_shrinktofit w s).s.ctor = s.ctor ∧
      (Fn.ary_shrinktofit w s).s.dtor = s.dtor ∧
      (Fn.ary_shrinktofit w s).s.userp = s.userp ∧
      (Fn.ary_shrinktofit w s).s.cells.take s.len = s.cells.take s.len ∧
      ((Fn.ary_shrinktofit w s).ret = 1 → (Fn.ary_shrinktofit w s).s.cells.length = s.len) ∧
      ((Fn.ary_shrinktofit w s).s.buf = NULL ↔ s.len = 0) ∧
      (∃ evs, (Fn.ary_shrinktofit w s).w.trace = w.trace ++ evs ∧ dtorSlots evs = []) := by
  by_cases hsame : s.alloc = s.len
  · rw [Fn.ary_shrinktofit_same w s hsame]
    exact ⟨rfl, rfl, rfl, rfl, rfl, rfl, fun _ => hc.trans hsame,
      ⟨fun h => by have := hb.mp h; omega, fun h => hb.mpr (by omega)⟩,
      [], (List.append_nil _).symm, rfl⟩
  · by_cases hl : s.len = 0
    · rw [Fn.ary_shrinktofit_free w s hsame hl]
      refine ⟨rfl, rfl, rfl, rfl, rfl, ?_, fun _ => ?_, ⟨fun _ => hl, fun _ => rfl⟩,
        [Event.xfree s.buf], rfl, rfl⟩
      · rw [hl]
        rfl
      · rw [hl]
        rfl
    · by_cases hn : (ary_xrealloc w s.buf s.len s.sz).2.1 = NULL
      · rw [Fn.ary_shrinktofit_null w s hsame hl hn]
        refine ⟨rfl, rfl, rfl, rfl, rfl, rfl, fun h => ?_,
          ⟨fun h => ?_, fun h => absurd h hl⟩, [Event.xrealloc s.buf s.len s.sz], rfl, rfl⟩
        · simp at h
        · have := hb.mp h
          omega
      · rw [Fn.ary_shrinktofit_block w s hsame hl hn]
        refine ⟨rfl, rfl, rfl, rfl, rfl, ?_, fun _ => ?_,
          ⟨fun h => absurd h hn, fun h => absurd h hl⟩,
          [Event.xrealloc s.buf s.len s.sz], rfl, rfl⟩
        · exact take_resize _ _ _ _ (by omega) (le_refl _)
        · exact length_resize _ _ _

/-- Freeing the buffer of an array without live elements calls no destructor. -/
theorem ary_freebuf_empty (w : World α) (s : Aryb α) (h : s.len = 0) :
    (ary_freebuf w s).trace = w.trace ++ [Event.xfree s.buf] := by
  rw [ary_freebuf_trace, h]
  cases s.dtor <;> simp

/-! ## Facts about the loops of `ary_setlen` -/

theorem blockWrite_single (cells : List α) (i : Nat) (x : α) (hi : i < cells.length) :
    blockWrite cells i [x] = cells.set i x := by
  rw [blockWrite_eq cells i [x] (by simpa using hi)]
  simp [List.set_eq_take_append_cons_drop, hi]

theorem store_self_cells (s : Aryb α) (i : Nat) (x : α) (hi : i < s.cells.length) :
    (s.store s.buf i [x]).cells = s.cells.set i x := by
  unfold Aryb.store
  rw [slot_self]
  exact blockWrite_single s.cells i x hi

theorem callCb_self_cells (s : Aryb α) (i : Nat) (cb : ElemCb α) (hi : i < s.cells.length) :
    (s.callCb s.buf i cb).cells = s.cells.set i (cb (s.cells.get ⟨i, hi⟩) s.userp) ∧
      s.load s.buf i = s.cells[i]? := by
  have hl : s.load s.buf i = s.cells[i]? := by
    unfold Aryb.load
    rw [slot_self]
  refine ⟨?_, hl⟩
  unfold Aryb.callCb
  rw [hl, List.getElem?_eq_getElem hi]
  exact store_self_cells s i _ hi

/-- The constructor loop of `ary_setlen` on slots `i .. i + n - 1` of the block. -/
theorem setlenCtor_spec (ctor : ElemCb α) (n i : Nat) (w : World α) (s : Aryb α)
    (hi : i + n ≤ s.cells.length) :
    (setlenCtor ctor s.buf n i w s).1.trace
        = w.trace ++ (List.range n).map (fun k => Event.ctor (i + k) s.userp) ∧
      (setlenCtor ctor s.buf n i w s).1.calls = w.calls ∧
      (setlenCtor ctor s.buf n i w s).2.cells.length = s.cells.length ∧
      ∀ j, (setlenCtor ctor s.buf n i w s).2.cells[j]?
        = if i ≤ j ∧ j < i + n then s.cells[j]?.map (fun v => ctor v s.userp)
          else s.cells[j]? := by
  induction n generalizing i w s with
  | zero =>
    refine ⟨by simp [setlenCtor], rfl, rfl, fun j => ?_⟩
    rw [if_neg (by omega)]
    rfl
  | succ n ih =>
    have hlt : i < s.cells.length := by omega
    obtain ⟨c1, _⟩ := callCb_self_cells s i ctor hlt
    obtain ⟨_, _, f3, f4⟩ := callCb_frame s s.buf i ctor
    have hlen : (s.callCb s.buf i ctor).cells.length = s.cells.length := by
      rw [c1, List.length_set]
    have hstep : setlenCtor ctor s.buf (n + 1) i w s
        = setlenCtor ctor (s.callCb s.buf i ctor).buf n (i + 1)
            { w with trace := w.trace ++ [Event.ctor i s.userp] } (s.callCb s.buf i ctor) := by
      rw [f3]
      rfl
    rw [hstep]
    obtain ⟨i1, i2, i3, i4⟩ := ih (i + 1) { w with trace := w.trace ++ [Event.ctor i s.userp] }
      (s.callCb s.buf i ctor) (by omega)
    refine ⟨?_, i2, i3.trans hlen, fun j => ?_⟩
    · rw [i1, f4, List.range_succ_eq_map, List.map_cons, List.map_map, List.append_assoc]
      rw [List.singleton_append]
      refine congrArg (fun l => w.trace ++ l)
        (congrArg₂ List.cons rfl (List.map_congr_left fun k _ => ?_))
      · show Event.ctor (i + 1 + k) s.userp = Event.ctor (i + (k + 1)) s.userp
        rw [Nat.add_right_comm, Nat.add_assoc]
    · rw [i4 j, f4, c1]
      by_cases hj : j = i
      · subst hj
        rw [if_neg (by omega), if_pos (by omega), List.getElem?_set_self hlt,
          List.getElem?_eq_getElem hlt]
        rfl
      · rw [List.getElem?_set_ne (Ne.symm hj)]
        by_cases hr : i + 1 ≤ j ∧ j < i + 1 + n
        · rw [if_pos hr, if_pos (by omega)]
        · rw [if_neg hr, if_neg (by omega)]

/-- The fill loop of `ary_setlen` on slots `i .. i + n - 1` of the block. -/
theorem setlenFill_spec (val : α) (n i : Nat) (s : Aryb α) (hi : i + n ≤ s.cells.length) :
    (setlenFill val s.buf n i s).cells.length = s.cells.length ∧
      ∀ j, (setlenFill val s.buf n i s).cells[j]?
        = if i ≤ j ∧ j < i + n then some val else s.cells[j]? := by
  induction n generalizing i s with
  | zero =>
    refine ⟨rfl, fun j => ?_⟩
    rw [if_neg (by omega)]
    rfl
  | succ n ih =>
    have hlt : i < s.cells.length := by omega
    have c1 := store_self_cells s i val hlt
    obtain ⟨_, _, f3, _⟩ := store_frame s s.buf i [val]
    have hlen : (s.store s.buf i [val]).cells.length = s.cells.length := by
      rw [c1, List.length_set]
    have hstep : setlenFill val s.buf (n + 1) i s
        = setlenFill val (s.store s.buf i [val]).buf n (i + 1) (s.store s.buf i [val]) := by
      rw [f3]
      rfl
    rw [hstep]
    obtain ⟨i3, i4⟩ := ih (i + 1) (s.store s.buf i [val]) (by omega)
    refine ⟨i3.trans hlen, fun j => ?_⟩
    rw [i4 j, c1]
    by_cases hj : j = i
    · subst hj
      rw [if_neg (by omega), if_pos (by omega), List.getElem?_set_self hlt]
    · rw [List.getElem?_set_ne (Ne.symm hj)]
      by_cases hr : i + 1 ≤ j ∧ j < i + 1 + n
      · rw [if_pos hr, if_pos (by omega)]
      · rw [if_neg hr, if_neg (by omega)]

/-- The destructor loop of `ary_setlen` on slots `i .. i + n - 1` of the block: each
call is made on the value the slot held before the loop. -/
theorem setlenDtor_spec (dtor : ElemCb α) (n i : Nat) (w : World α) (s : Aryb α)
    (hi : i + n ≤ s.cells.length) :
    (setlenDtor dtor s.buf n i w s).1.trace
        = w.trace ++ (List.range n).map (fun k => Event.dtor (i + k) s.cells[i + k]? s.userp) ∧
      (setlenDtor dtor s.buf n i w s).1.calls = w.calls ∧
      (setlenDtor dtor s.buf n i w s).2.cells.length = s.cells.length ∧
      ∀ j, j < i → (setlenDtor dtor s.buf n i w s).2.cells[j]? = s.cells[j]? := by
  induction n generalizing i w s with
  | zero => exact ⟨by simp [setlenDtor], rfl, rfl, fun j _ => rfl⟩
  | succ n ih =>
    have hlt : i < s.cells.length := by omega
    obtain ⟨c1, c2⟩ := callCb_self_cells s i dtor hlt
    obtain ⟨_, _, f3, f4⟩ := callCb_frame s s.buf i dtor
    have hlen : (s.callCb s.buf i dtor).cells.length = s.cells.length := by
      rw [c1, List.length_set]
    have hstep : setlenDtor dtor s.buf (n + 1) i w s
        = setlenDtor dtor (s.callCb s.buf i dtor).buf n (i + 1)
            { w with trace := w.trace ++ [Event.dtor i s.cells[i]? s.userp] }
            (s.callCb s.buf i dtor) := by
      rw [f3, ← c2]
      rfl
    rw [hstep]
    obtain ⟨i1, i2, i3, i4⟩ := ih (i + 1)
      { w with trace := w.trace ++ [Event.dtor i s.cells[i]? s.userp] }
      (s.callCb s.buf i dtor) (by omega)
    refine ⟨?_, i2, i3.trans hlen, fun j hj => ?_⟩
    · rw [i1, f4, List.range_succ_eq_map, List.map_cons, List.map_map, List.append_assoc]
      rw [List.singleton_append]
      refine congrArg (fun l => w.trace ++ l)
        (congrArg₂ List.cons rfl (List.map_congr_left fun k _ => ?_))
      · show Event.dtor (i + 1 + k) (s.callCb s.buf i dtor).cells[i + 1 + k]? s.userp
          = Event.dtor (i + (k + 1)) s.cells[i + (k + 1)]? s.userp
        rw [c1, List.getElem?_set_ne (by omega), Nat.add_right_comm, Nat.add_assoc]
    · rw [i4 j (by omega), c1, List.getElem?_set_ne (by omega)]

/-! ## Facts about `ma_i2pos` -/

theorem intToSize_nonneg (x : Int) (h0 : 0 ≤ x) (h1 : x < 2 ^ 64) : intToSize x = x.toNat := by
  unfold intToSize SIZE_MOD
  push_cast
  omega

theorem intToSize_neg (x : Int) (h0 : x < 0) (h1 : -(2 ^ 64) < x) :
    intToSize x = (x + 2 ^ 64).toNat := by
  unfold intToSize SIZE_MOD
  push_cast
  omega

theorem c_abs_eq (x : Int) (h : INT_MIN < x) : c_abs x = if 0 ≤ x then x else -x := by
  unfold c_abs
  rw [if_neg (by omega)]
  omega

theorem ma_i2pos_cases (offset : Int) (max : Nat) (h1 : INT_MIN < offset) (h2 : offset < 2 ^ 31)
    (hmax : max < SIZE_MOD) :
    ma_i2pos offset max =
      if 0 ≤ offset then (if offset ≤ max then offset.toNat else max)
      else if -offset ≤ max then max - (-offset).toNat else 0 := by
  unfold ma_i2pos
  rw [c_abs_eq offset h1]
  unfold INT_MIN at h1
  unfold SIZE_MOD at hmax
  by_cases h0 : 0 ≤ offset
  · rw [if_pos h0, intToSize_nonneg offset h0 (by omega), if_pos h0]
    split_ifs <;> omega
  · rw [if_neg h0, intToSize_nonneg (-offset) (by omega) (by omega), if_neg h0,
      intToSize_neg offset (by omega) (by omega)]
    unfold size_t SIZE_MOD
    split_ifs <;> omega


/-! ## Facts about `ary_splicep` when nothing is added -/

theorem blockWrite_nil (cells : List α) (i : Nat) : blockWrite cells i [] = cells := by
  simp [blockWrite]

/-- The call `ary_splicep(ary, pos, rlen, 0)` on a well-formed array never grows the
array: it removes the `min rlen (len - P)` elements from `P = min pos len` on. -/
theorem ary_splicep_removes (w : World α) (a : Ary α) (pos rlen : Nat) (hwf : a.WF) :
    (ary_splicep w a pos rlen 0).a.elems
        = a.elems.take (min pos a.s.len)
          ++ a.elems.drop (min pos a.s.len + min rlen (a.s.len - min pos a.s.len)) ∧
      (ary_splicep w a pos rlen 0).a.s.len
        = a.s.len - min rlen (a.s.len - min pos a.s.len) ∧
      (ary_splicep w a pos rlen 0).a.len
        = a.s.len - min rlen (a.s.len - min pos a.s.len) := by
  obtain ⟨h1, h2, h3, h4, h5, h6⟩ := hwf
  have hok : ¬ (0 > min rlen (a.s.len - min pos a.s.len) ∧
      (Fn.spliceGrow w a.s pos rlen 0).ret = 0) := fun h => absurd h.1 (by omega)
  have hs := Fn.ary_splicep_success w a.s pos rlen 0 hok
  have hg : Fn.spliceGrow w a.s pos rlen 0 = ⟨w, a.s, 1⟩ := by
    unfold Fn.spliceGrow
    rw [if_neg (by omega)]
  rw [hg] at hs
  have hP : min pos a.s.len ≤ a.s.len := min_le_right _ _
  have hR : min rlen (a.s.len - min pos a.s.len) ≤ a.s.len - min pos a.s.len :=
    min_le_right _ _
  have ht := Fn.spliceTail_cells (⟨w, a.s, 1⟩ : FnRes α Int) (min pos a.s.len)
    (min rlen (a.s.len - min pos a.s.len)) a.s.len [] rfl hP hR
    (by show a.s.len - _ + 0 ≤ a.s.cells.length; omega)
    (by show a.s.len ≤ a.s.cells.length; omega)
  rw [blockWrite_nil] at ht
  have ht1 : (Fn.ary_splicep w a.s pos rlen 0).s.cells.take
        (a.s.len - min rlen (a.s.len - min pos a.s.len))
      = a.s.cells.take (min pos a.s.len)
        ++ (a.s.cells.take a.s.len).drop
            (min pos a.s.len + min rlen (a.s.len - min pos a.s.len)) := by
    rw [hs]
    have := ht.1
    simp only [List.length_nil, Nat.add_zero, List.append_nil] at this
    exact this
  have hsl : (Fn.ary_splicep w a.s pos rlen 0).s.len
      = a.s.len - min rlen (a.s.len - min pos a.s.len) := by
    rw [hs]
    show size_t (a.s.len - min rlen (a.s.len - min pos a.s.len) + 0) = _
    unfold size_t
    unfold SIZE_MOD at h6 ⊢
    rw [Nat.add_zero, Nat.mod_eq_of_lt (by omega)]
  have hel : (ary_splicep w a pos rlen 0).a.elems
      = a.elems.take (min pos a.s.len)
        ++ a.elems.drop (min pos a.s.len + min rlen (a.s.len - min pos a.s.len)) := by
    unfold Ary.elems
    rw [ary_splicep_s, hsl, ht1, List.take_take, min_eq_left hP]
  refine ⟨hel, ?_, ?_⟩
  · rw [ary_splicep_s, hsl]
  · by_cases hn : (Fn.ary_splicep w a.s pos rlen 0).ret = NULL
    · rw [ary_splicep_null w a pos rlen 0 hn]
      show a.len = _
      have hb : a.s.buf = NULL := by
        by_contra hne
        apply add_ne_null a.s.buf (min pos a.s.len) hne
        rw [hs] at hn
        exact hn
      have := h5.mp hb
      omega
    · rw [ary_splicep_ptr w a pos rlen 0 hn]
      exact hsl

/-! ## Facts about `ary_slice` -/

/-- Splicing no element into an array that `ary_init(ary, 0)` has just initialised:
`ary_splice` returns 0 without calling the allocator. -/
theorem ary_splice_init_nil (sizeof : Nat) (w : World α) (a : Ary α) (pos rlen : Nat) :
    (ary_splice (ary_init sizeof w a 0).w (ary_init sizeof w a 0).a pos rlen []).ret = 0 ∧
      (ary_splice (ary_init sizeof w a 0).w (ary_init sizeof w a 0).a pos rlen []).w = w := by
  rw [ary_init_zero]
  have hp : Fn.ary_splicep w (zeroAryb sizeof : Aryb α) pos rlen 0 =
      ⟨w, zeroAryb sizeof, NULL⟩ := by
    unfold Fn.ary_splicep
    simp only [clamp_pos, clamp_rlen]
    simp [zeroAryb, Ptr.add, NULL, size_t]
  unfold ary_splice ary_splicep
  simp only [List.length_nil]
  rw [hp]
  simp

theorem read_zero (s : Aryb α) (p : Ptr) (i : Nat) : s.read p i 0 = [] := by
  unfold Aryb.read
  cases s.slot p i with
  | none => rfl
  | some j => simp [blockRead]

/-! ## Facts about the typed mirror -/
theorem Fn.ary_grow_failed (w : World α) (s : Aryb α) (extra : Nat)
    (h : (Fn.ary_grow w s extra).ret = 0) : (Fn.ary_grow w s extra).s = s := by
  by_cases hf : size_t (s.len + extra) ≤ s.alloc
  · rw [Fn.ary_grow_fits w s extra hf]
  · by_cases hn : (ary_xrealloc w s.buf (Fn.growAlloc s extra) s.sz).2.1 = NULL
    · rw [Fn.ary_grow_null w s extra hf hn]
    · rw [Fn.ary_grow_block w s extra hf hn] at h
      simp at h

theorem Fn.ary_shrinktofit_failed (w : World α) (s : Aryb α)
    (h : (Fn.ary_shrinktofit w s).ret = 0) : (Fn.ary_shrinktofit w s).s = s := by
  by_cases hsame : s.alloc = s.len
  · rw [Fn.ary_shrinktofit_same w s hsame]
  · by_cases hl : s.len = 0
    · rw [Fn.ary_shrinktofit_free w s hsame hl] at h
      simp at h
    · by_cases hn : (ary_xrealloc w s.buf s.len s.sz).2.1 = NULL
      · rw [Fn.ary_shrinktofit_null w s hsame hl hn]
      · rw [Fn.ary_shrinktofit_block w s hsame hl hn] at h
        simp at h

theorem Fn.ary_shrinktofit_len (w : World α) (s : Aryb α) :
    (Fn.ary_shrinktofit w s).s.len = s.len := by
  unfold Fn.ary_shrinktofit
  split
  · rfl
  · split
    · simp only
      split <;> rfl
    · rfl

theorem ary_grow_mirror (w : World α) (a : Ary α) (extra : Nat) (hm : a.Mirror) :
    (ary_grow w a extra).a.Mirror := by
  unfold ary_grow
  simp only
  by_cases hret : (Fn.ary_grow w a.s extra).ret ≠ 0
  · rw [if_pos hret]
    exact ⟨hm.1.trans (Fn.ary_grow_frame w a.s extra).1.symm, rfl⟩
  · rw [if_neg hret]
    have hs := Fn.ary_grow_failed w a.s extra (not_not.mp hret)
    exact ⟨hm.1.trans (congrArg Aryb.len hs).symm, hm.2.trans (congrArg Aryb.buf hs).symm⟩

theorem ary_init_mirror (sizeof : Nat) (w : World α) (a : Ary α) (hint : Nat) :
    (ary_init sizeof w a hint).a.Mirror := by
  unfold ary_init
  exact ary_grow_mirror w _ hint ⟨rfl, rfl⟩

theorem ary_shrinktofit_mirror (w : World α) (a : Ary α) (hm : a.Mirror) :
    (ary_shrinktofit w a).a.Mirror := by
  unfold ary_shrinktofit
  simp only
  by_cases hret : (Fn.ary_shrinktofit w a.s).ret ≠ 0
  · rw [if_pos hret]
    exact ⟨hm.1.trans (Fn.ary_shrinktofit_len w a.s).symm, rfl⟩
  · rw [if_neg hret]
    have hs := Fn.ary_shrinktofit_failed w a.s (not_not.mp hret)
    exact ⟨hm.1.trans (congrArg Aryb.len hs).symm, hm.2.trans (congrArg Aryb.buf hs).symm⟩

theorem ary_setlen_mirror (w : World α) (a : Ary α) (nlen : Nat) (hm : a.Mirror) :
    (ary_setlen w a nlen).a.Mirror := by
  obtain ⟨_, h2⟩ := hm
  unfold ary_setlen
  split
  · simp only
    split
    · exact ⟨rfl, h2.trans (setlenCtor_frame _ _ _ _ _ _).2.symm⟩
    · exact ⟨rfl, h2.trans (setlenFill_frame _ _ _ _ _).2.symm⟩
  · split
    · split
      · exact ⟨rfl, h2.trans (setlenDtor_frame _ _ _ _ _ _).2.symm⟩
      · exact ⟨rfl, h2⟩
    · exact ⟨rfl, h2⟩

theorem pushStore_mirror (w : World α) (a : Ary α) (v : α) (hm : a.Mirror) :
    (pushStore w a v).a.Mirror := by
  obtain ⟨h1, h2⟩ := hm
  unfold pushStore
  refine ⟨?_, ?_⟩
  · show size_t (a.len + 1) = size_t (a.s.len + 1)
    rw [h1]
  · show a.buf = (a.s.store a.buf a.s.len [v]).buf
    rw [(store_frame _ _ _ _).2.2.1]
    exact h2

theorem ary_push_mirror (w : World α) (a : Ary α) (v : α) (hm : a.Mirror) :
    (ary_push w a v).a.Mirror := by
  unfold ary_push
  split
  · simp only
    split
    · exact pushStore_mirror _ _ v (ary_grow_mirror w a 1 hm)
    · exact ary_grow_mirror w a 1 hm
  · exact pushStore_mirror w a v hm

theorem ary_pushp_mirror (w : World α) (a : Ary α) (hm : a.Mirror) :
    (ary_pushp w a).a.Mirror := by
  unfold ary_pushp
  split
  · simp only
    have hg := ary_grow_mirror w a 1 hm
    split
    · refine ⟨?_, hg.2⟩
      show size_t ((ary_grow w a 1).a.len + 1) = size_t ((ary_grow w a 1).a.s.len + 1)
      rw [hg.1]
    · exact hg
  · refine ⟨?_, hm.2⟩
    show size_t (a.len + 1) = size_t (a.s.len + 1)
    rw [hm.1]

theorem mirror_setlen (a : Ary α) (s1 : Aryb α) (n : Nat) (p : Ptr) (h2 : a.buf = s1.buf) :
    ({ a with s := { s1 with len := n }, ptr := p, len := n } : Ary α).Mirror :=
  ⟨rfl, h2⟩

theorem ary_pop_mirror (w : World α) (a : Ary α) (ret : Bool) (hm : a.Mirror) :
    (ary_pop w a ret).a.Mirror := by
  unfold ary_pop
  by_cases h0 : a.s.len ≠ 0
  · rw [if_pos h0]
    simp only
    rw [hm.1]
    cases ret with
    | true =>
      simp only [if_true]
      exact mirror_setlen a a.s _ a.ptr hm.2
    | false =>
      simp only [Bool.false_eq_true, if_false]
      cases a.s.dtor with
      | none =>
        simp only
        exact mirror_setlen a a.s _ a.ptr hm.2
      | some dtor =>
        simp only
        cases a.s.load a.buf (size_dec a.s.len) with
        | none =>
          simp only
          exact mirror_setlen a a.s _ a.ptr hm.2
        | some v =>
          simp only
          exact mirror_setlen a _ _ a.ptr (hm.2.trans (store_frame a.s _ _ _).2.2.1.symm)
  · rw [if_neg h0]
    exact hm

theorem ary_shift_mirror (w : World α) (a : Ary α) (ret : Bool) (hm : a.Mirror) :
    (ary_shift w a ret).a.Mirror := by
  unfold ary_shift
  by_cases h0 : a.s.len ≠ 0
  · rw [if_pos h0]
    simp only
    rw [hm.1]
    cases ret with
    | true =>
      simp only [if_true]
      exact mirror_setlen a _ _ a.ptr (hm.2.trans (move_frame a.s _ _ _ _).2.2.symm)
    | false =>
      simp only [Bool.false_eq_true, if_false]
      cases a.s.dtor with
      | none =>
        simp only
        exact mirror_setlen a _ _ a.ptr (hm.2.trans (move_frame a.s _ _ _ _).2.2.symm)
      | some dtor =>
        simp only
        cases a.s.load a.buf 0 with
        | none =>
          simp only
          exact mirror_setlen a _ _ a.ptr (hm.2.trans (move_frame a.s _ _ _ _).2.2.symm)
        | some v =>
          simp only
          exact mirror_setlen a _ _ a.ptr
            (hm.2.trans ((move_frame _ _ _ _ _).2.2.trans (store_frame a.s _ _ _).2.2.1).symm)
  · rw [if_neg h0]
    exact hm

theorem ary_snatch_mirror (mix : Nat → α → α → α) (w : World α) (a : Ary α) (pos : Nat)
    (ret : Bool) (hm : a.Mirror) : (ary_snatch mix w a pos ret).a.Mirror := by
  unfold ary_snatch
  by_cases h0 : a.s.len ≠ 0
  · rw [if_pos h0]
    simp only
    rw [hm.1]
    cases a.s.slot a.buf (if pos < a.s.len then pos else size_dec a.s.len) with
    | none =>
      simp only
      exact mirror_setlen a a.s _ _ hm.2
    | some j =>
      simp only
      exact mirror_setlen a
        { a.s with
          cells := moveBytes mix a.s.sz a.s.cells j (j + 1)
            (size_dec a.s.len - if pos < a.s.len then pos else size_dec a.s.len) }
        _ _ hm.2
  · rw [if_neg h0]
    exact hm

/-- When `(ary_splicep)` returns `NULL` on an array that satisfies the structural
invariant, it leaves `len` and `buf` as they were. -/
theorem Fn.ary_splicep_null_same (w : World α) (s : Aryb α) (pos rlen alen : Nat)
    (hinv : s.Inv) (h : (Fn.ary_splicep w s pos rlen alen).ret = NULL) :
    (Fn.ary_splicep w s pos rlen alen).s.len = s.len ∧
      (Fn.ary_splicep w s pos rlen alen).s.buf = s.buf := by
  by_cases hfail : alen > min rlen (s.len - min pos s.len) ∧
      (Fn.spliceGrow w s pos rlen alen).ret = 0
  · have h0 := hfail.2
    unfold Fn.spliceGrow at h0
    rw [if_pos hfail.1] at h0
    rw [Fn.ary_splicep_fail w s pos rlen alen hfail.1 h0]
    exact ⟨rfl, rfl⟩
  · rw [Fn.ary_splicep_success w s pos rlen alen hfail] at h ⊢
    have hb : (Fn.spliceGrow w s pos rlen alen).s.buf = NULL := by
      by_contra hne
      exact add_ne_null _ (min pos s.len) hne h
    have hg : (Fn.spliceGrow w s pos rlen alen).s = s ∧
        size_t (s.len - min rlen (s.len - min pos s.len) + alen) ≤ s.alloc := by
      unfold Fn.spliceGrow at hb hfail ⊢
      by_cases hgt : alen > min rlen (s.len - min pos s.len)
      · rw [if_pos hgt] at hb hfail ⊢
        by_cases hf : size_t (s.len + (alen - min rlen (s.len - min pos s.len))) ≤ s.alloc
        · rw [Fn.ary_grow_fits w s _ hf]
          refine ⟨rfl, ?_⟩
          have he : s.len - min rlen (s.len - min pos s.len) + alen
              = s.len + (alen - min rlen (s.len - min pos s.len)) := by omega
          rw [he]
          exact hf
        · by_cases hn : (ary_xrealloc w s.buf
              (Fn.growAlloc s (alen - min rlen (s.len - min pos s.len))) s.sz).2.1 = NULL
          · rw [Fn.ary_grow_null w s _ hf hn] at hfail
            exact absurd ⟨hgt, rfl⟩ hfail
          · rw [Fn.ary_grow_block w s _ hf hn] at hb
            exact absurd hb hn
      · rw [if_neg hgt]
        refine ⟨rfl, le_trans (size_t_le _) ?_⟩
        have := hinv.1
        omega
    have hb2 : s.buf = NULL := by
      rw [← hb, hg.1]
    have ha := hinv.2.mp hb2
    have hl : s.len = 0 := by
      have := hinv.1
      omega
    refine ⟨?_, ?_⟩
    · show size_t ((Fn.spliceGrow w s pos rlen alen).s.len - min rlen (s.len - min pos s.len)
        + alen) = s.len
      rw [hg.1]
      have := hg.2
      omega
    · show (Fn.spliceGrow w s pos rlen alen).s.buf = s.buf
      rw [hg.1]

theorem ary_splicep_mirror (w : World α) (a : Ary α) (pos rlen alen : Nat) (hm : a.Mirror)
    (hinv : a.s.Inv) : (ary_splicep w a pos rlen alen).a.Mirror := by
  by_cases hn : (Fn.ary_splicep w a.s pos rlen alen).ret = NULL
  · rw [ary_splicep_null w a pos rlen alen hn]
    obtain ⟨k1, k2⟩ := Fn.ary_splicep_null_same w a.s pos rlen alen hinv hn
    exact ⟨hm.1.trans k1.symm, hm.2.trans k2.symm⟩
  · rw [ary_splicep_ptr w a pos rlen alen hn]
    exact ⟨rfl, rfl⟩

theorem store_mirror (a : Ary α) (p : Ptr) (i : Nat) (xs : List α) (hm : a.Mirror) :
    ({ a with s := a.s.store p i xs } : Ary α).Mirror :=
  ⟨hm.1.trans (store_frame a.s p i xs).1.symm, hm.2.trans (store_frame a.s p i xs).2.2.1.symm⟩

theorem ary_splice_mirror (w : World α) (a : Ary α) (pos rlen : Nat) (data : List α)
    (hm : a.Mirror) (hinv : a.s.Inv) : (ary_splice w a pos rlen data).a.Mirror := by
  have hp := ary_splicep_mirror w a pos rlen data.length hm hinv
  unfold ary_splice
  simp only
  split
  · exact store_mirror _ _ 0 data hp
  · exact hp

theorem ary_insert_mirror (w : World α) (a : Ary α) (pos : Nat) (v : α)
    (hm : a.Mirror) (hinv : a.s.Inv) : (ary_insert w a pos v).a.Mirror := by
  have hp := ary_splicep_mirror w a pos 0 1 hm hinv
  unfold ary_insert
  simp only
  split
  · exact store_mirror _ _ 0 [v] hp
  · exact hp

theorem ary_unshift_mirror (w : World α) (a : Ary α) (v : α)
    (hm : a.Mirror) (hinv : a.s.Inv) : (ary_unshift w a v).a.Mirror := by
  have hp := ary_splicep_mirror w a 0 0 1 hm hinv
  unfold ary_unshift ary_unshiftp
  simp only
  split
  · exact store_mirror _ _ 0 [v] hp
  · exact hp

theorem ary_emplace_mirror (w : World α) (a : Ary α) (pos : Nat)
    (hm : a.Mirror) (hinv : a.s.Inv) : (ary_emplace w a pos).a.Mirror := by
  have hp := ary_splicep_mirror w a pos 0 1 hm hinv
  unfold ary_emplace ary_insertp
  simp only
  split
  · split
    · exact ⟨hp.1.trans (callCb_frame _ _ _ _).1.symm, hp.2.trans (callCb_frame _ _ _ _).2.2.1.symm⟩
    · exact store_mirror _ _ 0 _ hp
  · exact hp

theorem mirror_setval (a : Ary α) (v : α) (hm : a.Mirror) :
    ({ a with val := v } : Ary α).Mirror :=
  ⟨hm.1, hm.2⟩

theorem ary_slice_mirror (sizeof : Nat) (w : World α) (a r : Ary α) (start stop : Nat) :
    (ary_slice sizeof w a r start stop).r.Mirror ∧ (ary_slice sizeof w a r start stop).a = a := by
  unfold ary_slice
  simp only
  generalize a.s.read a.buf start
    (if start < a.s.len then (if start < stop then stop - start else 0) else 0) = data
  have hp := ary_splice_mirror (ary_init sizeof w r 0).w (ary_init sizeof w r 0).a 0 0 data
    (ary_init_mirror sizeof w r 0) (ary_init_inv sizeof w r 0)
  by_cases hret : (ary_splice (ary_init sizeof w r 0).w (ary_init sizeof w r 0).a 0 0 data).ret ≠ 0
  · rw [if_pos hret]
    exact ⟨mirror_setval _ a.val hp, rfl⟩
  · rw [if_neg hret]
    exact ⟨hp, rfl⟩

theorem frame_cells (s : Aryb α) (c : List α) :
    ({ s with cells := c } : Aryb α).len = s.len ∧ ({ s with cells := c } : Aryb α).buf = s.buf :=
  ⟨rfl, rfl⟩

theorem Fn.ary_reverse_frame (w : World α) (s : Aryb α) :
    (Fn.ary_reverse w s).s.len = s.len ∧ (Fn.ary_reverse w s).s.buf = s.buf := by
  by_cases hn : (ary_xrealloc w NULL 1 s.sz).2.1 = NULL
  · rw [Fn.ary_reverse_null w s hn]
    exact ⟨rfl, rfl⟩
  · unfold Fn.ary_reverse
    simp only
    rw [if_neg hn]
    exact frame_cells s _

theorem Fn.ary_swap_frame (w : World α) (s : Aryb α) (i j : Nat) :
    (Fn.ary_swap w s i j).s.len = s.len ∧ (Fn.ary_swap w s i j).s.buf = s.buf := by
  unfold Fn.ary_swap
  simp only
  generalize (if i ≥ s.len then size_dec s.len else i) = x
  generalize (if j ≥ s.len then size_dec s.len else j) = y
  by_cases h : x = y
  · rw [if_pos h]
    exact ⟨rfl, rfl⟩
  · rw [if_neg h]
    by_cases hn : (ary_xrealloc w NULL 1 s.sz).2.1 = NULL
    · rw [if_pos hn]
      exact ⟨rfl, rfl⟩
    · rw [if_neg hn]
      exact frame_cells s _

theorem ary_reverse_mirror (w : World α) (a : Ary α) (hm : a.Mirror) :
    (ary_reverse w a).a.Mirror :=
  ⟨hm.1.trans (Fn.ary_reverse_frame w a.s).1.symm, hm.2.trans (Fn.ary_reverse_frame w a.s).2.symm⟩

theorem ary_swap_mirror (w : World α) (a : Ary α) (i j : Nat) (hm : a.Mirror) :
    (ary_swap w a i j).a.Mirror :=
  ⟨hm.1.trans (Fn.ary_swap_frame w a.s i j).1.symm,
   hm.2.trans (Fn.ary_swap_frame w a.s i j).2.symm⟩

/-! ## Facts about `ma_splice` without a destructor -/

/-- The capacity `ma_grow` requests when it has to allocate is enough and a `size_t`, for
sizes below `2 ^ 51`. -/
theorem maGrowAlloc_room (s : Mutarrb α) (extra : Nat) (hb : s.len + extra < 2 ^ 51)
    (hg : s.alloc < s.len + extra) :
    s.len + extra ≤ Fn.maGrowAlloc s extra ∧ Fn.maGrowAlloc s extra < 2 ^ 64 := by
  have e1 : toDouble s.alloc = s.alloc := toDouble_exact _ (by omega)
  have e2 : toDouble (3 * s.alloc) = 3 * s.alloc := toDouble_exact _ (by omega)
  have e3 : size_t (s.len + extra) = s.len + extra := by
    unfold size_t SIZE_MOD
    exact Nat.mod_eq_of_lt (by omega)
  have e4 : toDouble (s.len + extra) = s.len + extra := toDouble_exact _ (by omega)
  unfold Fn.maGrowAlloc
  rw [e1, e2, e3, e4]
  unfold doubleToSize SIZE_MOD
  split
  · omega
  · rw [Nat.mod_eq_of_lt (by omega)]
    omega

/-- What `(ma_grow)` leaves behind when the allocator does not fail, for sizes below
`2 ^ 51`. -/
theorem Fn.ma_grow_post (w : World α) (s : Mutarrb α) (extra : Nat)
    (hc : s.cells.length = s.alloc) (hb : s.len + extra < 2 ^ 51)
    (hw : ∀ n p k sz, (w.xrealloc n p k sz).1 ≠ 0) :
    (Fn.ma_grow w s extra).ret = 1 ∧
      (Fn.ma_grow w s extra).s.len = s.len ∧
      s.len + extra ≤ (Fn.ma_grow w s extra).s.alloc ∧
      (Fn.ma_grow w s extra).s.cells.length = (Fn.ma_grow w s extra).s.alloc ∧
      (Fn.ma_grow w s extra).s.cells.take s.alloc = s.cells ∧
      (s.alloc < s.len + extra → (Fn.ma_grow w s extra).s.buf ≠ NULL) ∧
      (s.len + extra ≤ s.alloc → (Fn.ma_grow w s extra).s.buf = s.buf) := by
  have hsz : size_t (s.len + extra) = s.len + extra := by
    unfold size_t SIZE_MOD
    exact Nat.mod_eq_of_lt (by omega)
  by_cases hf : size_t (s.len + extra) ≤ s.alloc
  · rw [Fn.ma_grow_fits w s extra hf]
    rw [hsz] at hf
    refine ⟨rfl, rfl, hf, hc, ?_, fun h => absurd hf (by omega), fun _ => rfl⟩
    show s.cells.take s.alloc = s.cells
    rw [← hc, List.take_length]
  · have hn : (ma_xrealloc w s.buf (Fn.maGrowAlloc s extra) s.sz).2.1 ≠ NULL :=
      fun h => hw _ _ _ _ ((ma_xrealloc_null_iff w _ _ _).mp h)
    rw [Fn.ma_grow_block w s extra hf hn]
    rw [hsz] at hf
    have hroom := maGrowAlloc_room s extra hb (by omega)
    refine ⟨rfl, rfl, hroom.1, ?_, ?_, fun _ => hn, fun h => absurd h (by omega)⟩
    · show (resize s.cells (Fn.maGrowAlloc s extra) _).length = Fn.maGrowAlloc s extra
      exact length_resize _ _ _
    · show (resize s.cells (Fn.maGrowAlloc s extra) _).take s.alloc = s.cells
      rw [take_resize _ _ _ _ (by omega) (by omega), ← hc, List.take_length]

/-- The function `(ma_splice)` on a mutarr without destructor, in terms of its growth
step, the position `P` and the clamped count `R`. -/
theorem Fn.ma_splice_nodtor (w : World α) (s : Mutarrb α) (offset : Int) (rlen : Nat)
    (data : List α) (hd : s.dtor = none) :
    Fn.ma_splice w s offset rlen data =
      if min rlen (s.len - ma_i2pos offset s.len) ≠ data.length then
        if min rlen (s.len - ma_i2pos offset s.len) < data.length ∧
            (Fn.maSpliceGrow w s (min rlen (s.len - ma_i2pos offset s.len)) data.length).ret = 0
        then
          ⟨(Fn.maSpliceGrow w s (min rlen (s.len - ma_i2pos offset s.len)) data.length).w,
           (Fn.maSpliceGrow w s (min rlen (s.len - ma_i2pos offset s.len)) data.length).s, NULL⟩
        else
          ⟨(Fn.maSpliceGrow w s (min rlen (s.len - ma_i2pos offset s.len)) data.length).w,
           { (Fn.maSpliceGrow w s (min rlen (s.len - ma_i2pos offset s.len)) data.length).s with
             cells :=
               blockWrite
                 (memmove
                   (Fn.maSpliceGrow w s (min rlen (s.len - ma_i2pos offset s.len))
                     data.length).s.cells
                   (ma_i2pos offset s.len + data.length)
                   (ma_i2pos offset s.len + min rlen (s.len - ma_i2pos offset s.len))
                   ((Fn.maSpliceGrow w s (min rlen (s.len - ma_i2pos offset s.len))
                     data.length).s.len - ma_i2pos offset s.len
                     - min rlen (s.len - ma_i2pos offset s.len)))
                 (ma_i2pos offset s.len) data
             len := size_t
               ((Fn.maSpliceGrow w s (min rlen (s.len - ma_i2pos offset s.len))
                 data.length).s.len - min rlen (s.len - ma_i2pos offset s.len) + data.length) },
           (Fn.maSpliceGrow w s (min rlen (s.len - ma_i2pos offset s.len))
             data.length).s.buf.add (ma_i2pos offset s.len)⟩
      else
        ⟨w,
         { s with
           cells := blockWrite s.cells (ma_i2pos offset s.len) data
           len := size_t (s.len - min rlen (s.len - ma_i2pos offset s.len) + data.length) },
         s.buf.add (ma_i2pos offset s.len)⟩ := by
  cases s with
  | mk alloc len sz buf ctor dtor userp cmp tostr cells =>
    simp only at hd
    subst hd
    unfold Fn.ma_splice Fn.maSpliceGrow
    simp only [clamp_rlen]

theorem take_of_take_eq (G cells : List α) (n k : Nat) (h : G.take n = cells) (hk : k ≤ n) :
    G.take k = cells.take k := by
  rw [← h, List.take_take, min_eq_left hk]

/-- What the growth step of `(ma_splice)` leaves behind when elements are added and the
allocator does not fail, for sizes below `2 ^ 51`. -/
theorem Fn.maSpliceGrow_post (w : World α) (s : Mutarrb α) (R dlen : Nat)
    (hlen : s.len ≤ s.alloc) (hc : s.cells.length = s.alloc)
    (hnull : s.buf = NULL ↔ s.alloc = 0) (hR : R ≤ s.len) (hb : s.len + dlen < 2 ^ 51)
    (hdata : 1 ≤ dlen) (hw : ∀ n p k sz, (w.xrealloc n p k sz).1 ≠ 0) :
    (Fn.maSpliceGrow w s R dlen).ret = 1 ∧
      (Fn.maSpliceGrow w s R dlen).s.len = s.len ∧
      s.len - R + dlen ≤ (Fn.maSpliceGrow w s R dlen).s.alloc ∧
      (Fn.maSpliceGrow w s R dlen).s.cells.length = (Fn.maSpliceGrow w s R dlen).s.alloc ∧
      (Fn.maSpliceGrow w s R dlen).s.cells.take s.alloc = s.cells ∧
      (Fn.maSpliceGrow w s R dlen).s.buf ≠ NULL ∧
      s.alloc ≤ (Fn.maSpliceGrow w s R dlen).s.alloc := by
  unfold Fn.maSpliceGrow
  by_cases hlt : R < dlen
  · rw [if_pos hlt]
    obtain ⟨p1, p2, p3, p4, p5, p6, p7⟩ := Fn.ma_grow_post w s (dlen - R) hc (by omega) hw
    refine ⟨p1, p2, by omega, p4, p5, ?_, ?_⟩
    · by_cases hg : s.alloc < s.len + (dlen - R)
      · exact p6 hg
      · rw [p7 (by omega)]
        intro h0
        have := hnull.mp h0
        omega
    · have hl := congrArg List.length p5
      rw [List.length_take, hc] at hl
      omega
  · rw [if_neg hlt]
    refine ⟨rfl, rfl, ?_, hc, ?_, ?_, le_refl _⟩
    · show s.len - R + dlen ≤ s.alloc
      omega
    · show s.cells.take s.alloc = s.cells
      rw [← hc, List.take_length]
    · intro h0
      have := hnull.mp h0
      show False
      omega

/-- A `(ma_splice)` that adds at least one element to a mutarr without destructor, with
an allocator that does not fail and sizes below `2 ^ 51`. -/
theorem Fn.ma_splice_ok (w : World α) (s : Mutarrb α) (offset : Int) (rlen : Nat)
    (data : List α) (hd : s.dtor = none) (hlen : s.len ≤ s.alloc)
    (hc : s.cells.length = s.alloc) (hnull : s.buf = NULL ↔ s.alloc = 0)
    (hP : ma_i2pos offset s.len ≤ s.len) (hb : s.len + data.length < 2 ^ 51)
    (hdata : 1 ≤ data.length) (hw : ∀ n p k sz, (w.xrealloc n p k sz).1 ≠ 0) :
    (Fn.ma_splice w s offset rlen data).ret ≠ NULL ∧
      (Fn.ma_splice w s offset rlen data).s.len
        = s.len - min rlen (s.len - ma_i2pos offset s.len) + data.length ∧
      (Fn.ma_splice w s offset rlen data).s.cells.take
          (s.len - min rlen (s.len - ma_i2pos offset s.len) + data.length)
        = s.cells.take (ma_i2pos offset s.len) ++ data
          ++ (s.cells.take s.len).drop
              (ma_i2pos offset s.len + min rlen (s.len - ma_i2pos offset s.len)) := by
  rw [Fn.ma_splice_nodtor w s offset rlen data hd]
  have hR : min rlen (s.len - ma_i2pos offset s.len) ≤ s.len - ma_i2pos offset s.len :=
    min_le_right _ _
  generalize ma_i2pos offset s.len = P at hP hR ⊢
  generalize min rlen (s.len - P) = R at hR ⊢
  have hsz : ∀ n, n ≤ s.len - R + data.length → size_t n = n := by
    intro n hn
    unfold size_t SIZE_MOD
    exact Nat.mod_eq_of_lt (by omega)
  by_cases hne : R ≠ data.length
  · rw [if_pos hne]
    obtain ⟨g1, g2, g3, g4, g5, g6, g7⟩ :=
      Fn.maSpliceGrow_post w s R data.length hlen hc hnull (by omega) hb hdata hw
    rw [if_neg (fun h => absurd (g1.symm.trans h.2) (by decide))]
    refine ⟨add_ne_null _ P g6, ?_, ?_⟩
    · show size_t ((Fn.maSpliceGrow w s R data.length).s.len - R + data.length) = _
      rw [g2]
      exact hsz _ (le_refl _)
    · show (blockWrite (memmove (Fn.maSpliceGrow w s R data.length).s.cells (P + data.length)
          (P + R) ((Fn.maSpliceGrow w s R data.length).s.len - P - R)) P data).take
            (s.len - R + data.length) = _
      rw [g2]
      have hsc := splice_cells (Fn.maSpliceGrow w s R data.length).s.cells
        (Fn.maSpliceGrow w s R data.length).s.cells data s.len P R hP hR
        (by omega) (by omega) rfl rfl rfl
      have e1 := take_of_take_eq _ _ _ P g5 (by omega)
      have e2 := take_of_take_eq _ _ _ s.len g5 hlen
      rw [e1, e2] at hsc
      by_cases hPl : P < s.len
      · rw [if_pos ⟨hne, hPl⟩] at hsc
        exact hsc
      · rw [if_neg (fun h => hPl h.2)] at hsc
        have h0 : s.len - P - R = 0 := by omega
        rw [h0, memmove_zero]
        exact hsc
  · rw [if_neg hne]
    have hRd : R = data.length := not_not.mp hne
    refine ⟨add_ne_null _ P ?_, ?_, ?_⟩
    · intro h0
      have := hnull.mp h0
      omega
    · show size_t (s.len - R + data.length) = _
      exact hsz _ (le_refl _)
    · show (blockWrite s.cells P data).take (s.len - R + data.length) = _
      have hsc := splice_cells s.cells s.cells data s.len P R hP hR
        (by omega) (by omega) rfl rfl rfl
      rw [if_neg (fun h => h.1 hRd)] at hsc
      exact hsc

theorem Fn.ary_grow_succeeds (w : World α) (s : Aryb α) (extra : Nat)
    (hw : ∀ n p k sz, (w.xrealloc n p k sz).1 ≠ 0) : (Fn.ary_grow w s extra).ret ≠ 0 := by
  by_cases hf : size_t (s.len + extra) ≤ s.alloc
  · rw [Fn.ary_grow_fits w s extra hf]
    simp
  · have hn : (ary_xrealloc w s.buf (Fn.growAlloc s extra) s.sz).2.1 ≠ NULL :=
      fun h => hw _ _ _ _ ((xrealloc_null_iff w _ _ _).mp h)
    rw [Fn.ary_grow_block w s extra hf hn]
    simp

/-- With an allocator that does not fail, an `ary_splice` that adds at least one element
to a well-formed array returns 1, for sizes below `2 ^ 53`. -/
theorem ary_splice_succeeds (w : World α) (a : Ary α) (pos rlen : Nat) (data : List α)
    (hwf : a.WF) (hb : a.s.len + data.length < 2 ^ 53) (hdata : 1 ≤ data.length)
    (hw : ∀ n p k sz, (w.xrealloc n p k sz).1 ≠ 0) :
    (ary_splice w a pos rlen data).ret = 1 := by
  obtain ⟨_, _, h3, h4, h5, h6⟩ := hwf
  have hok : ¬ (data.length > min rlen (a.s.len - min pos a.s.len) ∧
      (Fn.spliceGrow w a.s pos rlen data.length).ret = 0) := by
    intro h
    have h0 := h.2
    unfold Fn.spliceGrow at h0
    rw [if_pos h.1] at h0
    exact Fn.ary_grow_succeeds w a.s _ hw h0
  obtain ⟨_, _, _, g4, _, _, _, g8, _⟩ :=
    Fn.spliceGrow_post w a.s pos rlen data.length h3 h4 h6 h5 hb hok
  have hne : (Fn.ary_splicep w a.s pos rlen data.length).ret ≠ NULL := by
    rw [Fn.ary_splicep_success w a.s pos rlen data.length hok]
    show (Fn.spliceGrow w a.s pos rlen data.length).s.buf.add (min pos a.s.len) ≠ NULL
    apply add_ne_null
    intro h0
    have := g8.mp h0
    omega
  unfold ary_splice
  rw [ary_splicep_ptr w a pos rlen data.length hne]
  simp only
  rw [if_pos hne]

/-! ## The claims -/

/-- C1: `ary_splice(ary, pos, rlen, data, dlen)` on a well-formed array holding `xs`
of length `L`, for any `pos` and `rlen` and any `data` of `dlen` elements with
`L + dlen` below `2 ^ 53`. With `P = min pos L` and `R = min rlen (L - P)`, whenever it
returns 1 the array holds `take P xs ++ data ++ drop (P + R) xs`; the new length (of
the list, of `ary->s.len` and of `ary->len`) is `L - R + dlen`; the elements before
`P` and those originally at `P + R` and after keep their values and order. -/
theorem ary_splice_contents (w : World α) (a : Ary α) (pos rlen : Nat) (data : List α)
    (hwf : a.WF) (hb : a.s.len + data.length < 2 ^ 53)
    (hret : (ary_splice w a pos rlen data).ret = 1) :
    (ary_splice w a pos rlen data).a.elems
        = a.elems.take (min pos a.s.len) ++ data
          ++ a.elems.drop (min pos a.s.len + min rlen (a.s.len - min pos a.s.len)) ∧
      (ary_splice w a pos rlen data).a.elems.length
        = a.s.len - min rlen (a.s.len - min pos a.s.len) + data.length ∧
      (ary_splice w a pos rlen data).a.s.len
        = a.s.len - min rlen (a.s.len - min pos a.s.len) + data.length ∧
      (ary_splice w a pos rlen data).a.len
        = a.s.len - min rlen (a.s.len - min pos a.s.len) + data.length ∧
      (ary_splice w a pos rlen data).a.elems.take (min pos a.s.len)
        = a.elems.take (min pos a.s.len) ∧
      (ary_splice w a pos rlen data).a.elems.drop (min pos a.s.len + data.length)
        = a.elems.drop (min pos a.s.len + min rlen (a.s.len - min pos a.s.len)) := by
  have h := ary_splice_ok w a pos rlen data hwf hb hret
  have hl := elems_length _ h.2.2.2
  have hxs := elems_length a hwf
  have hP : (a.elems.take (min pos a.s.len)).length = min pos a.s.len := by
    rw [List.length_take, hxs]
    exact min_eq_left (min_le_right _ _)
  refine ⟨h.1, by rw [hl, h.2.1], h.2.1, h.2.2.1, ?_, ?_⟩
  · rw [h.1, List.append_assoc]
    exact List.take_left' hP
  · rw [h.1]
    apply List.drop_left'
    rw [List.length_append, hP]

/-- C1 (witness): replacing the middle element of `[10, 20, 30]` by `[7, 8, 9]`, which
makes the block grow. -/
theorem ary_splice_contents_witness :
    (ary_splice okWorld ary3 1 1 [7, 8, 9]).a.elems = [10, 7, 8, 9, 30] ∧
      (ary_splice okWorld ary3 1 1 [7, 8, 9]).a.len = 5 :=
  have h := ary_splice_contents okWorld ary3 1 1 [7, 8, 9] (by decide) (by decide)
    (by decide)
  ⟨h.1.trans (by decide), h.2.2.2.1.trans (by decide)⟩

/-- C2: when `alen` exceeds the clamped remove count, the array needs more room than
it has and the allocator answers the call made inside `ary_grow` with `NULL`,
`ary_splicep` returns `NULL`; `s` (so `len`, `alloc`, `buf` and every slot of the
block) and the typed `len`, `buf` and `val` are as before, only the scratch member
`ptr` receives the `NULL`; the call log grew by that one allocator call, so no
destructor ran. -/
theorem ary_splicep_grow_failure (w : World α) (a : Ary α) (pos rlen alen : Nat)
    (hgt : alen > min rlen (a.s.len - min pos a.s.len))
    (hneed : a.s.alloc < size_t (a.s.len + (alen - min rlen (a.s.len - min pos a.s.len))))
    (hfail : ∀ p n sz, (w.xrealloc w.calls p n sz).1 = 0) :
    (ary_splicep w a pos rlen alen).ret = NULL ∧
      (ary_splicep w a pos rlen alen).a = { a with ptr := NULL } ∧
      (ary_splicep w a pos rlen alen).w.trace =
        w.trace ++ [Event.xrealloc a.s.buf
          (Fn.growAlloc a.s (alen - min rlen (a.s.len - min pos a.s.len))) a.s.sz] := by
  have hgrow : ¬ size_t (a.s.len + (alen - min rlen (a.s.len - min pos a.s.len)))
      ≤ a.s.alloc := by omega
  have hg := Fn.ary_grow_null w a.s _ hgrow ((xrealloc_null_iff _ _ _ _).mpr (hfail _ _ _))
  have h0 : (Fn.ary_grow w a.s (alen - min rlen (a.s.len - min pos a.s.len))).ret = 0 := by
    rw [hg]
  unfold ary_splicep
  rw [Fn.ary_splicep_fail w a.s pos rlen alen hgt h0, hg]
  simp only
  rw [if_neg (by simp)]
  exact ⟨rfl, rfl, rfl⟩

/-- C2 (witness): inserting two elements at position 1 of the three-element array
whose block has four slots, with a destructor set and a failing allocator. -/
theorem ary_splicep_grow_failure_witness :
    (ary_splicep failWorld { ary3 with s := { ary3.s with dtor := some (fun x _ => x) } }
        1 1 3).ret = NULL ∧
      (ary_splicep failWorld { ary3 with s := { ary3.s with dtor := some (fun x _ => x) } }
        1 1 3).a.s.cells = [10, 20, 30, 0] :=
  have h := ary_splicep_grow_failure failWorld
    { ary3 with s := { ary3.s with dtor := some (fun x _ => x) } } 1 1 3
    (by decide) (by decide) (fun _ _ _ => rfl)
  ⟨h.1, congrArg (fun x => x.s.cells) h.2.1⟩

/-- C3 (evaluation at the failing input): right after `ary_init(ary, 0)` the array has
no buffer, and `ary_splice(ary, pos, rlen, data, 0)` returns 0 for every `pos` and
`rlen` although nothing was to be added and the allocator was never called: the world
is the one before `ary_init`. -/
theorem ary_splice_fresh_returns_zero (sizeof : Nat) (w : World α) (a : Ary α)
    (pos rlen : Nat) :
    (ary_init sizeof w a 0).ret = 1 ∧
      (ary_splice (ary_init sizeof w a 0).w (ary_init sizeof w a 0).a pos rlen []).ret = 0 ∧
      (ary_splice (ary_init sizeof w a 0).w (ary_init sizeof w a 0).a pos rlen []).w = w := by
  have hi : ary_init sizeof w a 0 =
      ⟨w, { a with s := zeroAryb sizeof, len := 0, buf := NULL }, 1⟩ := by
    unfold ary_init ary_grow
    rw [Fn.ary_grow_fits w _ 0 (by simp [size_t])]
    rfl
  rw [hi]
  have hp : Fn.ary_splicep w (zeroAryb sizeof : Aryb α) pos rlen 0 =
      ⟨w, zeroAryb sizeof, NULL⟩ := by
    unfold Fn.ary_splicep
    simp only [clamp_pos, clamp_rlen]
    simp [zeroAryb, Ptr.add, NULL, size_t]
  unfold ary_splice ary_splicep
  simp only [List.length_nil]
  rw [hp]
  simp

/-- C4: `ary_push` appends. For a well-formed array holding `xs` whose capacity, when
the array is full, can be doubled within `size_t`: if `ary_push(ary, v)` returns 1 the
array holds `xs ++ [v]`, both `ary->len` and `ary->s.len` are `|xs| + 1` and the
earlier elements are unchanged. In particular, for every allocator, pushing 10, 20, 30
onto an array initialised with hint 0 gives, when the three pushes return 1, length 3
and elements `[10, 20, 30]`. -/
theorem ary_push_appends :
    (∀ (α : Type) (w : World α) (a : Ary α) (v : α), a.WF →
      (a.s.len = a.s.alloc → 2 * toDouble a.s.alloc < 2 ^ 64) →
      (ary_push w a v).ret = 1 →
        (ary_push w a v).a.elems = a.elems ++ [v] ∧
        (ary_push w a v).a.len = a.elems.length + 1 ∧
        (ary_push w a v).a.s.len = a.elems.length + 1 ∧
        (ary_push w a v).a.elems.take a.elems.length = a.elems) ∧
    (∀ (sizeof : Nat) (w : World Int) (a : Ary Int),
      (ary_push (ary_init sizeof w a 0).w (ary_init sizeof w a 0).a 10).ret = 1 →
      (ary_push (ary_push (ary_init sizeof w a 0).w (ary_init sizeof w a 0).a 10).w
        (ary_push (ary_init sizeof w a 0).w (ary_init sizeof w a 0).a 10).a 20).ret = 1 →
      (ary_push
        (ary_push (ary_push (ary_init sizeof w a 0).w (ary_init sizeof w a 0).a 10).w
          (ary_push (ary_init sizeof w a 0).w (ary_init sizeof w a 0).a 10).a 20).w
        (ary_push (ary_push (ary_init sizeof w a 0).w (ary_init sizeof w a 0).a 10).w
          (ary_push (ary_init sizeof w a 0).w (ary_init sizeof w a 0).a 10).a 20).a
        30).ret = 1 →
      (ary_push
        (ary_push (ary_push (ary_init sizeof w a 0).w (ary_init sizeof w a 0).a 10).w
          (ary_push (ary_init sizeof w a 0).w (ary_init sizeof w a 0).a 10).a 20).w
        (ary_push (ary_push (ary_init sizeof w a 0).w (ary_init sizeof w a 0).a 10).w
          (ary_push (ary_init sizeof w a 0).w (ary_init sizeof w a 0).a 10).a 20).a
        30).a.elems = [10, 20, 30] ∧
      (ary_push
        (ary_push (ary_push (ary_init sizeof w a 0).w (ary_init sizeof w a 0).a 10).w
          (ary_push (ary_init sizeof w a 0).w (ary_init sizeof w a 0).a 10).a 20).w
        (ary_push (ary_push (ary_init sizeof w a 0).w (ary_init sizeof w a 0).a 10).w
          (ary_push (ary_init sizeof w a 0).w (ary_init sizeof w a 0).a 10).a 20).a
        30).a.len = 3) := by
  constructor
  · intro α w a v hwf hdef hret
    have hp := ary_push_ok w a v hwf hdef hret
    rw [elems_length a hwf]
    refine ⟨hp.2.1, hp.2.2.2, hp.2.2.1, ?_⟩
    rw [hp.2.1]
    exact List.take_left' (elems_length a hwf)
  · intro sizeof w a
    rw [ary_init_zero]
    intro h1 h2 h3
    have small : ∀ n : Nat, n < 2 ^ 53 → 2 * toDouble n < 2 ^ 64 := fun n hn => by
      rw [toDouble_exact n hn]
      omega
    have hwf0 : ({ a with s := zeroAryb sizeof, len := 0, buf := NULL } : Ary Int).WF := by
      simp [Ary.WF, zeroAryb, SIZE_MOD]
    have p1 := ary_push_ok w _ 10 hwf0 (fun h => by rw [← h]; exact small _ (by simp [zeroAryb]))
      h1
    have p2 := ary_push_ok _ _ 20 p1.1 (fun h => by
      rw [← h, p1.2.2.1]; exact small _ (by simp [zeroAryb])) h2
    have p3 := ary_push_ok _ _ 30 p2.1 (fun h => by
      rw [← h, p2.2.2.1, p1.2.2.1]; exact small _ (by simp [zeroAryb])) h3
    refine ⟨?_, ?_⟩
    · rw [p3.2.1, p2.2.1, p1.2.1]
      simp [Ary.elems, zeroAryb]
    · rw [p3.2.2.2, p2.2.2.1, p1.2.2.1]
      simp [zeroAryb]

/-- C4 (witness): the scenario of the test `ary_push.c` with an allocator that always
succeeds, from the second part of the statement, and its last push as an instance of
the first part. -/
theorem ary_push_appends_witness :
    ((ary_push (ary_push (ary_push okWorld (ary_init 4 okWorld rawAry 0).a 10).w
          (ary_push okWorld (ary_init 4 okWorld rawAry 0).a 10).a 20).w
        (ary_push (ary_push okWorld (ary_init 4 okWorld rawAry 0).a 10).w
          (ary_push okWorld (ary_init 4 okWorld rawAry 0).a 10).a 20).a 30).a.elems
        = [10, 20, 30] ∧
      (ary_push (ary_push (ary_push okWorld (ary_init 4 okWorld rawAry 0).a 10).w
          (ary_push okWorld (ary_init 4 okWorld rawAry 0).a 10).a 20).w
        (ary_push (ary_push okWorld (ary_init 4 okWorld rawAry 0).a 10).w
          (ary_push okWorld (ary_init 4 okWorld rawAry 0).a 10).a 20).a 30).a.len = 3) ∧
    (ary_push (ary_push (ary_push okWorld (ary_init 4 okWorld rawAry 0).a 10).w
        (ary_push okWorld (ary_init 4 okWorld rawAry 0).a 10).a 20).w
      (ary_push (ary_push okWorld (ary_init 4 okWorld rawAry 0).a 10).w
        (ary_push okWorld (ary_init 4 okWorld rawAry 0).a 10).a 20).a 30).a.elems
      = [10, 20] ++ [30] :=
  ⟨ary_push_appends.2 4 okWorld rawAry (by decide) (by decide) (by decide),
   (ary_push_appends.1 Int
    (ary_push (ary_push okWorld (ary_init 4 okWorld rawAry 0).a 10).w
      (ary_push okWorld (ary_init 4 okWorld rawAry 0).a 10).a 20).w
    (ary_push (ary_push okWorld (ary_init 4 okWorld rawAry 0).a 10).w
      (ary_push okWorld (ary_init 4 okWorld rawAry 0).a 10).a 20).a 30
    (by decide) (by decide) (by decide)).1⟩

/-- C5: `ary_push` on a full array (`len == alloc`, fewer than `SIZE_MAX` elements)
when the allocator answers the next call with `NULL`: it returns 0 and the array is
exactly as before, while the world has seen that one allocator call and nothing
else. -/
theorem ary_push_failure_atomic (w : World α) (a : Ary α) (v : α)
    (hfull : a.s.len = a.s.alloc) (hmax : a.s.len + 1 < 2 ^ 64)
    (hfail : ∀ p n sz, (w.xrealloc w.calls p n sz).1 = 0) :
    (ary_push w a v).ret = 0 ∧ (ary_push w a v).a = a ∧
      (ary_push w a v).w.trace =
        w.trace ++ [Event.xrealloc a.s.buf (Fn.growAlloc a.s 1) a.s.sz] := by
  have hgrow : ¬ size_t (a.s.len + 1) ≤ a.s.alloc := by
    unfold size_t SIZE_MOD
    rw [Nat.mod_eq_of_lt hmax]
    omega
  have hn : (ary_xrealloc w a.s.buf (Fn.growAlloc a.s 1) a.s.sz).2.1 = NULL :=
    (xrealloc_null_iff _ _ _ _).mpr (hfail _ _ _)
  unfold ary_push ary_grow
  rw [if_pos hfull, Fn.ary_grow_null w a.s 1 hgrow hn]
  simp only
  rw [if_neg (by simp), if_neg (by simp)]
  exact ⟨rfl, rfl, rfl⟩

/-- C5 (witness): pushing onto the full one-element array with a failing allocator. -/
theorem ary_push_failure_atomic_witness :
    (ary_push failWorld ary1 5).ret = 0 ∧ (ary_push failWorld ary1 5).a = ary1 :=
  have h := ary_push_failure_atomic failWorld ary1 5 (by decide) (by decide)
    (fun _ _ _ => rfl)
  ⟨h.1, h.2.1⟩

/-- C6: push/pop is LIFO. On a well-formed empty array, if pushing the values `vs`
(fewer than `2 ^ 53` of them) in order succeeds every time, then `|vs|` calls of
`ary_pop` with a non-NULL `ret` all return 1 and store the values of `vs` in reverse
push order, and afterwards `ary->s.len` and `ary->len` are 0. -/
theorem push_pop_lifo (w : World α) (a : Ary α) (vs : List α) (hwf : a.WF)
    (hempty : a.s.len = 0) (hN : vs.length < 2 ^ 53) (hpush : (pushAll w a vs).ret = 1) :
    (popN (pushAll w a vs).w (pushAll w a vs).a vs.length).2
        = vs.reverse.map (fun v => ((1 : Int), some v)) ∧
      (popN (pushAll w a vs).w (pushAll w a vs).a vs.length).1.2.s.len = 0 ∧
      (popN (pushAll w a vs).w (pushAll w a vs).a vs.length).1.2.len = 0 := by
  have hp := pushAll_ok w a vs hwf (by omega) hpush
  have he : a.elems = [] := by
    have := elems_length a hwf
    rw [hempty] at this
    exact List.eq_nil_of_length_eq_zero this
  rw [he] at hp
  have hq := popN_ok (pushAll w a vs).w (pushAll w a vs).a [] vs hp.1 hp.2
  have hl := elems_length _ hq.2.1
  rw [hq.2.2.1] at hl
  refine ⟨hq.1, hl.symm, ?_⟩
  rw [hq.2.1.1]
  exact hl.symm

/-- C6 (witness): pushing 10, 20, 30 onto a freshly initialised array and popping
three times. -/
theorem push_pop_lifo_witness :
    (popN (pushAll okWorld (ary_init 4 okWorld rawAry 0).a [10, 20, 30]).w
        (pushAll okWorld (ary_init 4 okWorld rawAry 0).a [10, 20, 30]).a 3).2
      = [(1, some 30), (1, some 20), (1, some 10)] :=
  (push_pop_lifo okWorld (ary_init 4 okWorld rawAry 0).a [10, 20, 30] (by decide) (by decide)
    (by decide) (by decide)).1

/-- C7: on an array with `len == 0`, `ary_pop` and `ary_shift`, with a NULL or a
non-NULL `ret`, return 0, store nothing through `ret`, and leave the array and the
world (so no destructor call is logged) exactly as they were. -/
theorem ary_pop_shift_empty (w : World α) (a : Ary α) (ret : Bool) (h : a.s.len = 0) :
    ary_pop w a ret = ⟨w, a, 0, none⟩ ∧ ary_shift w a ret = ⟨w, a, 0, none⟩ := by
  unfold ary_pop ary_shift
  simp [h]

/-- C7 (witness): popping and shifting an empty array that has a destructor set. -/
theorem ary_pop_shift_empty_witness :
    (ary_pop okWorld { rawAry with s := { rawAry.s with dtor := some (fun x _ => x) } }
        false).ret = 0 ∧
      (ary_shift okWorld { rawAry with s := { rawAry.s with dtor := some (fun x _ => x) } }
        false).w.trace = [] :=
  have h := ary_pop_shift_empty okWorld
    { rawAry with s := { rawAry.s with dtor := some (fun x _ => x) } } false rfl
  ⟨congrArg ResOut.ret h.1, congrArg (fun r => r.w.trace) h.2⟩

/-- C8: `ary_init(ary, hint)` for a `size_t` hint. If it returns 1 the array is empty,
well formed and `ary_avail` is `hint`; for `hint == 0` it returns 1 and leaves the
world, hence the allocator, untouched; if it returns 0 the array is a well-formed
empty array with `len == 0`, `alloc == 0` and `buf == NULL`. It returns nothing but 0
or 1. -/
theorem ary_init_spec (sizeof : Nat) (w : World α) (a : Ary α) (hint : Nat)
    (hh : hint < 2 ^ 64) :
    ((ary_init sizeof w a hint).ret = 1 →
        (ary_init sizeof w a hint).a.len = 0 ∧ (ary_init sizeof w a hint).a.s.len = 0 ∧
        ary_avail (ary_init sizeof w a hint).a = hint ∧
        (ary_init sizeof w a hint).a.WF) ∧
    (hint = 0 → (ary_init sizeof w a hint).ret = 1 ∧ (ary_init sizeof w a hint).w = w) ∧
    ((ary_init sizeof w a hint).ret = 0 →
        (ary_init sizeof w a hint).a.len = 0 ∧ (ary_init sizeof w a hint).a.s.len = 0 ∧
        (ary_init sizeof w a hint).a.s.alloc = 0 ∧
        (ary_init sizeof w a hint).a.s.buf = NULL ∧
        (ary_init sizeof w a hint).a.buf = NULL ∧
        (ary_init sizeof w a hint).a.WF) ∧
    ((ary_init sizeof w a hint).ret = 0 ∨ (ary_init sizeof w a hint).ret = 1) := by
  have hsz : size_t (0 + hint) = hint := by
    unfold size_t SIZE_MOD
    rw [Nat.zero_add]
    exact Nat.mod_eq_of_lt hh
  have e_len : (zeroAryb sizeof : Aryb α).len = 0 := rfl
  have e_alloc : (zeroAryb sizeof : Aryb α).alloc = 0 := rfl
  have e_buf : (zeroAryb sizeof : Aryb α).buf = NULL := rfl
  have e_cells : (zeroAryb sizeof : Aryb α).cells = [] := rfl
  have hunf : ary_init sizeof w a hint =
      if (Fn.ary_grow w (zeroAryb sizeof) hint).ret ≠ 0 then
        ⟨(Fn.ary_grow w (zeroAryb sizeof) hint).w,
         { a with s := (Fn.ary_grow w (zeroAryb sizeof) hint).s, len := 0,
                  buf := (Fn.ary_grow w (zeroAryb sizeof) hint).s.buf }, 1⟩
      else
        ⟨(Fn.ary_grow w (zeroAryb sizeof) hint).w,
         { a with s := (Fn.ary_grow w (zeroAryb sizeof) hint).s, len := 0, buf := NULL }, 0⟩ :=
    rfl
  generalize (zeroAryb sizeof : Aryb α) = s0 at e_len e_alloc e_buf e_cells hunf
  by_cases h0 : hint = 0
  · have hfit : Fn.ary_grow w s0 hint = ⟨w, s0, 1⟩ :=
      Fn.ary_grow_fits w s0 hint (by rw [e_len, hsz, h0, e_alloc])
    rw [hunf, hfit, if_pos (by simp)]
    refine ⟨fun _ => ⟨rfl, e_len, ?_, ?_⟩, fun _ => ⟨rfl, rfl⟩, fun h => ?_, Or.inr rfl⟩
    · simp [ary_avail, e_len, e_alloc, size_t, h0]
    · simp [Ary.WF, e_len, e_alloc, e_buf, e_cells, SIZE_MOD]
    · simp at h
  · have hgrow : ¬ size_t (s0.len + hint) ≤ s0.alloc := by
      rw [e_len, hsz, e_alloc]
      omega
    have hA : Fn.growAlloc s0 hint = hint := by
      unfold Fn.growAlloc
      rw [e_len, e_alloc, hsz, toDouble_zero, if_pos]
      simpa using toDouble_pos hint (by omega)
    by_cases hn : (ary_xrealloc w s0.buf (Fn.growAlloc s0 hint) s0.sz).2.1 = NULL
    · rw [hunf, Fn.ary_grow_null w s0 hint hgrow hn, if_neg (by simp)]
      refine ⟨fun h => ?_, fun h => absurd h h0, fun _ => ?_, Or.inl rfl⟩
      · simp at h
      · refine ⟨rfl, e_len, e_alloc, e_buf, rfl, ?_⟩
        simp [Ary.WF, e_len, e_alloc, e_buf, e_cells, SIZE_MOD]
    · rw [hunf, Fn.ary_grow_block w s0 hint hgrow hn, hA, if_pos (by simp)]
      refine ⟨fun _ => ⟨rfl, e_len, ?_, ?_⟩, fun h => absurd h h0, fun h => ?_, Or.inr rfl⟩
      · simp only [ary_avail, e_len, size_t, SIZE_MOD]
        rw [Nat.sub_zero, Nat.add_mod_right]
        exact Nat.mod_eq_of_lt hh
      · rw [hA] at hn
        simp only [Ary.WF, e_len, length_resize, SIZE_MOD, true_and, Nat.zero_le]
        exact ⟨⟨fun h => absurd h hn, fun h => absurd h h0⟩, hh⟩
      · simp at h

/-- C8 (witness): `ary_init(&a, 120)` with an allocator that succeeds. -/
theorem ary_init_spec_witness :
    (ary_init 4 okWorld rawAry 120).ret = 1 ∧ (ary_init 4 okWorld rawAry 120).a.len = 0 ∧
      ary_avail (ary_init 4 okWorld rawAry 120).a = 120 :=
  have h := (ary_init_spec 4 okWorld rawAry 120 (by decide)).1 (by decide)
  ⟨by decide, h.1, h.2.2.1⟩

/-- C9 (evaluation at the failing input): on an array with one element and capacity
one, `ary_grow(ary, SIZE_MAX)` computes `len + extra` as `0`, so whatever the
allocator would do it returns 1 without calling it, and the capacity stays 1 although
`len + extra` is `2 ^ 64`: the array cannot hold `extra` more elements. -/
theorem ary_grow_wraparound (w : World Int) :
    (ary_grow w ary1 (2 ^ 64 - 1)).ret = 1 ∧
      (ary_grow w ary1 (2 ^ 64 - 1)).w.calls = w.calls ∧
      (ary_grow w ary1 (2 ^ 64 - 1)).a.s.alloc = 1 ∧
      ary_avail (ary_grow w ary1 (2 ^ 64 - 1)).a = 0 ∧
      ¬ ((ary_grow w ary1 (2 ^ 64 - 1)).a.s.len + (2 ^ 64 - 1)
          ≤ (ary_grow w ary1 (2 ^ 64 - 1)).a.s.alloc) := by
  have h : Fn.ary_grow w ary1.s (2 ^ 64 - 1) = ⟨w, ary1.s, 1⟩ :=
    Fn.ary_grow_fits w ary1.s (2 ^ 64 - 1) (by decide)
  unfold ary_grow
  rw [h]
  rw [if_pos (by simp)]
  refine ⟨rfl, rfl, rfl, ?_, ?_⟩
  · show ary_avail { ary1 with s := ary1.s, buf := ary1.s.buf } = 0
    decide
  · show ¬ (ary1.s.len + (2 ^ 64 - 1) ≤ ary1.s.alloc)
    decide

/-- C11: `ary_xrealloc_builtin(ptr, nmemb, size)`, for all `nmemb` and `size`, returns `NULL`
without calling `realloc` if and only if the mathematical product `nmemb * size`
exceeds `SIZE_MAX`; otherwise it makes the one call `realloc(ptr, nmemb * size)` with
the exact product and returns its result. -/
theorem ary_xrealloc_builtin_overflow (realloc : Ptr → Nat → Ptr) (ptr : Ptr)
    (nmemb size : Nat) :
    (ary_xrealloc_builtin realloc ptr nmemb size = (NULL, []) ↔ SIZE_MAX < nmemb * size) ∧
    (nmemb * size ≤ SIZE_MAX →
      ary_xrealloc_builtin realloc ptr nmemb size
        = (realloc ptr (nmemb * size), [(ptr, nmemb * size)])) := by
  have hcond : ((nmemb ≥ MUL_NO_OVERFLOW ∨ size ≥ MUL_NO_OVERFLOW) ∧ nmemb > 0 ∧
      SIZE_MAX / nmemb < size) ↔ SIZE_MAX < nmemb * size := by
    unfold MUL_NO_OVERFLOW SIZE_MAX SIZE_MOD
    constructor
    · rintro ⟨_, hpos, hdiv⟩
      rw [Nat.mul_comm]
      exact (Nat.div_lt_iff_lt_mul hpos).mp hdiv
    · intro h
      have hpos : 0 < nmemb := by
        rcases Nat.eq_zero_or_pos nmemb with h0 | h0
        · rw [h0] at h
          simp at h
        · exact h0
      refine ⟨?_, hpos, ?_⟩
      · by_contra hc
        push_neg at hc
        have := Nat.mul_lt_mul'' hc.1 hc.2
        have h2 : (2 : Nat) ^ 32 * 2 ^ 32 = 2 ^ 64 := by norm_num
        omega
      · rw [Nat.mul_comm] at h
        exact (Nat.div_lt_iff_lt_mul hpos).mpr h
  constructor
  · constructor
    · intro h
      by_contra hno
      unfold ary_xrealloc_builtin at h
      rw [if_neg (fun hc => hno (hcond.mp hc))] at h
      have := congrArg (fun x => x.2.length) h
      simp at this
    · intro h
      unfold ary_xrealloc_builtin
      rw [if_pos (hcond.mpr h)]
  · intro h
    unfold ary_xrealloc_builtin
    rw [if_neg (fun hc => by have := hcond.mp hc; omega)]
    have : size_t (nmemb * size) = nmemb * size := by
      unfold size_t
      apply Nat.mod_eq_of_lt
      unfold SIZE_MAX at h
      unfold SIZE_MOD at h ⊢
      omega
    rw [this]

/-- C11 (witness): `2 ^ 32` members of `2 ^ 32` bytes overflow, `2 ^ 32` members of
`2 ^ 31` bytes do not although the first operand fails the half-word test. -/
theorem ary_xrealloc_builtin_overflow_witness :
    ary_xrealloc_builtin (fun p n => p.add n) NULL (2 ^ 32) (2 ^ 32) = (NULL, []) ∧
      ary_xrealloc_builtin (fun p n => p.add n) NULL (2 ^ 32) (2 ^ 31)
        = (NULL.add (2 ^ 32 * 2 ^ 31), [(NULL, 2 ^ 32 * 2 ^ 31)]) :=
  ⟨(ary_xrealloc_builtin_overflow (fun p n => p.add n) NULL (2 ^ 32) (2 ^ 32)).1.mpr
      (by decide),
   (ary_xrealloc_builtin_overflow (fun p n => p.add n) NULL (2 ^ 32) (2 ^ 31)).2
      (by decide)⟩

/-- C12: `ary_shrinktofit` on a well-formed array. If it returns 1 then `alloc == len`,
`len` and the live elements are unchanged, the array is well formed, and when
`len == 0` the buffer pointers are `NULL` and a buffer the array had was passed to
`ary_xfree`; if it returns 0 the array is exactly as before (so still well formed) and
the allocator was called once and answered `NULL`; when `alloc == len` already it
returns 1 and leaves world and array untouched. It returns nothing but 0 or 1. -/
theorem ary_shrinktofit_spec (w : World α) (a : Ary α) (hwf : a.WF) :
    ((ary_shrinktofit w a).ret = 1 →
        (ary_shrinktofit w a).a.s.alloc = (ary_shrinktofit w a).a.s.len ∧
        (ary_shrinktofit w a).a.s.len = a.s.len ∧
        (ary_shrinktofit w a).a.len = a.len ∧
        (ary_shrinktofit w a).a.elems = a.elems ∧
        (ary_shrinktofit w a).a.WF ∧
        (a.s.len = 0 →
          (ary_shrinktofit w a).a.s.buf = NULL ∧ (ary_shrinktofit w a).a.buf = NULL ∧
          (a.s.alloc ≠ 0 →
            (ary_shrinktofit w a).w.trace = w.trace ++ [Event.xfree a.s.buf]))) ∧
    ((ary_shrinktofit w a).ret = 0 →
        (ary_shrinktofit w a).a = a ∧
        (ary_shrinktofit w a).w.trace
          = w.trace ++ [Event.xrealloc a.s.buf a.s.len a.s.sz] ∧
        (w.xrealloc w.calls a.s.buf a.s.len a.s.sz).1 = 0) ∧
    (a.s.alloc = a.s.len →
        (ary_shrinktofit w a).ret = 1 ∧ (ary_shrinktofit w a).w = w ∧
        (ary_shrinktofit w a).a = a) ∧
    ((ary_shrinktofit w a).ret = 0 ∨ (ary_shrinktofit w a).ret = 1) := by
  obtain ⟨h1, h2, h3, h4, h5, h6⟩ := hwf
  have hwf : a.WF := ⟨h1, h2, h3, h4, h5, h6⟩
  have haa : ({ a with s := a.s, buf := a.s.buf } : Ary α) = a := by
    cases a
    simp only at h2
    simp [h2]
  by_cases hsame : a.s.alloc = a.s.len
  · have he : ary_shrinktofit w a = ⟨w, a, 1⟩ := by
      unfold ary_shrinktofit
      rw [Fn.ary_shrinktofit_same w a.s hsame]
      simp only
      rw [if_pos (by simp), haa]
    rw [he]
    refine ⟨fun _ => ⟨hsame, rfl, rfl, rfl, hwf, fun hl => ⟨?_, ?_, fun hne => ?_⟩⟩,
      fun h => ?_, fun _ => ⟨rfl, rfl, rfl⟩, Or.inr rfl⟩
    · exact h5.mpr (by omega)
    · show a.buf = NULL
      rw [h2]
      exact h5.mpr (by omega)
    · exact absurd (by omega) hne
    · simp at h
  · by_cases hl : a.s.len = 0
    · have he : ary_shrinktofit w a =
          ⟨ary_xfree w a.s.buf,
           { a with s := { a.s with alloc := a.s.len, buf := NULL, cells := [] }
                    buf := NULL }, 1⟩ := by
        unfold ary_shrinktofit
        rw [Fn.ary_shrinktofit_free w a.s hsame hl]
        simp only
        rw [if_pos (by simp)]
      rw [he]
      refine ⟨fun _ => ⟨rfl, rfl, rfl, ?_, ⟨h1, rfl, le_refl _, ?_, ?_, ?_⟩,
        fun _ => ⟨rfl, rfl, fun _ => rfl⟩⟩, fun h => ?_, fun h => absurd h hsame, Or.inr rfl⟩
      · simp [Ary.elems, hl]
      · show ([] : List α).length = a.s.len
        rw [hl]
        rfl
      · show (NULL = NULL) ↔ a.s.len = 0
        simp [hl]
      · show a.s.len < SIZE_MOD
        omega
      · simp at h
    · by_cases hn : (ary_xrealloc w a.s.buf a.s.len a.s.sz).2.1 = NULL
      · have he : ary_shrinktofit w a =
            ⟨(ary_xrealloc w a.s.buf a.s.len a.s.sz).1, a, 0⟩ := by
          unfold ary_shrinktofit
          rw [Fn.ary_shrinktofit_null w a.s hsame hl hn]
          simp only
          rw [if_neg (by simp)]
        rw [he]
        refine ⟨fun h => ?_, fun _ => ⟨rfl, rfl, (xrealloc_null_iff _ _ _ _).mp hn⟩,
          fun h => absurd h hsame, Or.inl rfl⟩
        simp at h
      · have he : ary_shrinktofit w a =
            ⟨(ary_xrealloc w a.s.buf a.s.len a.s.sz).1,
             { a with
               s := { a.s with
                      alloc := a.s.len
                      buf := (ary_xrealloc w a.s.buf a.s.len a.s.sz).2.1
                      cells := resize a.s.cells a.s.len
                        (ary_xrealloc w a.s.buf a.s.len a.s.sz).2.2 }
               buf := (ary_xrealloc w a.s.buf a.s.len a.s.sz).2.1 }, 1⟩ := by
          unfold ary_shrinktofit
          rw [Fn.ary_shrinktofit_block w a.s hsame hl hn]
          simp only
          rw [if_pos (by simp)]
        rw [he]
        refine ⟨fun _ => ⟨rfl, rfl, rfl, ?_, ⟨h1, rfl, le_refl _, ?_, ?_, ?_⟩,
          fun h => absurd h hl⟩, fun h => ?_, fun h => absurd h hsame, Or.inr rfl⟩
        · show (resize a.s.cells a.s.len _).take a.s.len = a.s.cells.take a.s.len
          exact take_resize _ _ _ _ (by omega) (le_refl _)
        · show (resize a.s.cells a.s.len _).length = a.s.len
          exact length_resize _ _ _
        · show ((ary_xrealloc w a.s.buf a.s.len a.s.sz).2.1 = NULL) ↔ a.s.len = 0
          exact ⟨fun h => absurd h hn, fun h => absurd h hl⟩
        · show a.s.len < SIZE_MOD
          omega
        · simp at h

/-- C12 (witness): shrinking the three-element array whose block has four slots. -/
theorem ary_shrinktofit_spec_witness :
    (ary_shrinktofit okWorld ary3).a.s.alloc = 3 ∧
      (ary_shrinktofit okWorld ary3).a.elems = [10, 20, 30] :=
  have h := (ary_shrinktofit_spec okWorld ary3 (by decide)).1 (by decide)
  ⟨h.1.trans (by decide), h.2.2.2.1.trans (by decide)⟩

/-- C14: `ary_release`, for every array. Afterwards the array is the one
`ary_init(ary, 0)` produces: `len == 0`, `alloc == 0`, `buf == NULL`, `ctor`, `dtor`
and `userp` reset, `sz` the element size again. The call log grew by one destructor
call for each of the slots `0 .. len - 1`, made on the value the slot held, when a
destructor was set (none otherwise), followed by the one call `ary_xfree(buf)` with the
old buffer. -/
theorem ary_release_spec (sizeof : Nat) (w : World α) (a : Ary α) :
    (ary_release sizeof w a).a = (ary_init sizeof w a 0).a ∧
      (ary_release sizeof w a).a.s = zeroAryb sizeof ∧
      (ary_release sizeof w a).a.len = 0 ∧ (ary_release sizeof w a).a.buf = NULL ∧
      (a.s.sz = sizeof → (ary_release sizeof w a).a.s.sz = a.s.sz) ∧
      (ary_release sizeof w a).w.trace
        = w.trace ++
          (match a.s.dtor with
           | some _ => (List.range a.s.len).map (fun i => Event.dtor i a.s.cells[i]? a.s.userp)
           | none => []) ++ [Event.xfree a.s.buf] := by
  unfold ary_release
  rw [ary_init_zero, ary_init_zero]
  exact ⟨rfl, rfl, rfl, rfl, fun h => h.symm, ary_freebuf_trace w a.s⟩

/-- C15 (counterexample): releasing the array `[5, 7]` with a destructor set calls the
destructor on slot 0 first and on slot 1 second, not in the order 1, 0. -/
theorem ary_release_order_counterexample :
    dtorSlots (ary_release 4 okWorld ary57).w.trace = [0, 1] ∧
      dtorSlots (ary_release 4 okWorld ary57).w.trace ≠ [1, 0] := by
  decide

/-- C15 (amended): for every array with a destructor set, `ary_release` (through
`ary_freebuf`) invokes the destructor on the live elements in ascending index order
`0, 1, ..., len - 1`. -/
theorem ary_release_order (sizeof : Nat) (w : World α) (a : Ary α) (d : ElemCb α)
    (hd : a.s.dtor = some d) :
    dtorSlots (ary_release sizeof w a).w.trace = dtorSlots w.trace ++ List.range a.s.len := by
  have ht : (ary_release sizeof w a).w.trace = (ary_freebuf w a.s).trace := by
    unfold ary_release
    rw [ary_init_zero]
  rw [ht, ary_freebuf_trace, hd]
  simp only
  rw [dtorSlots_append, dtorSlots_append]
  have h1 := dtorSlots_dtors (fun i => a.s.cells[i]?) a.s.userp 0 a.s.len
  simp only [Nat.zero_add] at h1
  rw [h1]
  simp [dtorSlots]

/-- C15 (witness): the order on the array `[5, 7]`. -/
theorem ary_release_order_witness :
    dtorSlots (ary_release 4 okWorld ary57).w.trace = [] ++ List.range 2 :=
  ary_release_order 4 okWorld ary57 (fun x _ => x) rfl

/-- C14 (witness): releasing the array `[5, 7]`, whose element size is 4. -/
theorem ary_release_spec_witness :
    (ary_release 4 okWorld ary57).a.s.sz = 4 ∧ (ary_release 4 okWorld ary57).a.s.alloc = 0 :=
  have h := ary_release_spec 4 okWorld ary57
  ⟨h.2.2.2.2.1 rfl, congrArg Aryb.alloc h.2.1⟩

/-- C16: `ary_splicep` on a well-formed array with a destructor set, for sizes below
`2 ^ 53`, when its growth step does not fail. With `P = min pos L` and
`R = min rlen (L - P)`, the call log after the growth step grows by exactly one
destructor call for each of the slots `P, ..., P + R - 1`, made on the value the live
element held before the call of `ary_splicep`; so the slots destructed are those and
no others, and none when `R == 0`. -/
theorem ary_splicep_destructs (w : World α) (a : Ary α) (pos rlen alen : Nat) (d : ElemCb α)
    (hwf : a.WF) (hb : a.s.len + alen < 2 ^ 53) (hd : a.s.dtor = some d)
    (hok : ¬ (alen > min rlen (a.s.len - min pos a.s.len) ∧
      (Fn.spliceGrow w a.s pos rlen alen).ret = 0)) :
    (ary_splicep w a pos rlen alen).w.trace
        = (Fn.spliceGrow w a.s pos rlen alen).w.trace ++
          (List.range (min rlen (a.s.len - min pos a.s.len))).map
            (fun k => Event.dtor (min pos a.s.len + k) a.elems[min pos a.s.len + k]?
              a.s.userp) ∧
      dtorSlots (ary_splicep w a pos rlen alen).w.trace
        = dtorSlots w.trace ++
          (List.range (min rlen (a.s.len - min pos a.s.len))).map
            (fun k => min pos a.s.len + k) ∧
      (∀ k, k < min rlen (a.s.len - min pos a.s.len) →
        ∃ e, a.elems[min pos a.s.len + k]? = some e) ∧
      (min rlen (a.s.len - min pos a.s.len) = 0 →
        dtorSlots (ary_splicep w a pos rlen alen).w.trace = dtorSlots w.trace) := by
  obtain ⟨h1, h2, h3, h4, h5, h6⟩ := hwf
  have hg := Fn.spliceGrow_post w a.s pos rlen alen h3 h4 h6 h5 hb hok
  obtain ⟨g1, g2, g3, g4, g5, g6, g7, g8, g9⟩ := hg
  have hP : min pos a.s.len ≤ a.s.len := min_le_right _ _
  have hR : min rlen (a.s.len - min pos a.s.len) ≤ a.s.len - min pos a.s.len :=
    min_le_right _ _
  have hcell : ∀ k, k < min rlen (a.s.len - min pos a.s.len) →
      (Fn.spliceGrow w a.s pos rlen alen).s.cells[min pos a.s.len + k]?
        = a.elems[min pos a.s.len + k]? := by
    intro k hk
    rw [elems_getElem a _ (by omega)]
    have : (List.take a.s.alloc (Fn.spliceGrow w a.s pos rlen alen).s.cells)[min pos a.s.len + k]?
        = a.s.cells[min pos a.s.len + k]? := by rw [g6]
    rw [List.getElem?_take, if_pos (by omega)] at this
    exact this
  have htr : (ary_splicep w a pos rlen alen).w.trace
      = (Fn.spliceGrow w a.s pos rlen alen).w.trace ++
        (List.range (min rlen (a.s.len - min pos a.s.len))).map
          (fun k => Event.dtor (min pos a.s.len + k) a.elems[min pos a.s.len + k]?
            a.s.userp) := by
    rw [ary_splicep_world, Fn.ary_splicep_success w a.s pos rlen alen hok]
    unfold Fn.spliceTail
    simp only
    rw [g2, hd]
    simp only
    by_cases hR0 : min rlen (a.s.len - min pos a.s.len) = 0
    · rw [if_neg (not_not.mpr hR0), hR0]
      simp
    · rw [if_pos hR0, dtorLoop_trace, g3]
      congr 1
      apply List.map_congr_left
      intro k hk
      rw [hcell k (List.mem_range.mp hk)]
  have hsl : dtorSlots (Fn.spliceGrow w a.s pos rlen alen).w.trace = dtorSlots w.trace := by
    rcases spliceGrow_trace w a.s pos rlen alen with h | ⟨n, h⟩
    · rw [h]
    · rw [h, dtorSlots_append]
      simp [dtorSlots]
  have hslots : dtorSlots (ary_splicep w a pos rlen alen).w.trace
      = dtorSlots w.trace ++
        (List.range (min rlen (a.s.len - min pos a.s.len))).map
          (fun k => min pos a.s.len + k) := by
    rw [htr, dtorSlots_append, hsl,
      dtorSlots_dtors (fun k => a.elems[min pos a.s.len + k]?) a.s.userp]
  refine ⟨htr, hslots, fun k hk => ?_, fun h0 => ?_⟩
  · have hlt : min pos a.s.len + k < a.s.cells.length := by omega
    refine ⟨a.s.cells[min pos a.s.len + k], ?_⟩
    rw [elems_getElem a _ (by omega)]
    exact List.getElem?_eq_getElem hlt
  · rw [hslots, h0]
    simp

/-- C16 (witness): removing the two elements of `[5, 7]` and adding one slot. -/
theorem ary_splicep_destructs_witness :
    dtorSlots (ary_splicep okWorld ary57 0 2 1).w.trace = [0, 1] :=
  (ary_splicep_destructs okWorld ary57 0 2 1 (fun x _ => x) (by decide) (by decide) rfl
    (by decide)).2.1.trans (by decide)

/-- C19 (evaluation at the failing input): on the array `[5, 7]`,
`ary_rindex(&a, &i, 1, &seven, NULL)` returns 1 with `i == 0` although the element at
position 0 is 5 and the one that matches is at position 1; and on the array `[7]`,
`ary_rindex(&a, &i, 0, &seven, NULL)` returns 0 although the element at position 0
matches. -/
theorem ary_rindex_off_by_one :
    ary57.elems = [5, 7] ∧
      (ary_rindex ary57 true 1 NULL 7 none).ret = 1 ∧
      (ary_rindex ary57 true 1 NULL 7 none).out = some 0 ∧
      ary1.elems = [7] ∧
      (ary_rindex ary1 true 0 NULL 7 none).ret = 0 := by
  decide

/-- C20 (evaluation at the failing input): on the mutarr `[7, 5, 7]` the macro
`ma_rindex(&ma, 0, &seven)` returns 0, the first occurrence, while the function
`(ma_rindex)` it was meant to call returns 2, the last one. -/
theorem ma_rindex_returns_first :
    ma757.s.cells.take ma757.s.len = [7, 5, 7] ∧ ma_rindex ma757 0 7 = 0 ∧
      Fn.ma_rindex ma757.s 0 7 = 2 := by
  decide

/-- C17 (evaluation at the failing input): on the full mutarr `[7, 5, 7]` with a
destructor set, replacing the first element by three new ones while the allocator
fails makes `ma_splice` return `NULL` with `len` and `alloc` unchanged, but only after
the destructor has been called on slot 0, which it zeroed: the array still counts the
destructed element as live. -/
theorem ma_splice_destructs_before_failing :
    (ma_splice failWorld ma757 0 1 [1, 2, 3]).ret = NULL ∧
      (ma_splice failWorld ma757 0 1 [1, 2, 3]).a.s.len = 3 ∧
      (ma_splice failWorld ma757 0 1 [1, 2, 3]).a.s.alloc = 3 ∧
      dtorSlots (ma_splice failWorld ma757 0 1 [1, 2, 3]).w.trace = [0] ∧
      (ma_splice failWorld ma757 0 1 [1, 2, 3]).a.s.cells = [0, 5, 7] := by
  decide

/-- C13: `ary_splicep` on a well-formed `char`-sized array with one element in a block of
`2 ^ 53` slots, with `pos = 1`, `rlen = 0`, `alen = 2 ^ 54` and an allocator that
succeeds. Nothing wraps (`len + alen < 2 ^ 64`) and the doubled capacity `2 ^ 54` is
representable; `ary_grow` compares and doubles in `double`, where `2 ^ 54 + 1` rounds to
`2 ^ 54`, asks for `2 ^ 54` slots and returns 1; `ary_splicep` then returns a non-NULL
pointer and sets `len` to `2 ^ 54 + 1`. The array satisfies the structural invariant
before the call and not after it: `len` exceeds `alloc`. -/
theorem ary_splicep_breaks_invariant :
    aryHugeT.WF ∧ aryHugeT.s.Inv ∧ aryHugeT.s.len = 1 ∧ aryHugeT.s.alloc = 2 ^ 53 ∧
      aryHugeT.s.len + 2 ^ 54 < 2 ^ 64 ∧ 2 * aryHugeT.s.alloc < 2 ^ 64 ∧
      (Fn.ary_grow okWorld aryHugeT.s (2 ^ 54)).ret = 1 ∧
      (Fn.ary_grow okWorld aryHugeT.s (2 ^ 54)).s.alloc = 2 ^ 54 ∧
      (ary_splicep okWorld aryHugeT 1 0 (2 ^ 54)).ret ≠ NULL ∧
      (ary_splicep okWorld aryHugeT 1 0 (2 ^ 54)).a.s.len = 2 ^ 54 + 1 ∧
      (ary_splicep okWorld aryHugeT 1 0 (2 ^ 54)).a.len = 2 ^ 54 + 1 ∧
      (ary_splicep okWorld aryHugeT 1 0 (2 ^ 54)).a.s.alloc = 2 ^ 54 ∧
      ¬ (ary_splicep okWorld aryHugeT 1 0 (2 ^ 54)).a.s.Inv := by
  refine ⟨⟨rfl, rfl, by decide, List.length_replicate _ _, by decide, by decide⟩, ?_⟩
  decide

/-- Where the structural invariant does hold, within the size bounds given here:
`alloc >= len` and `buf == NULL` exactly when `alloc == 0` holds after `ary_init`,
`ary_detach` and `ary_release` whatever the array was, and it is preserved, whether the
operation succeeds or fails and whatever the allocator answers, by `ary_grow` (when the
doubled capacity is representable),
`ary_shrinktofit`, `ary_setlen`, `ary_push` and `ary_pushp` (when the array is not
full, or the doubled capacity is representable), `ary_pop`, `ary_shift`, `ary_splicep`
(when `len + alen` stays below `2 ^ 53`), `ary_insert` and `ary_unshift` (when
`len + 1` stays below `2 ^ 53`), `ary_remove` and `ary_snatch`. -/
theorem ary_invariant_preserved (α : Type) :
    (∀ (sizeof : Nat) (w : World α) (a : Ary α) (hint : Nat),
        (ary_init sizeof w a hint).a.s.Inv) ∧
    (∀ (w : World α) (a : Ary α) (extra : Nat), a.s.Inv →
        2 * toDouble a.s.alloc < 2 ^ 64 → (ary_grow w a extra).a.s.Inv) ∧
    (∀ (w : World α) (a : Ary α), a.s.Inv → (ary_shrinktofit w a).a.s.Inv) ∧
    (∀ (w : World α) (a : Ary α) (nlen : Nat), a.s.Inv → (ary_setlen w a nlen).a.s.Inv) ∧
    (∀ (w : World α) (a : Ary α) (v : α), a.s.Inv →
        (a.s.len = a.s.alloc → 2 * toDouble a.s.alloc < 2 ^ 64) →
        (ary_push w a v).a.s.Inv) ∧
    (∀ (w : World α) (a : Ary α), a.s.Inv →
        (a.s.len = a.s.alloc → 2 * toDouble a.s.alloc < 2 ^ 64) →
        (ary_pushp w a).a.s.Inv) ∧
    (∀ (w : World α) (a : Ary α) (ret : Bool), a.s.Inv → (ary_pop w a ret).a.s.Inv) ∧
    (∀ (w : World α) (a : Ary α) (ret : Bool), a.s.Inv → (ary_shift w a ret).a.s.Inv) ∧
    (∀ (w : World α) (a : Ary α) (pos rlen alen : Nat), a.s.Inv →
        a.s.len + alen < 2 ^ 53 → (ary_splicep w a pos rlen alen).a.s.Inv) ∧
    (∀ (w : World α) (a : Ary α) (pos : Nat) (v : α), a.s.Inv →
        a.s.len + 1 < 2 ^ 53 → (ary_insert w a pos v).a.s.Inv) ∧
    (∀ (w : World α) (a : Ary α) (pos : Nat), a.s.Inv → (ary_remove w a pos).a.s.Inv) ∧
    (∀ (w : World α) (a : Ary α) (v : α), a.s.Inv →
        a.s.len + 1 < 2 ^ 53 → (ary_unshift w a v).a.s.Inv) ∧
    (∀ (mix : Nat → α → α → α) (w : World α) (a : Ary α) (pos : Nat) (ret : Bool),
        a.s.Inv → (ary_snatch mix w a pos ret).a.s.Inv) ∧
    (∀ (w : World α) (a : Ary α) (size : Bool), (ary_detach w a size).a.s.Inv) ∧
    (∀ (sizeof : Nat) (w : World α) (a : Ary α), (ary_release sizeof w a).a.s.Inv) := by
  refine ⟨?_, ?_, ?_, ?_, ?_, ?_, ?_, ?_, ?_, ?_, ?_, ?_, ?_, ?_, ?_⟩
  · exact fun sizeof w a hint => ary_init_inv sizeof w a hint
  · intro w a extra hinv hdef
    rw [(ary_grow_s w a extra).1]
    exact Fn.ary_grow_inv w a.s extra hinv hdef
  · intro w a hinv
    rw [ary_shrinktofit_s]
    exact Fn.ary_shrinktofit_inv w a.s hinv
  · exact fun w a nlen hinv => ary_setlen_inv w a nlen hinv
  · exact fun w a v hinv hdef => ary_push_inv w a v hinv hdef
  · exact fun w a hinv hdef => ary_pushp_inv w a hinv hdef
  · exact fun w a ret hinv => ary_pop_inv w a ret hinv
  · exact fun w a ret hinv => ary_shift_inv w a ret hinv
  · exact fun w a pos rlen alen hinv hb => ary_splicep_inv w a pos rlen alen hinv (fun _ => hb)
  · exact fun w a pos v hinv hb => ary_insert_inv w a pos v hinv hb
  · exact fun w a pos hinv => ary_remove_inv w a pos hinv
  · exact fun w a v hinv hb => ary_unshift_inv w a v hinv hb
  · exact fun mix w a pos ret hinv => ary_snatch_inv mix w a pos ret hinv
  · exact fun w a size => ary_detach_inv w a size
  · exact fun sizeof w a => ary_release_inv sizeof w a

/-- An instance of `ary_invariant_preserved`: `[10, 20, 30]` in a block of four slots
satisfies the invariant, and so does the array after a push, after a pop and after a
splice that has to grow the block. -/
theorem ary_invariant_preserved_witness :
    ary3.s.Inv ∧ (ary_push okWorld ary3 40).a.s.Inv ∧ (ary_pop okWorld ary3 true).a.s.Inv ∧
      (ary_splicep okWorld ary3 1 1 5).a.s.Inv :=
  have h := ary_invariant_preserved Int
  ⟨by decide,
   h.2.2.2.2.1 okWorld ary3 40 (by decide) (fun hfull => absurd hfull (by decide)),
   h.2.2.2.2.2.2.1 okWorld ary3 true (by decide),
   h.2.2.2.2.2.2.2.2.1 okWorld ary3 1 1 5 (by decide) (by decide)⟩

/-- C21 (evaluation at the failing input): on the `int` array `[10, 20, 30]`, whose
elements are 4 bytes wide, `ary_search(&a, &i, 0, &thirty, ary_cb_cmpint)` returns 1 with
`i == 8`, the offset in bytes of the element found, where the element found is at
position 2 and the array has 3 elements. -/
theorem ary_search_stores_byte_offset :
    ary3.elems = [10, 20, 30] ∧ ary3.s.sz = 4 ∧
      bsearchMid 30 [10, 20, 30] ary_cb_cmpint = some 2 ∧
      (ary_search bsearchMid ary3 true 0 NULL 30 ary_cb_cmpint).ret = 1 ∧
      (ary_search bsearchMid ary3 true 0 NULL 30 ary_cb_cmpint).out = some 8 := by
  decide

set_option maxRecDepth 100000 in
/-- C24 (evaluation at the failing input): joining `["a", "b", "c"]` with `","` and no
stringify callback produces the string `"a,b,c"`, whose `strlen` is 5, and returns 6. -/
theorem ary_join_returns_length_plus_one :
    (ary_join ⟨7, 0⟩ id rawStr strWorld aryABC (some [44]) none).block
        = [97, 44, 98, 44, 99, 0] ∧
      strlen (ary_join ⟨7, 0⟩ id rawStr strWorld aryABC (some [44]) none).block = 5 ∧
      (ary_join ⟨7, 0⟩ id rawStr strWorld aryABC (some [44]) none).ret = 6 := by
  decide

set_option maxRecDepth 100000 in
/-- C25 (evaluation at the failing input): joining the array whose one element is a
string of 1024 letters `x`, with a `NULL` separator, no stringify callback and an
allocator that never fails, produces a string of 1023 letters `x`: the terminator is
stored over the last character. -/
theorem ary_join_loses_last_character :
    (ary_join ⟨7, 0⟩ id rawStr strWorld aryX1024 none none).ret = 1024 ∧
      (ary_join ⟨7, 0⟩ id rawStr strWorld aryX1024 none none).block
        = List.replicate 1023 120 ++ [0] ∧
      strlen (ary_join ⟨7, 0⟩ id rawStr strWorld aryX1024 none none).block = 1023 := by
  decide

/-- C26 (evaluation at the failing input): joining the mutarr whose one element is the
empty string, with the separator `","` and an allocator that never fails, returns -1
with `*ret == NULL`, and no allocator call was made. -/
theorem ma_join_fails_on_leading_empty_string :
    (ma_join ⟨7, 0⟩ id rawMaStr strWorld maEmptyStr (some [44])).ret = -1 ∧
      (ma_join ⟨7, 0⟩ id rawMaStr strWorld maEmptyStr (some [44])).out = NULL ∧
      (ma_join ⟨7, 0⟩ id rawMaStr strWorld maEmptyStr (some [44])).w.calls = 0 := by
  decide

set_option maxRecDepth 100000 in
/-- C27: `ary_join` with a stringify callback that reports failure. On the `int` array
`[1, 2, 3]` with the separator `","` and a callback that returns -1 for the element 2,
`ary_join` returns 5 with `*ret` the string `"1,,3"`: the failed element contributes
nothing, its separator is still appended, and the call counts as a success. On the
one-element array `[7]` with a callback that fails for every element it returns 0 with
`*ret` the empty string when the separator is `NULL`, and 1 with `*ret` the empty string
when it is `","`. In no case does it return -1 with `*ret == NULL`. -/
theorem ary_join_ignores_stringify_failure :
    (digitUnlessTwo 2).1 = -1 ∧
      (ary_join ⟨7, 0⟩ (fun _ => none) rawStr strWorld ary123 (some [44])
        (some digitUnlessTwo)).ret = 5 ∧
      (ary_join ⟨7, 0⟩ (fun _ => none) rawStr strWorld ary123 (some [44])
        (some digitUnlessTwo)).out ≠ NULL ∧
      (ary_join ⟨7, 0⟩ (fun _ => none) rawStr strWorld ary123 (some [44])
        (some digitUnlessTwo)).block = [49, 44, 44, 51, 0] ∧
      (failingStringify 7).1 < 0 ∧
      (ary_join ⟨7, 0⟩ (fun _ => none) rawStr strWorld ary1 none (some failingStringify)).ret
        = 0 ∧
      (ary_join ⟨7, 0⟩ (fun _ => none) rawStr strWorld ary1 none (some failingStringify)).out
        ≠ NULL ∧
      (ary_join ⟨7, 0⟩ (fun _ => none) rawStr strWorld ary1 (some [44])
        (some failingStringify)).ret = 1 ∧
      (ary_join ⟨7, 0⟩ (fun _ => none) rawStr strWorld ary1 (some [44])
        (some failingStringify)).out ≠ NULL := by
  decide

/-- C30: `ma_swap` on two mutarrs. When the element sizes agree it returns 1, each
array has the other's former `buf`, `len` and `alloc` (and with the buffer its
contents), the typed mirrors `len` and `buf` follow, and `ctor`, `dtor`, `userp`, `cmp`,
`tostr`, `sz` and the default value of each are as before; when they differ it returns 0
and both arrays are as before. -/
theorem ma_swap_spec (a b : Mutarr α) :
    (a.s.sz = b.s.sz →
      (ma_swap a b).ret = 1 ∧
      ((ma_swap a b).a.s.buf = b.s.buf ∧ (ma_swap a b).a.s.len = b.s.len ∧
        (ma_swap a b).a.s.alloc = b.s.alloc ∧ (ma_swap a b).a.s.cells = b.s.cells ∧
        (ma_swap a b).a.buf = b.s.buf ∧ (ma_swap a b).a.len = b.s.len) ∧
      ((ma_swap a b).b.s.buf = a.s.buf ∧ (ma_swap a b).b.s.len = a.s.len ∧
        (ma_swap a b).b.s.alloc = a.s.alloc ∧ (ma_swap a b).b.s.cells = a.s.cells ∧
        (ma_swap a b).b.buf = a.s.buf ∧ (ma_swap a b).b.len = a.s.len) ∧
      ((ma_swap a b).a.s.ctor = a.s.ctor ∧ (ma_swap a b).a.s.dtor = a.s.dtor ∧
        (ma_swap a b).a.s.userp = a.s.userp ∧ (ma_swap a b).a.s.cmp = a.s.cmp ∧
        (ma_swap a b).a.s.tostr = a.s.tostr ∧ (ma_swap a b).a.s.sz = a.s.sz ∧
        (ma_swap a b).a.val = a.val) ∧
      ((ma_swap a b).b.s.ctor = b.s.ctor ∧ (ma_swap a b).b.s.dtor = b.s.dtor ∧
        (ma_swap a b).b.s.userp = b.s.userp ∧ (ma_swap a b).b.s.cmp = b.s.cmp ∧
        (ma_swap a b).b.s.tostr = b.s.tostr ∧ (ma_swap a b).b.s.sz = b.s.sz ∧
        (ma_swap a b).b.val = b.val)) ∧
    (a.s.sz ≠ b.s.sz →
      (ma_swap a b).ret = 0 ∧ (ma_swap a b).a = a ∧ (ma_swap a b).b = b) := by
  constructor
  · intro h
    have hf : Fn.ma_swap a.s b.s =
        ⟨{ a.s with alloc := b.s.alloc, len := b.s.len, buf := b.s.buf, cells := b.s.cells },
         { b.s with alloc := a.s.alloc, len := a.s.len, buf := a.s.buf, cells := a.s.cells },
         1⟩ := by
      unfold Fn.ma_swap
      rw [if_neg (not_not.mpr h)]
    unfold ma_swap
    rw [hf]
    simp only
    rw [if_pos (by decide)]
    exact ⟨rfl, ⟨rfl, rfl, rfl, rfl, rfl, rfl⟩, ⟨rfl, rfl, rfl, rfl, rfl, rfl⟩,
      ⟨rfl, rfl, rfl, rfl, rfl, rfl, rfl⟩, ⟨rfl, rfl, rfl, rfl, rfl, rfl, rfl⟩⟩
  · intro h
    have hf : Fn.ma_swap a.s b.s = ⟨a.s, b.s, 0⟩ := by
      unfold Fn.ma_swap
      rw [if_pos h]
    unfold ma_swap
    rw [hf]
    simp only
    rw [if_neg (by decide)]
    exact ⟨rfl, rfl, rfl⟩

/-- C30 (witness): swapping the mutarrs `[7, 5, 7]` and `[1, 2]`, both of `int`. -/
theorem ma_swap_spec_witness :
    (ma_swap ma757 ma12).ret = 1 ∧ (ma_swap ma757 ma12).a.s.cells = [1, 2, 0, 0] ∧
      (ma_swap ma757 ma12).b.len = 3 :=
  have h := (ma_swap_spec ma757 ma12).1 (by decide)
  ⟨h.1, h.2.1.2.2.2.1.trans (by decide), h.2.2.1.2.2.2.2.2.trans (by decide)⟩

/-- C22: `ary_reverse` on a well-formed array (empty and odd-length ones included).
When it returns 1 the scratch allocation succeeded, `len`, `alloc` and the typed
mirror are as before, the live elements are the former ones in reverse order, so that
index `i` holds the element formerly at `len - 1 - i`, the slots beyond `len` are
untouched and the array is well formed. When it does not return 1 it returns 0, the
allocator answered `NULL` and the array is as before. It returns 1 whenever the
allocator does not answer `NULL`. Two calls that both return 1 give back the
original array. -/
theorem ary_reverse_spec (w : World α) (a : Ary α) (hwf : a.WF) :
    ((ary_reverse w a).ret = 1 →
        (w.xrealloc w.calls NULL 1 a.s.sz).1 ≠ 0 ∧
        (ary_reverse w a).a.s.len = a.s.len ∧ (ary_reverse w a).a.s.alloc = a.s.alloc ∧
        (ary_reverse w a).a.len = a.len ∧
        (ary_reverse w a).a.elems = a.elems.reverse ∧
        (∀ i, i < a.s.len → (ary_reverse w a).a.elems[i]? = a.elems[a.s.len - 1 - i]?) ∧
        (ary_reverse w a).a.s.cells.drop a.s.len = a.s.cells.drop a.s.len ∧
        (ary_reverse w a).a.WF) ∧
    ((ary_reverse w a).ret ≠ 1 →
        (ary_reverse w a).ret = 0 ∧ (ary_reverse w a).a = a ∧
        (w.xrealloc w.calls NULL 1 a.s.sz).1 = 0) ∧
    ((w.xrealloc w.calls NULL 1 a.s.sz).1 ≠ 0 → (ary_reverse w a).ret = 1) ∧
    ((ary_reverse w a).ret = 1 →
      (ary_reverse (ary_reverse w a).w (ary_reverse w a).a).ret = 1 →
      (ary_reverse (ary_reverse w a).w (ary_reverse w a).a).a = a) := by
  have hlen : a.elems.length = a.s.len := elems_length a hwf
  refine ⟨fun hret => ?_, fun hret => ary_reverse_fail w a hwf hret, fun hok => ?_,
    fun hret hret2 => ?_⟩
  · obtain ⟨he, hx⟩ := ary_reverse_ok w a hwf hret
    rw [he]
    refine ⟨hx, rfl, rfl, rfl, reversed_elems a hwf, fun i hi => ?_, ?_, reversed_wf a hwf⟩
    · rw [reversed_elems a hwf, List.getElem?_reverse (by omega), hlen]
    · show ((a.s.cells.take a.s.len).reverse ++ a.s.cells.drop a.s.len).drop a.s.len
        = a.s.cells.drop a.s.len
      obtain ⟨h1, h2, h3, h4, h5, h6⟩ := hwf
      have hl : ((a.s.cells.take a.s.len).reverse).length = a.s.len := by
        rw [List.length_reverse, List.length_take]
        omega
      rw [List.drop_append_of_le_length (by omega), List.drop_of_length_le (by omega),
        List.nil_append]
  · by_contra hne
    exact hok (ary_reverse_fail w a hwf hne).2.2
  · obtain ⟨he, _⟩ := ary_reverse_ok w a hwf hret
    have hwf2 : (ary_reverse w a).a.WF := by
      rw [he]
      exact reversed_wf a hwf
    obtain ⟨he2, _⟩ := ary_reverse_ok (ary_reverse w a).w (ary_reverse w a).a hwf2 hret2
    rw [he2, he]
    have h := reversed_twice a hwf
    show ({ a with s := { a.s with cells := _ } } : Ary α) = a
    simp only
    rw [h]

/-- C22 (witness): reversing `[10, 20, 30]`, an array of odd length. -/
theorem ary_reverse_spec_witness :
    (ary_reverse okWorld ary3).a.elems = [30, 20, 10] ∧ (ary_reverse okWorld ary3).a.s.len = 3 :=
  have h := (ary_reverse_spec okWorld ary3 (by decide)).1 (by decide)
  ⟨h.2.2.2.2.1.trans (by decide), h.2.1.trans (by decide)⟩

/-- C23: `ary_swap` on a non-empty well-formed array, with `a' = min(a, len - 1)` and
`b' = min(b, len - 1)`. When it returns 1 the element at `a'` is the former element at
`b'` and vice versa, every other slot of the block, `len`, `alloc` and the typed mirror
are as before and the array is well formed. When it returns 0 the two positions
differ, the allocator answered `NULL` and the array is as before. When `a' == b'` it
returns 1 and leaves the world, so the allocator, and the array untouched. It returns
nothing but 0 or 1. -/
theorem ary_swap_spec (w : World α) (a : Ary α) (i j : Nat) (hwf : a.WF)
    (hne : a.s.len ≠ 0) :
    ((ary_swap w a i j).ret = 1 →
        (ary_swap w a i j).a.elems[min i (a.s.len - 1)]? = a.elems[min j (a.s.len - 1)]? ∧
        (ary_swap w a i j).a.elems[min j (a.s.len - 1)]? = a.elems[min i (a.s.len - 1)]? ∧
        (∀ k, k ≠ min i (a.s.len - 1) → k ≠ min j (a.s.len - 1) →
          (ary_swap w a i j).a.s.cells[k]? = a.s.cells[k]?) ∧
        (ary_swap w a i j).a.s.len = a.s.len ∧ (ary_swap w a i j).a.s.alloc = a.s.alloc ∧
        (ary_swap w a i j).a.len = a.len ∧ (ary_swap w a i j).a.WF) ∧
    ((ary_swap w a i j).ret = 0 →
        (ary_swap w a i j).a = a ∧ min i (a.s.len - 1) ≠ min j (a.s.len - 1) ∧
        (w.xrealloc w.calls NULL 1 a.s.sz).1 = 0) ∧
    (min i (a.s.len - 1) = min j (a.s.len - 1) →
        (ary_swap w a i j).ret = 1 ∧ (ary_swap w a i j).w = w ∧ (ary_swap w a i j).a = a) ∧
    ((ary_swap w a i j).ret = 0 ∨ (ary_swap w a i j).ret = 1) := by
  obtain ⟨h1, h2, h3, h4, h5, h6⟩ := hwf
  have hwf : a.WF := ⟨h1, h2, h3, h4, h5, h6⟩
  have h64 : a.s.len < SIZE_MOD := by omega
  have hI : min i (a.s.len - 1) < a.s.len := by omega
  have hJ : min j (a.s.len - 1) < a.s.len := by omega
  by_cases hsame : min i (a.s.len - 1) = min j (a.s.len - 1)
  · have he : ary_swap w a i j = ⟨w, a, 1⟩ := by
      unfold ary_swap
      rw [Fn.ary_swap_same w a.s i j hne h64 hsame]
    rw [he]
    refine ⟨fun _ => ?_, fun h => ?_, fun _ => ⟨rfl, rfl, rfl⟩, Or.inr rfl⟩
    · exact ⟨by rw [hsame], by rw [hsame], fun _ _ _ => rfl, rfl, rfl, rfl, hwf⟩
    · simp at h
  · by_cases hn : (ary_xrealloc w NULL 1 a.s.sz).2.1 = NULL
    · have he : ary_swap w a i j = ⟨(ary_xrealloc w NULL 1 a.s.sz).1, a, 0⟩ := by
        unfold ary_swap
        rw [Fn.ary_swap_null w a.s i j hne h64 hsame hn]
      rw [he]
      refine ⟨fun h => ?_, fun _ => ⟨rfl, hsame, (xrealloc_null_iff w NULL 1 a.s.sz).mp hn⟩,
        fun h => absurd h hsame, Or.inl rfl⟩
      simp at h
    · have he : ary_swap w a i j =
          ⟨ary_xfree (ary_xrealloc w NULL 1 a.s.sz).1 (ary_xrealloc w NULL 1 a.s.sz).2.1,
           { a with
             s := { a.s with
                    cells := swapSlots a.s.cells (min i (a.s.len - 1))
                      (min j (a.s.len - 1)) } },
           1⟩ := by
        unfold ary_swap
        rw [Fn.ary_swap_block w a.s i j hne h64 hsame hn]
      rw [he]
      have hg : ∀ k, (swapSlots a.s.cells (min i (a.s.len - 1)) (min j (a.s.len - 1)))[k]?
          = if k = min j (a.s.len - 1) then a.s.cells[min i (a.s.len - 1)]?
            else if k = min i (a.s.len - 1) then a.s.cells[min j (a.s.len - 1)]?
            else a.s.cells[k]? :=
        fun k => getElem?_swapSlots a.s.cells _ _ k (by omega) (by omega)
      have hE : ∀ k, k < a.s.len →
          ({ a with
             s := { a.s with
                    cells := swapSlots a.s.cells (min i (a.s.len - 1))
                      (min j (a.s.len - 1)) } } : Ary α).elems[k]?
            = (swapSlots a.s.cells (min i (a.s.len - 1)) (min j (a.s.len - 1)))[k]? :=
        fun k hk => elems_getElem _ k hk
      refine ⟨fun _ => ⟨?_, ?_, fun k hk1 hk2 => ?_, rfl, rfl, rfl, ?_⟩, fun h => ?_,
        fun h => absurd h hsame, Or.inr rfl⟩
      · exact (hE _ hI).trans (by rw [hg, if_neg hsame, if_pos rfl, elems_getElem a _ hJ])
      · exact (hE _ hJ).trans (by rw [hg, if_pos rfl, elems_getElem a _ hI])
      · show (swapSlots a.s.cells _ _)[k]? = _
        rw [hg, if_neg hk2, if_neg hk1]
      · refine ⟨h1, h2, h3, ?_, h5, h6⟩
        show (swapSlots a.s.cells _ _).length = a.s.alloc
        rw [length_swapSlots, h4]
      · simp at h

/-- C23 (witness): swapping the first element of `[10, 20, 30]` with position 7, which
is clamped to the last element. -/
theorem ary_swap_spec_witness :
    (ary_swap okWorld ary3 0 7).a.elems[0]? = some 30 ∧
      (ary_swap okWorld ary3 0 7).a.elems[2]? = some 10 :=
  have h := (ary_swap_spec okWorld ary3 0 7 (by decide) (by decide)).1 (by decide)
  ⟨h.1.trans (by decide), h.2.1.trans (by decide)⟩

/-- How `ary_join` treats a stringify callback that reports failure, in general:
in the loop of `ary_join` an element for which the stringify callback returns a negative
value adds nothing of its own, only the separator, and the loop goes on with the next
element instead of leaving through `goto error`. So when the callback returns a negative
value for every element, the separator is `NULL` or empty and the initial allocation
succeeds, `ary_join` returns 0 with `*ret` the empty string made by `strdup`, and
returns -1 only if `strdup` fails. -/
theorem ary_join_skips_failed_stringify (strdup : Ptr) (deref : α → Option (List Nat))
    (strbuf : Ary Nat) (w : World Nat) (s : Aryb α) (sep : Option (List Nat)) (f : StrCb α)
    (hfail : ∀ e ∈ s.cells.take s.len, (f e).1 < 0) (hsep : sep.getD [] = [])
    (hinit : (ary_init 1 w strbuf 1024).ret ≠ 0) :
    (∀ (sepb : List Nat) (e : α) (es : List α) (w1 : World Nat) (sb : Ary Nat), (f e).1 < 0 →
      joinLoop deref (some f) sepb (e :: es) w1 sb =
        if (joinSep sepb w1 sb).ok then
          joinLoop deref (some f) sepb es (joinSep sepb w1 sb).w (joinSep sepb w1 sb).strbuf
        else joinSep sepb w1 sb) ∧
    (strdup ≠ NULL →
      (Fn.ary_join strdup deref strbuf w s sep (some f)).ret = 0 ∧
      (Fn.ary_join strdup deref strbuf w s sep (some f)).out = strdup ∧
      (Fn.ary_join strdup deref strbuf w s sep (some f)).block = [0]) ∧
    (strdup = NULL →
      (Fn.ary_join strdup deref strbuf w s sep (some f)).ret = -1 ∧
      (Fn.ary_join strdup deref strbuf w s sep (some f)).out = NULL) := by
  refine ⟨fun sepb e es w1 sb h => joinLoop_skip deref f sepb e es w1 sb h, fun h => ?_,
    fun h => ?_⟩
  · rw [Fn.ary_join_all_fail strdup deref strbuf w s sep f hfail hsep hinit, if_neg h]
    exact ⟨rfl, rfl, rfl⟩
  · rw [Fn.ary_join_all_fail strdup deref strbuf w s sep f hfail hsep hinit, if_pos h]
    exact ⟨rfl, rfl⟩

set_option maxRecDepth 100000 in
/-- An instance of `ary_join_skips_failed_stringify`: the one-element array `[7]` with a
callback that always fails and a `NULL` separator. -/
theorem ary_join_skips_failed_stringify_witness :
    (Fn.ary_join ⟨7, 0⟩ (fun _ => none) rawStr strWorld ary1.s none
        (some failingStringify)).ret = 0 ∧
      (Fn.ary_join ⟨7, 0⟩ (fun _ => none) rawStr strWorld ary1.s none
        (some failingStringify)).out = ⟨7, 0⟩ :=
  have h := (ary_join_skips_failed_stringify ⟨7, 0⟩ (fun _ => none) rawStr strWorld ary1.s none
    failingStringify (by decide) rfl (by decide)).2.1 (by decide)
  ⟨h.1, h.2.1⟩

/-- C28: `ma_insertsorted` on a well-formed mutarr of fewer than `2 ^ 51` elements whose
live elements are in ascending order under its comparison `cmp`, a total preorder.
When it returns 1, `len` and its typed mirror grew by exactly 1, the new elements are
the old ones with `v` put in at one position `l`, hence a permutation of the old
elements and `v` that keeps the old elements in their order, they are in ascending
order under `cmp`, and the mutarr is well formed. -/
theorem ma_insertsorted_sorted (w : World α) (a : Mutarr α) (v : α) (c : CmpCb α)
    (hwf : a.WF) (hb : a.s.len < 2 ^ 51) (hc : a.s.cmp = some c)
    (htrans : ∀ x y z, c x y ≤ 0 → c y z ≤ 0 → c x z ≤ 0)
    (htot : ∀ x y, c x y ≤ 0 ∨ c y x ≤ 0)
    (hs : a.elems.Pairwise (fun x y => c x y ≤ 0))
    (hret : (ma_insertsorted w a v).ret = 1) :
    (ma_insertsorted w a v).a.s.len = a.s.len + 1 ∧
      (ma_insertsorted w a v).a.len = a.len + 1 ∧
      (∃ l, l ≤ a.s.len ∧
        (ma_insertsorted w a v).a.elems = a.elems.take l ++ [v] ++ a.elems.drop l) ∧
      (ma_insertsorted w a v).a.elems.Perm (v :: a.elems) ∧
      (ma_insertsorted w a v).a.elems.Pairwise (fun x y => c x y ≤ 0) ∧
      (ma_insertsorted w a v).a.WF := by
  obtain ⟨k1, k2, k3, l, hl, he, hlo, hhi⟩ :=
    ma_insertsorted_ok w a v c hwf hb hc htrans hs hret
  refine ⟨k1, k2, ⟨l, hl, he⟩, ?_, ?_, k3⟩
  · rw [he, List.append_assoc, List.singleton_append]
    have h : (a.elems.take l ++ v :: a.elems.drop l).Perm
        (v :: (a.elems.take l ++ a.elems.drop l)) := List.perm_middle
    rw [List.take_append_drop] at h
    exact h
  · rw [he, List.append_assoc, List.singleton_append]
    rw [← List.take_append_drop l a.elems] at hs
    obtain ⟨p1, p2, p12⟩ := List.pairwise_append.mp hs
    refine List.pairwise_append.mpr ⟨p1, List.pairwise_cons.mpr ⟨fun b hb1 => ?_, p2⟩,
      fun x hx y hy => ?_⟩
    · have h1 := hhi b hb1
      rcases htot v b with h2 | h2
      · exact h2
      · omega
    · rcases List.mem_cons.mp hy with h1 | h1
      · rw [h1]
        exact hlo x hx
      · exact p12 x hx y h1

/-- C28 (witness): starting from the empty mutarr and inserting 5, 1 and 3 with the
ascending comparison of `int`s gives `[1, 3, 5]`; the statement is applied to the last of
the three insertions. -/
theorem ma_insertsorted_sorted_witness :
    maSorted0.elems = [] ∧ maSorted1.a.elems = [5] ∧ maSorted2.a.elems = [1, 5] ∧
      maSorted3.a.elems = [1, 3, 5] ∧
      maSorted3.a.elems.Pairwise (fun x y => ary_cb_cmpint x y ≤ 0) :=
  have h := ma_insertsorted_sorted maSorted2.w maSorted2.a 3 ary_cb_cmpint (by decide)
    (by decide) rfl ary_cb_cmpint_trans ary_cb_cmpint_total (by decide) (by decide)
  ⟨by decide, by decide, by decide, by decide, h.2.2.2.2.1⟩

/-- C29 (counterexample): on the mutarr `[30]`, compared by tens, inserting 31, which
compares equal to 30, gives `[30, 31]`: the new value comes after the old element equal
to it, not at the index of the first element that is not less than it. -/
theorem ma_insertsorted_lower_bound_counterexample :
    ma30.elems = [30] ∧ cmpTens 30 31 = 0 ∧ (ma_insertsorted okWorld ma30 31).ret = 1 ∧
      (ma_insertsorted okWorld ma30 31).a.elems = [30, 31] := by
  decide

/-- C29 (amended): `ma_insertsorted` inserts at the upper bound. On a well-formed mutarr
of fewer than `2 ^ 51` elements sorted under its transitive comparison `cmp`, when it
returns 1 the value `v` is placed at the index `l` of the first element that is greater
than `v`: every old element before `l` compares less than or equal to `v` and stays
before it, so also every old element comparing equal to `v`, and every old element
from `l` on compares greater than `v` and comes after it. -/
theorem ma_insertsorted_upper_bound (w : World α) (a : Mutarr α) (v : α) (c : CmpCb α)
    (hwf : a.WF) (hb : a.s.len < 2 ^ 51) (hc : a.s.cmp = some c)
    (htrans : ∀ x y z, c x y ≤ 0 → c y z ≤ 0 → c x z ≤ 0)
    (hs : a.elems.Pairwise (fun x y => c x y ≤ 0))
    (hret : (ma_insertsorted w a v).ret = 1) :
    ∃ l, l ≤ a.s.len ∧
      (ma_insertsorted w a v).a.elems = a.elems.take l ++ [v] ++ a.elems.drop l ∧
      (∀ e ∈ a.elems.take l, c e v ≤ 0) ∧ (∀ e ∈ a.elems.drop l, c e v > 0) :=
  (ma_insertsorted_ok w a v c hwf hb hc htrans hs hret).2.2.2

/-- C29 (witness): inserting 31 into the mutarr `[30]` compared by tens. -/
theorem ma_insertsorted_upper_bound_witness :
    ∃ l, l ≤ ma30.s.len ∧
      (ma_insertsorted okWorld ma30 31).a.elems
        = ma30.elems.take l ++ [31] ++ ma30.elems.drop l ∧
      (∀ e ∈ ma30.elems.take l, cmpTens e 31 ≤ 0) ∧
      (∀ e ∈ ma30.elems.drop l, cmpTens e 31 > 0) :=
  ma_insertsorted_upper_bound okWorld ma30 31 cmpTens (by decide) (by decide) rfl
    cmpTens_trans (by decide) (by decide)

/-- C31: `ary_detach` on a well-formed array, for every allocator and whether or not
`size` is NULL. The memory handed over begins with the `len` live elements in order, and
is exactly those elements when the internal `ary_shrinktofit` returns 1; the pointer
returned is `NULL` exactly when the array has no live element, in particular when it
has no allocated memory; `len` is stored through `size` when `size` is non-NULL; the
call log grows by no destructor call; afterwards `s.len`, `s.alloc` and the typed `len`
are 0, `s.buf` and the typed `buf` are `NULL`, and `ctor`, `dtor`, `userp`, `sz` and the
init value are unchanged. Nothing here depends on the outcome of the shrinking. -/
theorem ary_detach_spec (w : World α) (a : Ary α) (size : Bool) (hwf : a.WF) :
    (ary_detach w a size).block.take a.s.len = a.elems ∧
      ((Fn.ary_shrinktofit w a.s).ret = 1 → (ary_detach w a size).block = a.elems) ∧
      ((ary_detach w a size).ret = NULL ↔ a.s.len = 0) ∧
      (a.s.alloc = 0 → (ary_detach w a size).ret = NULL) ∧
      (ary_detach w a size).size = (if size then some a.s.len else none) ∧
      (∃ evs, (ary_detach w a size).w.trace = w.trace ++ evs ∧ dtorSlots evs = []) ∧
      (ary_detach w a size).a.s.len = 0 ∧ (ary_detach w a size).a.s.alloc = 0 ∧
      (ary_detach w a size).a.s.buf = NULL ∧ (ary_detach w a size).a.len = 0 ∧
      (ary_detach w a size).a.buf = NULL ∧
      (ary_detach w a size).a.s.ctor = a.s.ctor ∧ (ary_detach w a size).a.s.dtor = a.s.dtor ∧
      (ary_detach w a size).a.s.userp = a.s.userp ∧ (ary_detach w a size).a.s.sz = a.s.sz ∧
      (ary_detach w a size).a.val = a.val := by
  obtain ⟨_, _, h3, h4, h5, _⟩ := hwf
  obtain ⟨k1, k2, k3, k4, k5, k6, k7, k8, k9⟩ := Fn.ary_shrinktofit_keeps w a.s h3 h4 h5
  have hnull : (ary_detach w a size).ret = NULL ↔ a.s.len = 0 := k8
  refine ⟨k6, fun h => ?_, hnull, fun h => hnull.mpr (by omega), ?_, k9, rfl, rfl, rfl, rfl,
    rfl, k3, k4, k5, k2, rfl⟩
  · show (Fn.ary_shrinktofit w a.s).s.cells = a.s.cells.take a.s.len
    rw [← k6, List.take_of_length_le (le_of_eq (k7 h))]
  · show (if size then some (Fn.ary_shrinktofit w a.s).s.len else none) = _
    rw [k1]

/-- C31 (witness): detaching `[5, 7]`, which has a destructor set and two spare slots,
when the allocator refuses to shrink the block. -/
theorem ary_detach_spec_witness :
    (ary_detach failWorld ary57s true).block.take 2 = [5, 7] ∧
      (ary_detach failWorld ary57s true).size = some 2 ∧
      (ary_detach failWorld ary57s true).a.s.alloc = 0 :=
  have h := ary_detach_spec failWorld ary57s true (by decide)
  ⟨h.1, h.2.2.2.2.1, h.2.2.2.2.2.2.2.1⟩

/-- C32: detach/attach round trip on a well-formed array, for every allocator:
`buf = ary_detach(ary, &n)` followed by `ary_attach(ary, buf, n, n)` gives an array with
the same live elements in the same order, the same `len` (typed and untyped), the same
`ctor`, `dtor`, `userp`, `sz` and init value, whose `buf` is the pointer detached; the
call log of the two calls holds no destructor call. -/
theorem ary_detach_attach_roundtrip (w : World α) (a : Ary α) (hwf : a.WF) :
    (ary_detach w a true).size = some a.s.len ∧
      (ary_attach (ary_detach w a true).w (ary_detach w a true).a (ary_detach w a true).ret
          (ary_detach w a true).block a.s.len a.s.len).a.elems = a.elems ∧
      (ary_attach (ary_detach w a true).w (ary_detach w a true).a (ary_detach w a true).ret
          (ary_detach w a true).block a.s.len a.s.len).a.s.len = a.s.len ∧
      (ary_attach (ary_detach w a true).w (ary_detach w a true).a (ary_detach w a true).ret
          (ary_detach w a true).block a.s.len a.s.len).a.len = a.len ∧
      (ary_attach (ary_detach w a true).w (ary_detach w a true).a (ary_detach w a true).ret
          (ary_detach w a true).block a.s.len a.s.len).a.s.ctor = a.s.ctor ∧
      (ary_attach (ary_detach w a true).w (ary_detach w a true).a (ary_detach w a true).ret
          (ary_detach w a true).block a.s.len a.s.len).a.s.dtor = a.s.dtor ∧
      (ary_attach (ary_detach w a true).w (ary_detach w a true).a (ary_detach w a true).ret
          (ary_detach w a true).block a.s.len a.s.len).a.s.userp = a.s.userp ∧
      (ary_attach (ary_detach w a true).w (ary_detach w a true).a (ary_detach w a true).ret
          (ary_detach w a true).block a.s.len a.s.len).a.s.sz = a.s.sz ∧
      (ary_attach (ary_detach w a true).w (ary_detach w a true).a (ary_detach w a true).ret
          (ary_detach w a true).block a.s.len a.s.len).a.val = a.val ∧
      (ary_attach (ary_detach w a true).w (ary_detach w a true).a (ary_detach w a true).ret
          (ary_detach w a true).block a.s.len a.s.len).a.buf = (ary_detach w a true).ret ∧
      (∃ evs, (ary_attach (ary_detach w a true).w (ary_detach w a true).a
          (ary_detach w a true).ret (ary_detach w a true).block a.s.len a.s.len).w.trace
            = w.trace ++ evs ∧ dtorSlots evs = []) := by
  obtain ⟨h1, _, h3, h4, h5, _⟩ := hwf
  obtain ⟨k1, k2, k3, k4, k5, k6, _, _, evs, k9, k10⟩ :=
    Fn.ary_shrinktofit_keeps w a.s h3 h4 h5
  refine ⟨?_, k6, rfl, h1.symm, k3, k4, k5, k2, rfl, rfl, evs ++ [Event.xfree NULL], ?_, ?_⟩
  · show some (Fn.ary_shrinktofit w a.s).s.len = _
    rw [k1]
  · show (ary_freebuf (ary_detach w a true).w (ary_detach w a true).a.s).trace = _
    rw [ary_freebuf_empty _ _ rfl]
    show (Fn.ary_shrinktofit w a.s).w.trace ++ [Event.xfree NULL] = _
    rw [k9, List.append_assoc]
  · rw [dtorSlots_append, k10]
    rfl

/-- C32 (witness): the round trip on `[5, 7]`, which has a destructor set. -/
theorem ary_detach_attach_roundtrip_witness :
    (ary_attach (ary_detach okWorld ary57s true).w (ary_detach okWorld ary57s true).a
        (ary_detach okWorld ary57s true).ret (ary_detach okWorld ary57s true).block 2 2).a.elems
      = [5, 7] ∧
    dtorSlots (ary_attach (ary_detach okWorld ary57s true).w (ary_detach okWorld ary57s true).a
        (ary_detach okWorld ary57s true).ret
        (ary_detach okWorld ary57s true).block 2 2).w.trace = [] :=
  ⟨(ary_detach_attach_roundtrip okWorld ary57s (by decide)).2.1, by decide⟩

/-- C33: `ary_setlen` on a well-formed array of length `L` and capacity `C`, for every
`nlen`. The new length (typed and untyped) is `nlen` when `nlen <= L` and `min nlen C`
otherwise; `alloc`, `buf` and the number of allocator calls are unchanged; the elements
below `min L newlen` are unchanged. When `L < nlen`, each slot in `[L, newlen)` holds
what `ctor` made of it when `ctor` is set and the init value otherwise, and the call log
grew by one `ctor` call per such slot, in increasing order, when `ctor` is set and by
nothing otherwise. When `nlen <= L` the call log grew by one `dtor` call for each slot
of `[nlen, L)`, in increasing order and on the value the slot held, when `dtor` is set
and by nothing otherwise. -/
theorem ary_setlen_spec (w : World α) (a : Ary α) (nlen : Nat) (hwf : a.WF) :
    (ary_setlen w a nlen).a.s.len = (if nlen ≤ a.s.len then nlen else min nlen a.s.alloc) ∧
      (ary_setlen w a nlen).a.len = (if nlen ≤ a.s.len then nlen else min nlen a.s.alloc) ∧
      (ary_setlen w a nlen).a.s.alloc = a.s.alloc ∧
      (ary_setlen w a nlen).a.s.buf = a.s.buf ∧
      (ary_setlen w a nlen).a.buf = a.buf ∧
      (ary_setlen w a nlen).w.calls = w.calls ∧
      (∀ j, j < a.s.len → j < (if nlen ≤ a.s.len then nlen else min nlen a.s.alloc) →
        (ary_setlen w a nlen).a.elems[j]? = a.elems[j]?) ∧
      (a.s.len < nlen →
        (∀ j, a.s.len ≤ j → j < min nlen a.s.alloc →
          (ary_setlen w a nlen).a.elems[j]?
            = match a.s.ctor with
              | some ctor => a.s.cells[j]?.map (fun v => ctor v a.s.userp)
              | none => some a.val) ∧
        (ary_setlen w a nlen).w.trace
          = w.trace ++
            match a.s.ctor with
            | some _ =>
              (List.range (min nlen a.s.alloc - a.s.len)).map
                (fun k => Event.ctor (a.s.len + k) a.s.userp)
            | none => []) ∧
      (nlen ≤ a.s.len →
        (ary_setlen w a nlen).w.trace
          = w.trace ++
            match a.s.dtor with
            | some _ =>
              (List.range (a.s.len - nlen)).map
                (fun k => Event.dtor (nlen + k) a.s.cells[nlen + k]? a.s.userp)
            | none => []) := by
  obtain ⟨_, h2, h3, h4, _, _⟩ := hwf
  have hE : ∀ (b : Ary α) (j : Nat), j < b.s.len → b.elems[j]? = b.s.cells[j]? :=
    fun b j hj => elems_getElem b j hj
  by_cases hup : a.s.len < nlen
  · have hnew : (if nlen ≤ a.s.len then nlen else min nlen a.s.alloc) = min nlen a.s.alloc :=
      if_neg (by omega)
    have hclamp : (if a.s.alloc < nlen then a.s.alloc else nlen) = min nlen a.s.alloc := by
      split <;> omega
    have hfit : a.s.len + (min nlen a.s.alloc - a.s.len) ≤ a.s.cells.length := by omega
    have hin : ∀ j, a.s.len ≤ j → j < min nlen a.s.alloc →
        (a.s.len ≤ j ∧ j < a.s.len + (min nlen a.s.alloc - a.s.len)) :=
      fun j h1 h2 => ⟨h1, by omega⟩
    rw [hnew]
    cases hc : a.s.ctor with
    | some ctor =>
      obtain ⟨s1, s2, _, s4⟩ :=
        setlenCtor_spec ctor (min nlen a.s.alloc - a.s.len) a.s.len w a.s hfit
      obtain ⟨f1, f2⟩ :=
        setlenCtor_frame ctor a.s.buf (min nlen a.s.alloc - a.s.len) a.s.len w a.s
      have he : ary_setlen w a nlen =
          ⟨(setlenCtor ctor a.s.buf (min nlen a.s.alloc - a.s.len) a.s.len w a.s).1,
           { a with
             s := { (setlenCtor ctor a.s.buf (min nlen a.s.alloc - a.s.len) a.s.len w a.s).2
                    with len := min nlen a.s.alloc }
             len := min nlen a.s.alloc }, ()⟩ := by
        unfold ary_setlen
        rw [if_pos hup, hclamp, hc, h2]
      rw [he]
      refine ⟨rfl, rfl, f1, f2, rfl, s2, fun j hj hj2 => ?_,
        fun _ => ⟨fun j hj hj2 => ?_, s1⟩, fun h => absurd h (by omega)⟩
      · rw [hE _ j hj2, hE a j hj]
        exact (s4 j).trans (if_neg (by omega))
      · rw [hE _ j hj2]
        exact (s4 j).trans (if_pos (hin j hj hj2))
    | none =>
      obtain ⟨_, s4⟩ := setlenFill_spec a.val (min nlen a.s.alloc - a.s.len) a.s.len a.s hfit
      obtain ⟨f1, f2⟩ :=
        setlenFill_frame a.val a.s.buf (min nlen a.s.alloc - a.s.len) a.s.len a.s
      have he : ary_setlen w a nlen =
          ⟨w,
           { a with
             s := { setlenFill a.val a.s.buf (min nlen a.s.alloc - a.s.len) a.s.len a.s
                    with len := min nlen a.s.alloc }
             len := min nlen a.s.alloc }, ()⟩ := by
        unfold ary_setlen
        rw [if_pos hup, hclamp, hc, h2]
      rw [he]
      refine ⟨rfl, rfl, f1, f2, rfl, rfl, fun j hj hj2 => ?_,
        fun _ => ⟨fun j hj hj2 => ?_, (List.append_nil _).symm⟩, fun h => absurd h (by omega)⟩
      · rw [hE _ j hj2, hE a j hj]
        exact (s4 j).trans (if_neg (by omega))
      · rw [hE _ j hj2]
        exact (s4 j).trans (if_pos (hin j hj hj2))
  · have hnew : (if nlen ≤ a.s.len then nlen else min nlen a.s.alloc) = nlen :=
      if_pos (by omega)
    rw [hnew]
    cases hd : a.s.dtor with
    | some dtor =>
      by_cases hlt : a.s.len > nlen
      · obtain ⟨s1, s2, _, s4⟩ :=
          setlenDtor_spec dtor (a.s.len - nlen) nlen w a.s (by omega)
        obtain ⟨f1, f2⟩ := setlenDtor_frame dtor a.s.buf (a.s.len - nlen) nlen w a.s
        have he : ary_setlen w a nlen =
            ⟨(setlenDtor dtor a.s.buf (a.s.len - nlen) nlen w a.s).1,
             { a with
               s := { (setlenDtor dtor a.s.buf (a.s.len - nlen) nlen w a.s).2 with len := nlen }
               len := nlen }, ()⟩ := by
          unfold ary_setlen
          rw [if_neg hup, hd, h2]
          simp only
          rw [if_pos hlt]
        rw [he]
        refine ⟨rfl, rfl, f1, f2, rfl, s2, fun j hj hj2 => ?_,
          fun h => absurd h hup, fun _ => s1⟩
        rw [hE _ j hj2, hE a j hj]
        exact s4 j hj2
      · have he : ary_setlen w a nlen =
            ⟨w, { a with s := { a.s with len := nlen }, len := nlen }, ()⟩ := by
          unfold ary_setlen
          rw [if_neg hup, hd]
          simp only
          rw [if_neg hlt]
        rw [he]
        have h0 : a.s.len - nlen = 0 := by omega
        refine ⟨rfl, rfl, rfl, rfl, rfl, rfl, fun j hj hj2 => ?_,
          fun h => absurd h hup, fun _ => ?_⟩
        · rw [hE _ j hj2, hE a j hj]
        · rw [h0]
          exact (List.append_nil _).symm
    | none =>
      have he : ary_setlen w a nlen =
          ⟨w, { a with s := { a.s with len := nlen }, len := nlen }, ()⟩ := by
        unfold ary_setlen
        rw [if_neg hup, hd]
      rw [he]
      refine ⟨rfl, rfl, rfl, rfl, rfl, rfl, fun j hj hj2 => ?_,
        fun h => absurd h hup, fun _ => (List.append_nil _).symm⟩
      rw [hE _ j hj2, hE a j hj]

/-- C33 (witness): raising the length of `[10, 20, 30]`, capacity 4, to 9 stops at the
capacity and stores the init value in slot 3; lowering the length of `[5, 7]`, which has
a destructor, to 0 destructs the slots 0 and 1. -/
theorem ary_setlen_spec_witness :
    (ary_setlen okWorld ary3 9).a.len = 4 ∧ (ary_setlen okWorld ary3 9).a.s.alloc = 4 ∧
      (ary_setlen okWorld ary3 9).a.elems[3]? = some 0 ∧
      dtorSlots (ary_setlen okWorld ary57s 0).w.trace = [0, 1] :=
  have h := ary_setlen_spec okWorld ary3 9 (by decide)
  ⟨h.2.1.trans (by decide), h.2.2.1.trans (by decide),
   ((h.2.2.2.2.2.2.2.1 (by decide)).1 3 (by decide) (by decide)), by decide⟩

/-- C34: `ma_i2pos(offset, max)` for every `int` offset other than `INT_MIN` and every
`size_t` `max`: it is `offset` when `0 <= offset <= max`, `max` when `offset > max`,
`max + offset` when `offset < 0` and `-offset <= max`, and 0 when `-offset > max`; the
result never exceeds `max`. For `max = 3`, the offset -1 gives 2 and the offset -10
gives 0. -/
theorem ma_i2pos_spec (offset : Int) (max : Nat) (h1 : INT_MIN < offset) (h2 : offset < 2 ^ 31)
    (hmax : max < SIZE_MOD) :
    (0 ≤ offset → offset ≤ max → (ma_i2pos offset max : Int) = offset) ∧
      (offset > max → ma_i2pos offset max = max) ∧
      (offset < 0 → -offset ≤ max → (ma_i2pos offset max : Int) = max + offset) ∧
      (offset < 0 → -offset > max → ma_i2pos offset max = 0) ∧
      ma_i2pos offset max ≤ max ∧
      ma_i2pos (-1) 3 = 2 ∧ ma_i2pos (-10) 3 = 0 := by
  rw [ma_i2pos_cases offset max h1 h2 hmax]
  refine ⟨?_, ?_, ?_, ?_, ?_, by decide, by decide⟩ <;> intros <;> split_ifs <;> omega

/-- C34 (witness): the offset -1 on a mutarr of length 3. -/
theorem ma_i2pos_spec_witness : (ma_i2pos (-1) 3 : Int) = 3 + (-1) ∧ ma_i2pos (-1) 3 ≤ 3 :=
  have h := ma_i2pos_spec (-1) 3 (by decide) (by decide) (by decide)
  ⟨h.2.2.1 (by decide) (by decide), h.2.2.2.2.1⟩

/-- C35 (counterexample): on `[10, 20, 30]`, `ary_remove(ary, 5)` removes nothing, where
the clamp to `len - 1` would remove the last element; `ary_remove(ary, 1)` gives
`[10, 30]`. -/
theorem ary_remove_clamp_counterexample :
    (ary_remove okWorld ary3 5).a.elems = [10, 20, 30] ∧
      (ary_remove okWorld ary3 5).a.len = 3 ∧
      (ary_remove okWorld ary3 5).a.elems ≠ [10, 20] ∧
      (ary_remove okWorld ary3 1).a.elems = [10, 30] ∧
      (ary_remove okWorld ary3 1).a.len = 2 := by
  decide

/-- C35 (amended): `ary_remove` on a well-formed array, for every allocator. For
`pos < len` it removes exactly the element at index `pos`: the array holds the elements
before `pos` followed by those after it, and its length (typed and untyped) is
`len - 1`. For `pos >= len` the elements and the length are as before. -/
theorem ary_remove_spec (w : World α) (a : Ary α) (pos : Nat) (hwf : a.WF) :
    (pos < a.s.len →
        (ary_remove w a pos).a.elems = a.elems.take pos ++ a.elems.drop (pos + 1) ∧
        (ary_remove w a pos).a.s.len = a.s.len - 1 ∧
        (ary_remove w a pos).a.len = a.s.len - 1) ∧
      (a.s.len ≤ pos →
        (ary_remove w a pos).a.elems = a.elems ∧
        (ary_remove w a pos).a.s.len = a.s.len ∧
        (ary_remove w a pos).a.len = a.s.len) := by
  obtain ⟨r1, r2, r3⟩ := ary_splicep_removes w a pos 1 hwf
  unfold ary_remove
  refine ⟨fun h => ?_, fun h => ?_⟩
  · have hP : min pos a.s.len = pos := by omega
    have hR : min 1 (a.s.len - pos) = 1 := by omega
    rw [hP, hR] at r1 r2 r3
    exact ⟨r1, r2, r3⟩
  · have hP : min pos a.s.len = a.s.len := by omega
    have hR : min 1 (a.s.len - a.s.len) = 0 := by omega
    rw [hP, hR] at r1 r2 r3
    refine ⟨?_, r2, r3⟩
    rw [r1, Nat.add_zero, List.take_append_drop]

/-- C35 (witness): removing index 1 of `[10, 20, 30]`. -/
theorem ary_remove_spec_witness :
    (ary_remove okWorld ary3 1).a.elems = [10, 30] ∧ (ary_remove okWorld ary3 1).a.len = 2 :=
  have h := (ary_remove_spec okWorld ary3 1 (by decide)).1 (by decide)
  ⟨h.1.trans (by decide), h.2.2⟩

/-- C36: `ary_snatch` on the `int` array `[10, 20, 30]` at position 0, with a non-NULL
`ret`. It returns 1, stores 10 and leaves length 2, but its `memmove` is given the
number of elements after the position, 2, as a number of bytes: whatever the byte order
(`mix`), slot 1 still holds 20 afterwards, so the array does not hold `[20, 30]`; on a
little-endian machine it holds `[20, 20]`. -/
theorem ary_snatch_moves_bytes_not_elements (mix : Nat → Int → Int → Int) :
    ary3.elems = [10, 20, 30] ∧ ary3.s.sz = 4 ∧
      (ary_snatch mix okWorld ary3 0 true).ret = 1 ∧
      (ary_snatch mix okWorld ary3 0 true).out = some 10 ∧
      (ary_snatch mix okWorld ary3 0 true).a.s.len = 2 ∧
      (ary_snatch mix okWorld ary3 0 true).a.elems[1]? = some 20 ∧
      (ary_snatch mix okWorld ary3 0 true).a.elems ≠ [20, 30] ∧
      (ary_snatch mixLE okWorld ary3 0 true).a.elems = [20, 20] := by
  have h1 : (ary_snatch mix okWorld ary3 0 true).a.elems[1]? = some 20 := by
    simp [ary_snatch, ary3, moveBytes, Aryb.slot, size_dec, SIZE_MOD, Ary.elems, blockWrite,
      blockRead]
  refine ⟨by decide, rfl, rfl, rfl, rfl, h1, fun h => ?_, by decide⟩
  rw [h] at h1
  simp at h1

/-- C37: `ary_clone` of an array without elements, for every allocator, element size and
storage of `ret`: it returns 0 although `ary_grow` did not fail, the world being as
before the call, so the allocator was not even called. Cloning the initialised empty
`int` array returns 0, while cloning `[10, 20, 30]` returns 1 and gives `[10, 20, 30]`. -/
theorem ary_clone_empty_returns_zero (sizeof : Nat) (w : World α) (a r : Ary α)
    (h : a.s.len = 0) :
    (ary_clone sizeof w a r).ret = 0 ∧ (ary_clone sizeof w a r).w = w ∧
      (ary_clone 4 okWorld aryEmpty rawAry).ret = 0 ∧
      (ary_clone 4 okWorld ary3 rawAry).ret = 1 ∧
      (ary_clone 4 okWorld ary3 rawAry).r.elems = [10, 20, 30] := by
  refine ⟨?_, ?_, by decide, by decide, by decide⟩
  · unfold ary_clone ary_slice
    simp only [h, Nat.lt_irrefl, if_false]
    rw [read_zero, (ary_splice_init_nil sizeof w r 0 0).1]
    rfl
  · unfold ary_clone ary_slice
    simp only [h, Nat.lt_irrefl, if_false]
    rw [read_zero, (ary_splice_init_nil sizeof w r 0 0).1]
    exact (ary_splice_init_nil sizeof w r 0 0).2

/-- C37 (witness): cloning the initialised empty `int` array. -/
theorem ary_clone_empty_returns_zero_witness :
    aryEmpty.s.len = 0 ∧ (ary_clone 4 okWorld aryEmpty rawAry).ret = 0 ∧
      (ary_clone 4 okWorld aryEmpty rawAry).w = okWorld :=
  ⟨rfl, (ary_clone_empty_returns_zero 4 okWorld aryEmpty rawAry rfl).1,
   (ary_clone_empty_returns_zero 4 okWorld aryEmpty rawAry rfl).2.1⟩

/-- C38: the typed mirror `ary->len == ary->s.len` and `ary->buf == ary->s.buf`. It
holds after `ary_init`, `ary_attach`, `ary_detach` and `ary_release`, and for the array
`ary_slice` and `ary_clone` produce, whatever the arrays were. It is preserved, whether
the operation succeeds or fails and whatever the allocator answers, by `ary_grow`,
`ary_shrinktofit`, `ary_setlen`, `ary_clear`, `ary_push`, `ary_pushp`, `ary_pop`,
`ary_shift`, `ary_snatch`, `ary_reverse`, `ary_swap`, `ary_setcbs`, `ary_setuserp` and
`ary_setinitval`; and by `ary_splicep`, `ary_splice`, `ary_insert`, `ary_insertp`,
`ary_unshift`, `ary_unshiftp`, `ary_remove` and `ary_emplace` on an array that satisfies
the structural invariant (`alloc >= len`, and `buf == NULL` exactly when `alloc == 0`). -/
theorem ary_mirror_preserved (α : Type) :
    (∀ (sizeof : Nat) (w : World α) (a : Ary α) (hint : Nat),
        (ary_init sizeof w a hint).a.Mirror) ∧
    (∀ (w : World α) (a : Ary α) (extra : Nat), a.Mirror → (ary_grow w a extra).a.Mirror) ∧
    (∀ (w : World α) (a : Ary α), a.Mirror → (ary_shrinktofit w a).a.Mirror) ∧
    (∀ (w : World α) (a : Ary α) (nlen : Nat), a.Mirror → (ary_setlen w a nlen).a.Mirror) ∧
    (∀ (w : World α) (a : Ary α), a.Mirror → (ary_clear w a).a.Mirror) ∧
    (∀ (w : World α) (a : Ary α) (v : α), a.Mirror → (ary_push w a v).a.Mirror) ∧
    (∀ (w : World α) (a : Ary α), a.Mirror → (ary_pushp w a).a.Mirror) ∧
    (∀ (w : World α) (a : Ary α) (ret : Bool), a.Mirror → (ary_pop w a ret).a.Mirror) ∧
    (∀ (w : World α) (a : Ary α) (ret : Bool), a.Mirror → (ary_shift w a ret).a.Mirror) ∧
    (∀ (w : World α) (a : Ary α) (pos rlen alen : Nat), a.Mirror → a.s.Inv →
        (ary_splicep w a pos rlen alen).a.Mirror) ∧
    (∀ (w : World α) (a : Ary α) (pos rlen : Nat) (data : List α), a.Mirror → a.s.Inv →
        (ary_splice w a pos rlen data).a.Mirror) ∧
    (∀ (w : World α) (a : Ary α) (pos : Nat) (v : α), a.Mirror → a.s.Inv →
        (ary_insert w a pos v).a.Mirror) ∧
    (∀ (w : World α) (a : Ary α) (pos : Nat), a.Mirror → a.s.Inv →
        (ary_insertp w a pos).a.Mirror) ∧
    (∀ (w : World α) (a : Ary α) (v : α), a.Mirror → a.s.Inv →
        (ary_unshift w a v).a.Mirror) ∧
    (∀ (w : World α) (a : Ary α), a.Mirror → a.s.Inv → (ary_unshiftp w a).a.Mirror) ∧
    (∀ (w : World α) (a : Ary α) (pos : Nat), a.Mirror → a.s.Inv →
        (ary_remove w a pos).a.Mirror) ∧
    (∀ (w : World α) (a : Ary α) (pos : Nat), a.Mirror → a.s.Inv →
        (ary_emplace w a pos).a.Mirror) ∧
    (∀ (mix : Nat → α → α → α) (w : World α) (a : Ary α) (pos : Nat) (ret : Bool),
        a.Mirror → (ary_snatch mix w a pos ret).a.Mirror) ∧
    (∀ (w : World α) (a : Ary α) (nbuf : Ptr) (block : List α) (nlen nalloc : Nat),
        (ary_attach w a nbuf block nlen nalloc).a.Mirror) ∧
    (∀ (w : World α) (a : Ary α) (size : Bool), (ary_detach w a size).a.Mirror) ∧
    (∀ (sizeof : Nat) (w : World α) (a : Ary α), (ary_release sizeof w a).a.Mirror) ∧
    (∀ (sizeof : Nat) (w : World α) (a r : Ary α) (start stop : Nat),
        (ary_slice sizeof w a r start stop).r.Mirror ∧
        (ary_slice sizeof w a r start stop).a = a) ∧
    (∀ (sizeof : Nat) (w : World α) (a r : Ary α),
        (ary_clone sizeof w a r).r.Mirror ∧ (ary_clone sizeof w a r).a = a) ∧
    (∀ (w : World α) (a : Ary α), a.Mirror → (ary_reverse w a).a.Mirror) ∧
    (∀ (w : World α) (a : Ary α) (i j : Nat), a.Mirror → (ary_swap w a i j).a.Mirror) ∧
    (∀ (a : Ary α) (ctor dtor : Option (ElemCb α)), a.Mirror →
        (ary_setcbs a ctor dtor).Mirror) ∧
    (∀ (a : Ary α) (ptr : Ptr), a.Mirror → (ary_setuserp a ptr).Mirror) ∧
    (∀ (a : Ary α) (v : α), a.Mirror → (ary_setinitval a v).Mirror) := by
  refine ⟨?_, ?_, ?_, ?_, ?_, ?_, ?_, ?_, ?_, ?_, ?_, ?_, ?_, ?_, ?_, ?_, ?_, ?_, ?_, ?_, ?_,
    ?_, ?_, ?_, ?_, ?_, ?_, ?_⟩
  · exact fun sizeof w a hint => ary_init_mirror sizeof w a hint
  · exact fun w a extra hm => ary_grow_mirror w a extra hm
  · exact fun w a hm => ary_shrinktofit_mirror w a hm
  · exact fun w a nlen hm => ary_setlen_mirror w a nlen hm
  · exact fun w a hm => ary_setlen_mirror w a 0 hm
  · exact fun w a v hm => ary_push_mirror w a v hm
  · exact fun w a hm => ary_pushp_mirror w a hm
  · exact fun w a ret hm => ary_pop_mirror w a ret hm
  · exact fun w a ret hm => ary_shift_mirror w a ret hm
  · exact fun w a pos rlen alen hm hinv => ary_splicep_mirror w a pos rlen alen hm hinv
  · exact fun w a pos rlen data hm hinv => ary_splice_mirror w a pos rlen data hm hinv
  · exact fun w a pos v hm hinv => ary_insert_mirror w a pos v hm hinv
  · exact fun w a pos hm hinv => ary_splicep_mirror w a pos 0 1 hm hinv
  · exact fun w a v hm hinv => ary_unshift_mirror w a v hm hinv
  · exact fun w a hm hinv => ary_splicep_mirror w a 0 0 1 hm hinv
  · exact fun w a pos hm hinv => ary_splicep_mirror w a pos 1 0 hm hinv
  · exact fun w a pos hm hinv => ary_emplace_mirror w a pos hm hinv
  · exact fun mix w a pos ret hm => ary_snatch_mirror mix w a pos ret hm
  · exact fun w a nbuf block nlen nalloc => ⟨rfl, rfl⟩
  · exact fun w a size => ⟨rfl, rfl⟩
  · exact fun sizeof w a => ary_init_mirror sizeof _ a 0
  · exact fun sizeof w a r start stop => ary_slice_mirror sizeof w a r start stop
  · exact fun sizeof w a r => ary_slice_mirror sizeof w a r 0 a.s.len
  · exact fun w a hm => ary_reverse_mirror w a hm
  · exact fun w a i j hm => ary_swap_mirror w a i j hm
  · exact fun a ctor dtor hm => ⟨hm.1, hm.2⟩
  · exact fun a ptr hm => ⟨hm.1, hm.2⟩
  · exact fun a v hm => ⟨hm.1, hm.2⟩

/-- C38 (witness): `[10, 20, 30]` in a block of four slots has a faithful mirror, and so
has the array after a push, after a pop, after a splice that has to grow the block and
after a splice that the allocator refuses to serve. -/
theorem ary_mirror_preserved_witness :
    ary3.Mirror ∧ (ary_push okWorld ary3 40).a.Mirror ∧ (ary_pop okWorld ary3 true).a.Mirror ∧
      (ary_splicep okWorld ary3 1 1 5).a.Mirror ∧ (ary_splicep failWorld ary3 1 1 5).a.Mirror :=
  have h := ary_mirror_preserved Int
  ⟨by decide,
   h.2.2.2.2.2.1 okWorld ary3 40 (by decide),
   h.2.2.2.2.2.2.2.1 okWorld ary3 true (by decide),
   h.2.2.2.2.2.2.2.2.2.1 okWorld ary3 1 1 5 (by decide) (by decide),
   h.2.2.2.2.2.2.2.2.2.1 failWorld ary3 1 1 5 (by decide) (by decide)⟩

/-- C40: `ma_xchg` on the `int` mutarr `[1, 2]`, whose block has four slots, with the
positions 0 and 5. `ma_i2pos(5, len)` is `len = 2`, which is not below `len`; the call
returns 1 and exchanges slot 0 with slot 2, a slot that holds no live element: the
mutarr then holds `[0, 2]` and the dead slot 2 holds the 1. On the full mutarr
`[7, 5, 7]` the position resolved for 5 is 3, the capacity, a slot outside its block. -/
theorem ma_xchg_touches_dead_slot :
    ma12.elems = [1, 2] ∧ ma12.s.len = 2 ∧ ma_i2pos 5 ma12.s.len = 2 ∧
      (ma_xchg okWorld ma12 0 5).ret = 1 ∧
      (ma_xchg okWorld ma12 0 5).a.elems = [0, 2] ∧
      (ma_xchg okWorld ma12 0 5).a.s.cells = [0, 2, 1, 0] ∧
      ma_i2pos 5 ma757.s.len = ma757.s.alloc := by
  decide

/-- C39: the two splice engines on the same elements. Take a well-formed array and a
well-formed mutarr without destructor that hold the same elements, an `int` offset with
`0 <= offset <= len`, any `rlen`, at least one element of `data`, allocators that never
return `NULL`, and `len + dlen` below `2 ^ 51`. Then `ary_splice` returns 1, `ma_splice`
returns a non-NULL pointer, and both leave the elements before the offset, then `data`,
then the elements from `offset + min(rlen, len - offset)` on, with the same length in
the typed and in the untyped part. -/
theorem splice_engines_agree (wa wm : World α) (a : Ary α) (m : Mutarr α) (offset rlen : Nat)
    (data : List α) (hwa : a.WF) (hwm : m.WF) (hsame : m.elems = a.elems)
    (hd : m.s.dtor = none) (hoff : offset ≤ a.s.len) (hint : offset < 2 ^ 31)
    (hdata : 1 ≤ data.length) (hb : a.s.len + data.length < 2 ^ 51)
    (hokA : ∀ n p k sz, (wa.xrealloc n p k sz).1 ≠ 0)
    (hokM : ∀ n p k sz, (wm.xrealloc n p k sz).1 ≠ 0) :
    (ary_splice wa a offset rlen data).ret = 1 ∧
      (ma_splice wm m (offset : Int) rlen data).ret ≠ NULL ∧
      (ma_splice wm m (offset : Int) rlen data).a.elems
        = (ary_splice wa a offset rlen data).a.elems ∧
      (ary_splice wa a offset rlen data).a.elems
        = a.elems.take offset ++ data ++ a.elems.drop (offset + min rlen (a.s.len - offset)) ∧
      (ma_splice wm m (offset : Int) rlen data).a.s.len
        = (ary_splice wa a offset rlen data).a.s.len ∧
      (ma_splice wm m (offset : Int) rlen data).a.len
        = (ary_splice wa a offset rlen data).a.len ∧
      (ary_splice wa a offset rlen data).a.len
        = a.s.len - min rlen (a.s.len - offset) + data.length := by
  have hlenA : a.elems.length = a.s.len := elems_length a hwa
  obtain ⟨_, _, m3, m4, m5, m6⟩ := hwm
  have hlenM : m.s.len = a.s.len := by
    have h := congrArg List.length hsame
    unfold Mutarr.elems at h
    rw [List.length_take, hlenA, m4] at h
    omega
  have hretA := ary_splice_succeeds wa a offset rlen data hwa
    (lt_trans hb (by norm_num)) hdata hokA
  obtain ⟨a1, a2, a3, _⟩ := ary_splice_ok wa a offset rlen data hwa
    (lt_trans hb (by norm_num)) hretA
  have hPa : min offset a.s.len = offset := min_eq_left hoff
  rw [hPa] at a1 a2 a3
  have hpos : ma_i2pos (offset : Int) m.s.len = offset := by
    rw [ma_i2pos_cases (offset : Int) m.s.len (by unfold INT_MIN; omega) (by omega)
      (lt_of_le_of_lt m3 m6)]
    rw [if_pos (by omega), if_pos (by omega)]
    exact Int.toNat_ofNat offset
  obtain ⟨r1, r2, r3⟩ := Fn.ma_splice_ok wm m.s (offset : Int) rlen data hd m3 m4 m5
    (by rw [hpos]; omega) (by omega) hdata hokM
  rw [hpos, hlenM] at r2 r3
  have hm : ma_splice wm m (offset : Int) rlen data =
      ⟨(Fn.ma_splice wm m.s (offset : Int) rlen data).w,
       { m with s := (Fn.ma_splice wm m.s (offset : Int) rlen data).s
                ptr := (Fn.ma_splice wm m.s (offset : Int) rlen data).ret
                buf := (Fn.ma_splice wm m.s (offset : Int) rlen data).s.buf
                len := (Fn.ma_splice wm m.s (offset : Int) rlen data).s.len },
       (Fn.ma_splice wm m.s (offset : Int) rlen data).ret⟩ := by
    unfold ma_splice
    simp only
    rw [if_pos r1]
  have hel : (ma_splice wm m (offset : Int) rlen data).a.elems
      = a.elems.take offset ++ data ++ a.elems.drop (offset + min rlen (a.s.len - offset)) := by
    rw [hm]
    show (Fn.ma_splice wm m.s (offset : Int) rlen data).s.cells.take
      (Fn.ma_splice wm m.s (offset : Int) rlen data).s.len = _
    have hE : m.s.cells.take a.s.len = a.elems := by
      rw [← hlenM]
      exact hsame
    rw [r2, r3, hE, ← take_of_take_eq m.s.cells a.elems a.s.len offset hE hoff]
  refine ⟨hretA, ?_, hel.trans a1.symm, a1, ?_, ?_, a3⟩
  · rw [hm]
    exact r1
  · rw [hm, a2]
    exact r2
  · rw [hm, a3]
    exact r2

/-- C39 (witness): replacing the element at position 1 of `[1, 2]` by `[8, 9]`, in the
array and in the mutarr. -/
theorem splice_engines_agree_witness :
    (ma_splice okWorld ma12 1 1 [8, 9]).a.elems = (ary_splice okWorld ary12 1 1 [8, 9]).a.elems ∧
      (ary_splice okWorld ary12 1 1 [8, 9]).a.elems = [1, 8, 9] :=
  have h := splice_engines_agree okWorld okWorld ary12 ma12 1 1 [8, 9] (by decide) (by decide)
    (by decide) rfl (by decide) (by decide) (by decide) (by decide)
    (fun n _ _ _ => Nat.succ_ne_zero n) (fun n _ _ _ => Nat.succ_ne_zero n)
  ⟨h.2.2.1, h.2.2.2.1.trans (by decide)⟩

end AryC
